import Mathlib

/-!
# ContrastiveBatchLossLayer: a shallow embedding

Source: `src/caffe/layers/contrastive_batch_loss_layer.cpp` and
`src/caffe/test/test_contrastive_batch_loss_layer.cpp`.

Conventions of the embedding.

* `Dtype` is an arbitrary linearly ordered field `α` with a square-root
  function `sqrt : α → α` passed as a parameter (instantiated with `ℝ` and
  `Real.sqrt` where analysis or a concrete square root is needed).  Arithmetic
  is exact: rounding of `float`/`double` is not modelled, and `Dtype(1e-4)` is
  the number `1 / 10000`.
* In `Forward_cpu` and `Backward_cpu` an `int` is a natural number and `int`
  arithmetic is exact (`num - 1` is only used as a loop bound, where truncated
  subtraction gives the same iterations; `i / image_batch_copies` is
  natural-number division, which agrees with the division of `int` for the
  positive `image_batch_copies` the statements assume).  This is the run of
  the layer as long as no `int` overflows.  The 32-bit reading is
  `Forward_cpu_checked` and `Backward_cpu_checked` (last item).
* A raw buffer (`cpu_data()`, `mutable_cpu_diff()`, ...) is a map `Nat → α`
  from element offsets to values; a pointer `buf + off` is the pair of the
  buffer and the offset.  `top[0]` is a scalar blob: one data and one diff
  value.
* A `for` loop over an index range is a `List.foldl` over that range, the
  loop-carried variables being the accumulator.
* The helpers of `caffe/util/math_functions` and the gradient checker are not
  among the sources; they are modelled from the specification and marked so.
* Buffer offsets are not checked and `x / 0` is `0` in `Forward_cpu` and
  `Backward_cpu`.  The variants `Forward_cpu_checked` and `Backward_cpu_checked`
  run the same bodies in `Except Fault` with 32-bit `int`s.  The pair count
  `npairs = (num*(num-1))/2` is computed with the product wrapped to 32 bits
  (`int32`), and it is this value that sizes the cache in `Reshape` and that
  divides the loss sum and the upstream gradient.  Every access is compared
  with the element count of its blob (`outOfRange`), every division with a
  zero divisor (`divByZero`), and every `int` product used as a buffer offset
  and every `++c` with `INT_MAX` (`intOverflow`).  Where the sizes fit in an
  `int` the checked variants return what `Forward_cpu` and `Backward_cpu`
  return (`Forward_cpu_checked_ok`, `Backward_cpu_checked_ok`), and whenever
  a checked variant returns, it returns what the unchecked function returns
  (`Forward_cpu_checked_sound`, `Backward_cpu_checked_sound`).
-/

namespace Caffe

/-- The fields of `contrastive_loss_param()` read by the layer. -/
structure ContrastiveLossParameter (α : Type) where
  margin : α
  image_batch_copies : Nat
  legacy_version : Bool

/-- The blobs the layer touches: `bottom[0]` (shape `num × channels × 1 × 1`,
data and diff), `top[0]` (a scalar, data and diff) and the members `diff_`,
`dist_sq_`. -/
structure LayerState (α : Type) where
  num : Nat
  channels : Nat
  bottom_data : Nat → α
  bottom_diff : Nat → α
  top_data : α
  top_diff : α
  diff_ : Nat → α
  dist_sq_ : Nat → α

section Defs

variable {α : Type} [LinearOrderedField α]

/-! ## The layer (`contrastive_batch_loss_layer.cpp`) -/

/-- Modelled from the spec: `caffe_sub(n, a, b, y)` of `caffe/util/math_functions`
is missing from the sources; it writes the elementwise difference `a[k] - b[k]`,
`k < n`, into `y[k]` ("compute elementwise difference vector_i − vector_j into
PairDifference[c]").  `a`, `b`, `y` are pointers: a buffer and an offset. -/
def caffe_sub (n : Nat) (a : Nat → α) (aoff : Nat) (b : Nat → α) (boff : Nat)
    (y : Nat → α) (yoff : Nat) : Nat → α :=
  fun idx =>
    if yoff ≤ idx ∧ idx < yoff + n then a (aoff + (idx - yoff)) - b (boff + (idx - yoff))
    else y idx

/-- Modelled from the spec: `caffe_cpu_dot(n, x, y)` of
`caffe/util/math_functions` is missing from the sources; it returns the dot
product `sum over k < n of x[k] * y[k]` ("compute its dot product with
itself into PairSquaredDistance[c]"). -/
def caffe_cpu_dot (n : Nat) (x : Nat → α) (xoff : Nat) (y : Nat → α) (yoff : Nat) : α :=
  (List.range n).foldl (fun acc k => acc + x (xoff + k) * y (yoff + k)) 0

/-- Modelled from the spec: `caffe_cpu_axpby(n, alpha, x, beta, y)` of
`caffe/util/math_functions` is missing from the sources; it overwrites
`y[k]`, `k < n`, with `alpha * x[k] + beta * y[k]` ("add
alphaPos·PairDifference[c] to gradient row i", the call passing `beta = 1`). -/
def caffe_cpu_axpby (n : Nat) (alpha : α) (x : Nat → α) (xoff : Nat) (beta : α)
    (y : Nat → α) (yoff : Nat) : Nat → α :=
  fun idx =>
    if yoff ≤ idx ∧ idx < yoff + n then alpha * x (xoff + (idx - yoff)) + beta * y idx
    else y idx

/-- Modelled from the spec: `caffe_set(n, a, y)` of `caffe/util/math_functions`
is missing from the sources; it sets `y[k] = a` for `k < n` ("Zero the
gradient buffer (N vectors × C channels) before accumulation"). -/
def caffe_set (n : Nat) (a : α) (y : Nat → α) : Nat → α :=
  fun idx => if idx < n then a else y idx

/-- The largest value of the 32-bit `int`. -/
def INT_MAX : Nat := 2147483647

/-- The value a 32-bit `int` holds when the exact result of an operation is
`x`: `x` reduced modulo `2^32` into `[-2^31, 2^31)`. -/
def int32 (x : Int) : Int :=
  (x + 2147483648) % 4294967296 - 2147483648

/-- The `const int npairs = (num*(num-1))/2;` of `LayerSetUp`, `Reshape`,
`Forward_cpu` and `Backward_cpu`: the product is an `int`, the division
truncates. -/
def npairs (num : Nat) : Int :=
  (int32 ((num : Int) * ((num : Int) - 1))).tdiv 2

/-- The result of `Reshape`: element counts of `diff_` and `dist_sq_`
(`npairs * channels * 1 * 1` and `npairs * 1 * 1 * 1`), with `npairs` the
32-bit value; a negative `npairs` gives blobs without elements. -/
def Reshape (num channels : Nat) : Nat × Nat :=
  ((npairs num).toNat * channels, (npairs num).toNat)

/-- The variables carried by the two nested loops of `Forward_cpu`. -/
structure ForwardLocals (α : Type) where
  c : Nat
  loss : α
  diff_ : Nat → α
  dist_sq_ : Nat → α

/-- One iteration `(i, j)` of the inner loop of `Forward_cpu` (source lines
52-69), followed by the `++c` of the loop header. -/
def Forward_body (sqrt : α → α) (margin : α) (image_batch_copies : Nat)
    (legacy_version : Bool) (channels : Nat) (bottom_data : Nat → α) (i : Nat)
    (st : ForwardLocals α) (j : Nat) : ForwardLocals α :=
  let diff1 := caffe_sub channels bottom_data (i * channels) bottom_data (j * channels)
    st.diff_ (st.c * channels)
  let dist_sq1 := Function.update st.dist_sq_ st.c
    (caffe_cpu_dot channels diff1 (st.c * channels) diff1 (st.c * channels))
  let loss1 :=
    if i / image_batch_copies = j / image_batch_copies then
      st.loss + dist_sq1 st.c
    else
      if legacy_version then
        st.loss + max (margin - dist_sq1 st.c) 0
      else
        let dist := max (margin - sqrt (dist_sq1 st.c)) 0
        st.loss + dist * dist
  { c := st.c + 1, loss := loss1, diff_ := diff1, dist_sq_ := dist_sq1 }

/-- The two nested loops of `Forward_cpu`:
`for (i = 0, c = 0; i < num-1; ++i) for (j = i+1; j < num; ++j, ++c)`. -/
def Forward_loops (sqrt : α → α) (margin : α) (image_batch_copies : Nat)
    (legacy_version : Bool) (num channels : Nat) (bottom_data : Nat → α)
    (init : ForwardLocals α) : ForwardLocals α :=
  (List.range (num - 1)).foldl
    (fun st i =>
      (List.range' (i + 1) (num - (i + 1))).foldl
        (Forward_body sqrt margin image_batch_copies legacy_version channels bottom_data i) st)
    init

/-- `ContrastiveBatchLossLayer::Forward_cpu`, with exact `int` arithmetic and
unchecked accesses (`Forward_cpu_checked` is the 32-bit, checked run). -/
def Forward_cpu (sqrt : α → α) (p : ContrastiveLossParameter α) (s : LayerState α) :
    LayerState α :=
  let num := s.num
  let channels := s.channels
  let npairs := (num * (num - 1)) / 2
  let fin := Forward_loops sqrt p.margin p.image_batch_copies p.legacy_version num channels
    s.bottom_data { c := 0, loss := 0, diff_ := s.diff_, dist_sq_ := s.dist_sq_ }
  let loss := fin.loss / (npairs : α) / 2
  { s with diff_ := fin.diff_, dist_sq_ := fin.dist_sq_, top_data := loss }

/-- The variables carried by the two nested loops of `Backward_cpu`. -/
structure BackwardLocals (α : Type) where
  c : Nat
  bout : Nat → α

/-- One iteration `(i, j)` of the inner loop of `Backward_cpu` (source lines
97-139), followed by the `++c` of the loop header. -/
def Backward_body (sqrt : α → α) (margin : α) (image_batch_copies : Nat)
    (legacy_version : Bool) (channels : Nat) (alpha_p alpha_n : α)
    (diff_ dist_sq_ : Nat → α) (i : Nat) (st : BackwardLocals α) (j : Nat) :
    BackwardLocals α :=
  let bout1 :=
    if i / image_batch_copies = j / image_batch_copies then
      let b := caffe_cpu_axpby channels alpha_p diff_ (st.c * channels) 1 st.bout (i * channels)
      caffe_cpu_axpby channels alpha_n diff_ (st.c * channels) 1 b (j * channels)
    else
      let mdist : α :=
        if legacy_version then margin - dist_sq_ st.c
        else margin - sqrt (dist_sq_ st.c)
      let beta_p : α :=
        if legacy_version then -alpha_p
        else (-alpha_p) * mdist / (sqrt (dist_sq_ st.c) + 1 / 10000)
      let beta_n : α :=
        if legacy_version then -alpha_n
        else (-alpha_n) * mdist / (sqrt (dist_sq_ st.c) + 1 / 10000)
      if mdist > 0 then
        let b := caffe_cpu_axpby channels beta_p diff_ (st.c * channels) 1 st.bout (i * channels)
        caffe_cpu_axpby channels beta_n diff_ (st.c * channels) 1 b (j * channels)
      else st.bout
  { c := st.c + 1, bout := bout1 }

/-- The two nested loops of `Backward_cpu`, the same enumeration as in
`Forward_cpu`. -/
def Backward_loops (sqrt : α → α) (margin : α) (image_batch_copies : Nat)
    (legacy_version : Bool) (num channels : Nat) (alpha_p alpha_n : α)
    (diff_ dist_sq_ : Nat → α) (init : BackwardLocals α) : BackwardLocals α :=
  (List.range (num - 1)).foldl
    (fun st i =>
      (List.range' (i + 1) (num - (i + 1))).foldl
        (Backward_body sqrt margin image_batch_copies legacy_version channels alpha_p alpha_n
          diff_ dist_sq_ i) st)
    init

/-- `ContrastiveBatchLossLayer::Backward_cpu`, with exact `int` arithmetic
and unchecked accesses (`Backward_cpu_checked` is the 32-bit, checked run);
`propagate_down0` is `propagate_down[0]`. -/
def Backward_cpu (sqrt : α → α) (p : ContrastiveLossParameter α) (propagate_down0 : Bool)
    (s : LayerState α) : LayerState α :=
  if !propagate_down0 then s
  else
    let num := s.num
    let npairs := (num * (num - 1)) / 2
    let alpha_p := s.top_diff / (npairs : α)
    let alpha_n := -alpha_p
    let channels := s.channels
    let bout0 := caffe_set (channels * num) 0 s.bottom_diff
    let fin := Backward_loops sqrt p.margin p.image_batch_copies p.legacy_version num channels
      alpha_p alpha_n s.diff_ s.dist_sq_ { c := 0, bout := bout0 }
    { s with bottom_diff := fin.bout }

/-! ## The test fixture and the gradient check -/

/-- The test fixture's `dist_sq_calc(a, b, n)`. -/
def dist_sq_calc (a b : Nat → α) (n : Nat) : α :=
  (List.range n).foldl (fun dist_sq j => dist_sq + (a j - b j) * (a j - b j)) 0

/-- The test fixture's `loss_single(same, legacy, margin, a, b, n)`. -/
def loss_single (sqrt : α → α) (same legacy : Bool) (margin : α) (a b : Nat → α) (n : Nat) : α :=
  let dist_sq := dist_sq_calc a b n
  if same then dist_sq
  else if legacy then max (margin - dist_sq) 0
  else
    let dist := max (margin - sqrt dist_sq) 0
    dist * dist

/-- Pointer arithmetic `buf + off` on a raw buffer, as in the test's
`bottom + 1*2`. -/
def ptr_add (buf : Nat → α) (off : Nat) : Nat → α :=
  fun k => buf (off + k)

/-- The state `s` with the input scalar at offset `idx` of the batch replaced
by `x`. -/
def perturb (s : LayerState α) (idx : Nat) (x : α) : LayerState α :=
  { s with bottom_data := Function.update s.bottom_data idx x }

/-- Modelled from the spec: the gradient checker (`GradientChecker` of
`caffe/test/test_gradient_check_util.hpp`) is missing from the sources; its
estimate is the central finite difference
`(L(x + h * e_k) - L(x - h * e_k)) / (2 * h)` of the loss `L` written by
`Forward_cpu`, `x` being the batch and `e_k` the unit vector of the input
scalar at offset `idx`. -/
def finiteDifference (sqrt : α → α) (p : ContrastiveLossParameter α) (s : LayerState α)
    (idx : Nat) (h : α) : α :=
  ((Forward_cpu sqrt p (perturb s idx (s.bottom_data idx + h))).top_data
    - (Forward_cpu sqrt p (perturb s idx (s.bottom_data idx - h))).top_data) / (2 * h)

/-! ## Closed forms the code is compared with -/

/-- The pairs `(i, j)`, `i < j < num`, in the order the nested loops visit them. -/
def pairs (num : Nat) : List (Nat × Nat) :=
  (List.range (num - 1)).flatMap
    (fun i => (List.range' (i + 1) (num - (i + 1))).map (fun j => (i, j)))

/-- Squared Euclidean distance of vectors `i` and `j` of the batch. -/
def sqDist (channels : Nat) (bottom_data : Nat → α) (i j : Nat) : α :=
  ∑ k in Finset.range channels,
    (bottom_data (i * channels + k) - bottom_data (j * channels + k)) ^ 2

/-- The closed-form contribution of the pair `(i, j)` to the loss sum. -/
def contrib (sqrt : α → α) (margin : α) (copiesPerGroup : Nat) (legacy : Bool)
    (channels : Nat) (bottom_data : Nat → α) (i j : Nat) : α :=
  if i / copiesPerGroup = j / copiesPerGroup then sqDist channels bottom_data i j
  else if legacy then max (margin - sqDist channels bottom_data i j) 0
  else (max (margin - sqrt (sqDist channels bottom_data i j)) 0) ^ 2

/-- The coefficient `Backward_cpu` applies to the difference of the pair
`(i, j)` for row `i` (row `j` gets the opposite), as a function of the cached
squared distance `dsq` of the pair and of `alpha_p = g / P`. -/
def coef (sqrt : α → α) (margin : α) (copiesPerGroup : Nat) (legacy : Bool)
    (alpha_p dsq : α) (i j : Nat) : α :=
  if i / copiesPerGroup = j / copiesPerGroup then alpha_p
  else if legacy then (if margin - dsq > 0 then -alpha_p else 0)
  else (if margin - sqrt dsq > 0 then
      -alpha_p * (margin - sqrt dsq) / (sqrt dsq + 1 / 10000)
    else 0)

/-- What one pair adds to entry `idx` of the gradient buffer, given the
coefficient `K` applied to row `i` (and `-K` to row `j`) and the pair
difference `d`. -/
def pairDelta (channels : Nat) (K : α) (d : Nat → α) (i j idx : Nat) : α :=
  (if i * channels ≤ idx ∧ idx < i * channels + channels then K * d (idx - i * channels) else 0)
  + (if j * channels ≤ idx ∧ idx < j * channels + channels then -K * d (idx - j * channels)
     else 0)

/-- The cache holds, at the slots `c0, c0 + 1, ...`, the differences and
squared distances of the pairs of `l`, in order. -/
def CacheHolds (channels : Nat) (bottom_data diff_ dist_sq_ : Nat → α) (c0 : Nat)
    (l : List (Nat × Nat)) : Prop :=
  ∀ t (h : t < l.length),
    (∀ k, k < channels →
      diff_ ((c0 + t) * channels + k)
        = bottom_data (l[t].1 * channels + k)
          - bottom_data (l[t].2 * channels + k))
    ∧ dist_sq_ (c0 + t) = sqDist channels bottom_data l[t].1 l[t].2

/-- Derivative of the squared distance of the pair `(i, j)` with respect
to the input scalar of row `r`, channel `k0`. -/
def dSqDist (channels : Nat) (bottom_data : Nat → α) (r k0 i j : Nat) : α :=
  (if i = r then 2 * (bottom_data (i * channels + k0) - bottom_data (j * channels + k0)) else 0)
  - (if j = r then 2 * (bottom_data (i * channels + k0) - bottom_data (j * channels + k0)) else 0)

/-- Derivative of the closed-form contribution of the pair `(i, j)` with
respect to the input scalar of row `r`, channel `k0` (where the contribution
is differentiable). -/
def dContrib (sqrt : α → α) (margin : α) (copiesPerGroup : Nat) (legacy : Bool)
    (channels : Nat) (bottom_data : Nat → α) (r k0 i j : Nat) : α :=
  if i / copiesPerGroup = j / copiesPerGroup then dSqDist channels bottom_data r k0 i j
  else if legacy then
    (if margin - sqDist channels bottom_data i j > 0 then -dSqDist channels bottom_data r k0 i j
     else 0)
  else
    (if margin - sqrt (sqDist channels bottom_data i j) > 0 then
      2 * (margin - sqrt (sqDist channels bottom_data i j))
        * (-(dSqDist channels bottom_data r k0 i j
              / (2 * sqrt (sqDist channels bottom_data i j))))
     else 0)

/-- The factor by which the non-legacy `Backward_cpu` scales the derivative
of the contribution of the pair `(i, j)`: `d / (d + 1e-4)` with
`d = sqrt(dist²)` for a different-group pair with `margin - d > 0`, and 1
otherwise. -/
def epsScale (sqrt : α → α) (margin : α) (copiesPerGroup : Nat) (channels : Nat)
    (bottom_data : Nat → α) (i j : Nat) : α :=
  if i / copiesPerGroup = j / copiesPerGroup then 1
  else if margin - sqrt (sqDist channels bottom_data i j) > 0 then
    sqrt (sqDist channels bottom_data i j) / (sqrt (sqDist channels bottom_data i j) + 1 / 10000)
  else 1

/-! ## Concrete configurations and batches -/

/-- A layer configuration with the given margin, `image_batch_copies` and
`legacy_version`. -/
def paramsOf (margin : α) (image_batch_copies : Nat) (legacy_version : Bool) :
    ContrastiveLossParameter α :=
  { margin := margin, image_batch_copies := image_batch_copies, legacy_version := legacy_version }

/-- A layer state holding the batch given as a flat list (`num × channels`,
row-major); the other buffers hold arbitrary values. -/
def stateOf (num channels : Nat) (batch : List α) : LayerState α :=
  { num := num, channels := channels, bottom_data := fun idx => batch.getD idx 0,
    bottom_diff := fun _ => 7, top_data := 3, top_diff := 1,
    diff_ := fun _ => 9, dist_sq_ := fun _ => 11 }

/-- The state `s` with the loss slot, the cache and the gradient buffer
overwritten by the value `x`; the batch is kept. -/
def overwriteScratch (s : LayerState α) (x : α) : LayerState α :=
  { s with top_data := x, diff_ := fun _ => x, dist_sq_ := fun _ => x, bottom_diff := fun _ => x }

variable (α) in

/-- The batch `A = [0,0]`, `B = [0.1,0.1]`, `C_ = [5,5]`, `D = [5.1,4.9]`
(`N = 4`, `C = 2`). -/
def batchABCD : LayerState α :=
  stateOf 4 2 [0, 0, 1 / 10, 1 / 10, 5, 5, 51 / 10, 49 / 10]

variable (α) in

/-- The batch `[0,0]`, `[0,0]`, `[1,0]`, `[1,0]` (`N = 4`, `C = 2`): every
different-group pair has squared distance exactly 1. -/
def batchOnMargin : LayerState α :=
  stateOf 4 2 [0, 0, 0, 0, 1, 0, 1, 0]

variable (α) in

/-- The batch `[1/200,0]`, `[1/200,0]`, `[0,0]`, `[0,0]` (`N = 4`, `C = 2`):
every different-group pair has distance `1/200`. -/
def batchNear : LayerState α :=
  stateOf 4 2 [1 / 200, 0, 1 / 200, 0, 0, 0, 0, 0]

/-! ## Translation, pair indices and checked execution -/

/-- The state `s` with the vector `t` (of length `channels`) added to every
vector of the batch: entry `idx` of the input gets `t[idx mod channels]`. -/
def translate (s : LayerState α) (t : Nat → α) : LayerState α :=
  { s with bottom_data := fun idx => s.bottom_data idx + t (idx % s.channels) }

/-- The linear index of the pair `(i, j)`, `i < j < N`, in the canonical
enumeration: `i * N - i * (i + 1) / 2 + (j - i - 1)`. -/
def pairIndex (N i j : Nat) : Nat :=
  i * N - i * (i + 1) / 2 + (j - i - 1)

/-- The faults of a checked run: an access outside a buffer, a division by
zero, an `int` offset or counter beyond `INT_MAX`. -/
inductive Fault where
  | outOfRange
  | divByZero
  | intOverflow

/-- Division of `Dtype` values that reports a zero divisor. -/
def checkedDiv (x y : α) : Except Fault α :=
  if y = 0 then Except.error Fault.divByZero else Except.ok (x / y)

/-- One iteration of the inner loop of `Forward_cpu` with 32-bit `int`s and
checked accesses, in the order of the source: the offsets `i*channels`,
`j*channels`, `c*channels` are computed (`intOverflow` beyond `INT_MAX`);
`caffe_sub` reads rows `i` and `j` of the batch (`num * channels` elements)
and writes slot `c` of `diff_`, `caffe_cpu_dot` reads that slot, `dist_sq_[c]`
is written (`outOfRange` outside the element counts set by `Reshape`);
`i / image_batch_copies` and `j / image_batch_copies` are computed
(`divByZero`); the loop header does `++c` (`intOverflow` beyond `INT_MAX`). -/
def Forward_body_checked (sqrt : α → α) (margin : α) (image_batch_copies : Nat)
    (legacy_version : Bool) (num channels : Nat) (bottom_data : Nat → α) (i : Nat)
    (st : ForwardLocals α) (j : Nat) : Except Fault (ForwardLocals α) :=
  if INT_MAX < i * channels ∨ INT_MAX < j * channels ∨ INT_MAX < st.c * channels then
    Except.error Fault.intOverflow
  else if i * channels + channels ≤ num * channels ∧ j * channels + channels ≤ num * channels
      ∧ st.c * channels + channels ≤ (Reshape num channels).1
      ∧ st.c < (Reshape num channels).2 then
    if image_batch_copies = 0 then Except.error Fault.divByZero
    else if INT_MAX < st.c + 1 then Except.error Fault.intOverflow
    else Except.ok (Forward_body sqrt margin image_batch_copies legacy_version channels
      bottom_data i st j)
  else Except.error Fault.outOfRange

/-- The two nested loops of `Forward_cpu`, checked. -/
def Forward_loops_checked (sqrt : α → α) (margin : α) (image_batch_copies : Nat)
    (legacy_version : Bool) (num channels : Nat) (bottom_data : Nat → α)
    (init : ForwardLocals α) : Except Fault (ForwardLocals α) :=
  (List.range (num - 1)).foldlM
    (fun st i =>
      (List.range' (i + 1) (num - (i + 1))).foldlM
        (Forward_body_checked sqrt margin image_batch_copies legacy_version num channels
          bottom_data i) st)
    init

/-- `Forward_cpu` with 32-bit `int`s, checked accesses and checked divisions:
the loops, then `loss / static_cast<Dtype>(npairs)` with the 32-bit `npairs`,
then `/ Dtype(2)`, then the write of the loss slot. -/
def Forward_cpu_checked (sqrt : α → α) (p : ContrastiveLossParameter α) (s : LayerState α) :
    Except Fault (LayerState α) :=
  (Forward_loops_checked sqrt p.margin p.image_batch_copies p.legacy_version s.num s.channels
      s.bottom_data { c := 0, loss := 0, diff_ := s.diff_, dist_sq_ := s.dist_sq_ }).bind
    (fun fin => (checkedDiv fin.loss ((npairs s.num : Int) : α)).bind
      (fun l1 => (checkedDiv l1 2).bind
        (fun loss => Except.ok
          { s with diff_ := fin.diff_, dist_sq_ := fin.dist_sq_, top_data := loss })))

/-- The value of `beta_p` (with `alpha = alpha_p`) and of `beta_n` (with
`alpha = alpha_n`) in the non-legacy branch of `Backward_cpu`:
`-alpha * mdist / (dist + Dtype(1e-4))` with `dist = sqrt(dist_sq_[c])` and
`mdist = margin - dist`. -/
def beta_nonlegacy (sqrt : α → α) (margin alpha dsq : α) : α :=
  (-alpha) * (margin - sqrt dsq) / (sqrt dsq + 1 / 10000)

/-- The two `caffe_cpu_axpby` of an iteration of `Backward_cpu` and the
`++c` of the loop header, checked: the offsets `c*channels`, `i*channels`,
`j*channels` (`intOverflow` beyond `INT_MAX`), the reads of slot `c` of
`diff_` and the updates of rows `i` and `j` of the gradient buffer
(`outOfRange`), then `++c`. -/
def Backward_axpby_checked (num channels i j : Nat) (st res : BackwardLocals α) :
    Except Fault (BackwardLocals α) :=
  if INT_MAX < st.c * channels ∨ INT_MAX < i * channels ∨ INT_MAX < j * channels then
    Except.error Fault.intOverflow
  else if st.c * channels + channels ≤ (Reshape num channels).1
      ∧ i * channels + channels ≤ num * channels
      ∧ j * channels + channels ≤ num * channels then
    if INT_MAX < st.c + 1 then Except.error Fault.intOverflow else Except.ok res
  else Except.error Fault.outOfRange

/-- One iteration of the inner loop of `Backward_cpu` with 32-bit `int`s,
checked accesses and checked divisions, in the order of the source: the
integer divisions of the group test; for a same-group pair the two
`caffe_cpu_axpby`; for a different-group pair the read of `dist_sq_[c]`, in
non-legacy mode the two divisions by `dist + 1e-4`, and when `mdist > 0` the
two `caffe_cpu_axpby`; then `++c`.  `res` is what the unchecked iteration
returns. -/
def Backward_body_checked (sqrt : α → α) (margin : α) (image_batch_copies : Nat)
    (legacy_version : Bool) (num channels : Nat) (alpha_p alpha_n : α)
    (diff_ dist_sq_ : Nat → α) (i : Nat) (st : BackwardLocals α) (j : Nat) :
    Except Fault (BackwardLocals α) :=
  let res := Backward_body sqrt margin image_batch_copies legacy_version channels
    alpha_p alpha_n diff_ dist_sq_ i st j
  if image_batch_copies = 0 then Except.error Fault.divByZero
  else if i / image_batch_copies = j / image_batch_copies then
    Backward_axpby_checked num channels i j st res
  else if st.c < (Reshape num channels).2 then
    if legacy_version = false ∧ sqrt (dist_sq_ st.c) + 1 / 10000 = 0 then
      Except.error Fault.divByZero
    else if (if legacy_version then margin - dist_sq_ st.c
        else margin - sqrt (dist_sq_ st.c)) > 0 then
      Backward_axpby_checked num channels i j st res
    else if INT_MAX < st.c + 1 then Except.error Fault.intOverflow
    else Except.ok res
  else Except.error Fault.outOfRange

/-- The two nested loops of `Backward_cpu`, checked. -/
def Backward_loops_checked (sqrt : α → α) (margin : α) (image_batch_copies : Nat)
    (legacy_version : Bool) (num channels : Nat) (alpha_p alpha_n : α)
    (diff_ dist_sq_ : Nat → α) (init : BackwardLocals α) : Except Fault (BackwardLocals α) :=
  (List.range (num - 1)).foldlM
    (fun st i =>
      (List.range' (i + 1) (num - (i + 1))).foldlM
        (Backward_body_checked sqrt margin image_batch_copies legacy_version num channels
          alpha_p alpha_n diff_ dist_sq_ i) st)
    init

/-- `Backward_cpu` with 32-bit `int`s, checked accesses and checked
divisions: the early return, `alpha_p = top[0]->cpu_diff()[0] / npairs` with
the 32-bit `npairs`, the count `channels*num` of `caffe_set` (`intOverflow`
beyond `INT_MAX`), `caffe_set` on that many elements of the gradient buffer,
then the loops. -/
def Backward_cpu_checked (sqrt : α → α) (p : ContrastiveLossParameter α)
    (propagate_down0 : Bool) (s : LayerState α) : Except Fault (LayerState α) :=
  if !propagate_down0 then Except.ok s
  else
    (checkedDiv s.top_diff ((npairs s.num : Int) : α)).bind
      (fun alpha_p =>
        if INT_MAX < s.channels * s.num then Except.error Fault.intOverflow
        else
          (Backward_loops_checked sqrt p.margin p.image_batch_copies p.legacy_version s.num
              s.channels alpha_p (-alpha_p) s.diff_ s.dist_sq_
              { c := 0, bout := caffe_set (s.channels * s.num) 0 s.bottom_diff }).bind
            (fun fin => Except.ok { s with bottom_diff := fin.bout }))

variable (α) in

/-- A batch of `N = 65537` vectors with `C = 1` channel (the first vector is
`[1]`, the others `[0]`): `N * (N - 1) = 4295032832` is beyond `INT_MAX`. -/
def batchWide : LayerState α :=
  { num := 65537, channels := 1, bottom_data := fun idx => if idx = 0 then 1 else 0,
    bottom_diff := fun _ => 0, top_data := 0, top_diff := 1,
    diff_ := fun _ => 0, dist_sq_ := fun _ => 0 }

end Defs

section Lemmas

variable {α : Type} [LinearOrderedField α]

/-! ## Loops and sums over the pairs -/

theorem foldl_add_eq_sum (f : Nat → α) (n : Nat) (a : α) :
    (List.range n).foldl (fun acc k => acc + f k) a = a + ∑ k in Finset.range n, f k := by
  induction n with
  | zero => simp
  | succ n ih =>
    rw [List.range_succ, List.foldl_append, ih, Finset.sum_range_succ]
    simp [add_assoc]

theorem caffe_cpu_dot_eq (n : Nat) (x : Nat → α) (xoff : Nat) (y : Nat → α) (yoff : Nat) :
    caffe_cpu_dot n x xoff y yoff = ∑ k in Finset.range n, x (xoff + k) * y (yoff + k) := by
  unfold caffe_cpu_dot
  rw [foldl_add_eq_sum]
  simp

theorem caffe_sub_read (n : Nat) (a : Nat → α) (aoff : Nat) (b : Nat → α) (boff : Nat)
    (y : Nat → α) (yoff k : Nat) (hk : k < n) :
    caffe_sub n a aoff b boff y yoff (yoff + k) = a (aoff + k) - b (boff + k) := by
  unfold caffe_sub
  simp [hk]

theorem foldl_pairs {β : Type} (g : β → Nat → Nat → β) (l : List Nat) (r : Nat → List Nat)
    (init : β) :
    (l.flatMap (fun i => (r i).map (fun j => (i, j)))).foldl (fun st q => g st q.1 q.2) init
      = l.foldl (fun st i => (r i).foldl (fun st j => g st i j) st) init := by
  induction l generalizing init with
  | nil => simp
  | cons i l ih =>
    simp only [List.flatMap_cons, List.foldl_append, List.foldl_cons, List.foldl_map]
    exact ih _

theorem Forward_loops_eq_foldl_pairs (sqrt : α → α) (margin : α) (copies : Nat)
    (legacy : Bool) (num channels : Nat) (bottom_data : Nat → α) (init : ForwardLocals α) :
    Forward_loops sqrt margin copies legacy num channels bottom_data init
      = (pairs num).foldl
          (fun st q => Forward_body sqrt margin copies legacy channels bottom_data q.1 st q.2)
          init := by
  unfold Forward_loops pairs
  rw [foldl_pairs (fun st i j => Forward_body sqrt margin copies legacy channels bottom_data i st j)]

theorem dot_caffe_sub_eq_sqDist (channels : Nat) (bottom_data y : Nat → α) (i j c : Nat) :
    caffe_cpu_dot channels
        (caffe_sub channels bottom_data (i * channels) bottom_data (j * channels) y (c * channels))
        (c * channels)
        (caffe_sub channels bottom_data (i * channels) bottom_data (j * channels) y (c * channels))
        (c * channels)
      = sqDist channels bottom_data i j := by
  rw [caffe_cpu_dot_eq]
  unfold sqDist
  refine Finset.sum_congr rfl (fun k hk => ?_)
  rw [caffe_sub_read _ _ _ _ _ _ _ _ (Finset.mem_range.mp hk), sq]

theorem Forward_body_c (sqrt : α → α) (margin : α) (copies : Nat) (legacy : Bool)
    (channels : Nat) (bottom_data : Nat → α) (i : Nat) (st : ForwardLocals α) (j : Nat) :
    (Forward_body sqrt margin copies legacy channels bottom_data i st j).c = st.c + 1 := rfl

theorem Forward_body_diff (sqrt : α → α) (margin : α) (copies : Nat) (legacy : Bool)
    (channels : Nat) (bottom_data : Nat → α) (i : Nat) (st : ForwardLocals α) (j : Nat) :
    (Forward_body sqrt margin copies legacy channels bottom_data i st j).diff_
      = caffe_sub channels bottom_data (i * channels) bottom_data (j * channels)
          st.diff_ (st.c * channels) := rfl

theorem Forward_body_dist_sq (sqrt : α → α) (margin : α) (copies : Nat) (legacy : Bool)
    (channels : Nat) (bottom_data : Nat → α) (i : Nat) (st : ForwardLocals α) (j : Nat) :
    (Forward_body sqrt margin copies legacy channels bottom_data i st j).dist_sq_
      = Function.update st.dist_sq_ st.c (sqDist channels bottom_data i j) := by
  unfold Forward_body
  simp only [dot_caffe_sub_eq_sqDist]

theorem Forward_body_loss (sqrt : α → α) (margin : α) (copies : Nat) (legacy : Bool)
    (channels : Nat) (bottom_data : Nat → α) (i : Nat) (st : ForwardLocals α) (j : Nat) :
    (Forward_body sqrt margin copies legacy channels bottom_data i st j).loss
      = st.loss + contrib sqrt margin copies legacy channels bottom_data i j := by
  unfold Forward_body contrib
  simp only [dot_caffe_sub_eq_sqDist, Function.update_same]
  split_ifs <;> simp [sq]

theorem foldl_Forward_body_c (sqrt : α → α) (margin : α) (copies : Nat) (legacy : Bool)
    (channels : Nat) (bottom_data : Nat → α) (l : List (Nat × Nat)) (init : ForwardLocals α) :
    (l.foldl (fun st q => Forward_body sqrt margin copies legacy channels bottom_data q.1 st q.2)
        init).c = init.c + l.length := by
  induction l generalizing init with
  | nil => simp
  | cons q l ih =>
    rw [List.foldl_cons, ih, Forward_body_c, List.length_cons]
    omega

theorem foldl_Forward_body_loss (sqrt : α → α) (margin : α) (copies : Nat) (legacy : Bool)
    (channels : Nat) (bottom_data : Nat → α) (l : List (Nat × Nat)) (init : ForwardLocals α) :
    (l.foldl (fun st q => Forward_body sqrt margin copies legacy channels bottom_data q.1 st q.2)
        init).loss
      = init.loss
        + (l.map (fun q => contrib sqrt margin copies legacy channels bottom_data q.1 q.2)).sum := by
  induction l generalizing init with
  | nil => simp
  | cons q l ih =>
    rw [List.foldl_cons, ih, Forward_body_loss, List.map_cons, List.sum_cons, add_assoc]

theorem sum_map_range {M : Type} [AddCommMonoid M] (f : Nat → M) (n : Nat) :
    ((List.range n).map f).sum = ∑ i in Finset.range n, f i := by
  induction n with
  | zero => simp
  | succ n ih => rw [List.range_succ, List.map_append, List.sum_append, ih, Finset.sum_range_succ]; simp

theorem sum_map_range' {M : Type} [AddCommMonoid M] (f : Nat → M) (a n : Nat) :
    ((List.range' a n).map f).sum = ∑ j in Finset.Ico a (a + n), f j := by
  induction n with
  | zero => simp
  | succ n ih =>
    rw [List.range'_concat, List.map_append, List.sum_append, ih, ← add_assoc,
      Finset.sum_Ico_succ_top (by omega)]
    simp

theorem sum_map_flatMap_pairs {M : Type} [AddCommMonoid M] (f : Nat × Nat → M) (l : List Nat)
    (r : Nat → List Nat) :
    ((l.flatMap (fun i => (r i).map (fun j => (i, j)))).map f).sum
      = (l.map (fun i => ((r i).map (fun j => f (i, j))).sum)).sum := by
  induction l with
  | nil => simp
  | cons i l ih =>
    simp only [List.flatMap_cons, List.map_append, List.sum_append, List.map_cons, List.sum_cons,
      List.map_map, ih]
    rfl

/-- A sum over the loop's pair list is the double sum over `i < j < num`. -/
theorem sum_map_pairs {M : Type} [AddCommMonoid M] (f : Nat × Nat → M) (num : Nat) :
    ((pairs num).map f).sum
      = ∑ i in Finset.range num, ∑ j in Finset.Ico (i + 1) num, f (i, j) := by
  unfold pairs
  rw [sum_map_flatMap_pairs, sum_map_range]
  have h1 : ∀ i ∈ Finset.range (num - 1),
      ((List.range' (i + 1) (num - (i + 1))).map (fun j => f (i, j))).sum
        = ∑ j in Finset.Ico (i + 1) num, f (i, j) := by
    intro i hi
    rw [sum_map_range']
    have : i + 1 + (num - (i + 1)) = num := by
      have := Finset.mem_range.mp hi
      omega
    rw [this]
  rw [Finset.sum_congr rfl h1]
  rcases Nat.eq_zero_or_pos num with h0 | hpos
  · subst h0; simp
  · obtain ⟨m, rfl⟩ : ∃ m, num = m + 1 := ⟨num - 1, by omega⟩
    rw [Finset.sum_range_succ]
    simp

theorem pairs_length_mul_two (num : Nat) : (pairs num).length * 2 = num * (num - 1) := by
  have h1 : (pairs num).length = ((pairs num).map (fun _ => 1)).sum := by simp
  rw [h1, sum_map_pairs]
  simp only [Finset.sum_const, Nat.card_Ico, smul_eq_mul, mul_one]
  rw [← Finset.sum_range_reflect, ← Finset.sum_range_id_mul_two]
  congr 1
  refine Finset.sum_congr rfl (fun i hi => ?_)
  have := Finset.mem_range.mp hi
  omega

theorem npairs_eq_length (num : Nat) : num * (num - 1) / 2 = (pairs num).length := by
  rw [← pairs_length_mul_two]
  simp

/-! ## The loss written by `Forward_cpu` (for C1, C2) -/

/-- The loss written by `Forward_cpu`, for any batch: the loop total divided by
`npairs` and by 2. -/
theorem Forward_cpu_top_data (sqrt : α → α) (p : ContrastiveLossParameter α) (s : LayerState α) :
    (Forward_cpu sqrt p s).top_data
      = (∑ i in Finset.range s.num, ∑ j in Finset.Ico (i + 1) s.num,
          contrib sqrt p.margin p.image_batch_copies p.legacy_version s.channels
            s.bottom_data i j) / ((s.num * (s.num - 1) / 2 : ℕ) : α) / 2 := by
  unfold Forward_cpu
  simp only
  rw [Forward_loops_eq_foldl_pairs, foldl_Forward_body_loss, zero_add,
    sum_map_pairs (fun q => contrib sqrt p.margin p.image_batch_copies p.legacy_version
      s.channels s.bottom_data q.1 q.2)]

theorem cast_npairs (num : Nat) (h : 1 ≤ num) :
    ((num * (num - 1) / 2 : ℕ) : α) = (num : α) * ((num : α) - 1) / 2 := by
  have h2 : ((num * (num - 1) / 2 : ℕ) : α) * 2 = (num : α) * ((num : α) - 1) := by
    have := pairs_length_mul_two num
    rw [npairs_eq_length]
    have h3 : (((pairs num).length * 2 : ℕ) : α) = ((num * (num - 1) : ℕ) : α) := by rw [this]
    push_cast [Nat.cast_sub h] at h3
    exact h3
  rw [← h2]
  simp

theorem dist_sq_calc_eq (a b : Nat → α) (n : Nat) :
    dist_sq_calc a b n = ∑ k in Finset.range n, (a k - b k) ^ 2 := by
  unfold dist_sq_calc
  rw [foldl_add_eq_sum]
  simp [sq]

theorem loss_single_eq_contrib (sqrt : α → α) (margin : α) (copies : Nat) (legacy : Bool)
    (channels : Nat) (bottom_data : Nat → α) (i j : Nat) :
    loss_single sqrt (decide (i / copies = j / copies)) legacy margin
        (ptr_add bottom_data (i * channels)) (ptr_add bottom_data (j * channels)) channels
      = contrib sqrt margin copies legacy channels bottom_data i j := by
  unfold loss_single contrib sqDist ptr_add
  simp only [dist_sq_calc_eq, decide_eq_true_eq]
  split_ifs <;> simp [sq]

theorem sum_pairs_four (f : Nat → Nat → α) :
    (∑ i in Finset.range 4, ∑ j in Finset.Ico (i + 1) 4, f i j)
      = f 0 1 + f 2 3 + f 0 2 + f 0 3 + f 1 2 + f 1 3 := by
  simp [Finset.sum_range_succ, Finset.sum_Ico_eq_sum_range]
  ring

theorem loss_div_eq (x P : α) : x / P / 2 = 1 / (2 * P) * x := by
  ring

theorem loss_single_ptr_eq_contrib (sqrt : α → α) (margin : α) (legacy : Bool)
    (bottom_data : Nat → α) (i j : Nat) :
    loss_single sqrt (decide (i / 2 = j / 2)) legacy margin
        (ptr_add bottom_data (i * 2)) (ptr_add bottom_data (j * 2)) 2
      = contrib sqrt margin 2 legacy 2 bottom_data i j :=
  loss_single_eq_contrib sqrt margin 2 legacy 2 bottom_data i j

/-! ## The cache and the gradient written by `Backward_cpu` (for C3) -/

theorem caffe_cpu_axpby_one (n : Nat) (a : α) (x : Nat → α) (xoff : Nat) (y : Nat → α)
    (yoff idx : Nat) :
    caffe_cpu_axpby n a x xoff 1 y yoff idx
      = y idx + (if yoff ≤ idx ∧ idx < yoff + n then a * x (xoff + (idx - yoff)) else 0) := by
  unfold caffe_cpu_axpby
  split_ifs <;> ring

theorem Backward_body_c (sqrt : α → α) (margin : α) (copies : Nat) (legacy : Bool)
    (channels : Nat) (alpha_p alpha_n : α) (diff_ dist_sq_ : Nat → α) (i : Nat)
    (st : BackwardLocals α) (j : Nat) :
    (Backward_body sqrt margin copies legacy channels alpha_p alpha_n diff_ dist_sq_ i st j).c
      = st.c + 1 := rfl

theorem Backward_body_bout (sqrt : α → α) (margin : α) (copies : Nat) (legacy : Bool)
    (channels : Nat) (alpha_p : α) (diff_ dist_sq_ : Nat → α) (i : Nat)
    (st : BackwardLocals α) (j idx : Nat) :
    (Backward_body sqrt margin copies legacy channels alpha_p (-alpha_p) diff_ dist_sq_ i st j).bout
        idx
      = st.bout idx
        + pairDelta channels (coef sqrt margin copies legacy alpha_p (dist_sq_ st.c) i j)
            (fun k => diff_ (st.c * channels + k)) i j idx := by
  unfold Backward_body pairDelta coef
  dsimp only
  by_cases hg : i / copies = j / copies
  · simp only [hg, if_true, caffe_cpu_axpby_one]
    split_ifs <;> ring
  · simp only [hg, if_false]
    cases legacy
    · simp only [Bool.false_eq_true, if_false]
      by_cases hm : margin - sqrt (dist_sq_ st.c) > 0
      · simp only [hm, if_true, caffe_cpu_axpby_one]
        split_ifs <;> ring
      · simp only [hm, if_false]
        simp
    · simp only [if_true]
      by_cases hm : margin - dist_sq_ st.c > 0
      · simp only [hm, if_true, caffe_cpu_axpby_one]
        split_ifs <;> ring
      · simp only [hm, if_false]
        simp

theorem Backward_loops_eq_foldl_pairs (sqrt : α → α) (margin : α) (copies : Nat)
    (legacy : Bool) (num channels : Nat) (alpha_p alpha_n : α) (diff_ dist_sq_ : Nat → α)
    (init : BackwardLocals α) :
    Backward_loops sqrt margin copies legacy num channels alpha_p alpha_n diff_ dist_sq_ init
      = (pairs num).foldl
          (fun st q => Backward_body sqrt margin copies legacy channels alpha_p alpha_n
            diff_ dist_sq_ q.1 st q.2)
          init := by
  unfold Backward_loops pairs
  rw [foldl_pairs (fun st i j => Backward_body sqrt margin copies legacy channels alpha_p alpha_n
    diff_ dist_sq_ i st j)]

/-- Frame and content of the cache after the forward loop over a list of pairs:
slots below the start counter are untouched, the slots of the list hold the
differences and squared distances. -/
theorem foldl_Forward_body_cache (sqrt : α → α) (margin : α) (copies : Nat) (legacy : Bool)
    (channels : Nat) (bottom_data : Nat → α) (l : List (Nat × Nat)) (init : ForwardLocals α) :
    let fin := l.foldl
      (fun st q => Forward_body sqrt margin copies legacy channels bottom_data q.1 st q.2) init
    (∀ idx, idx < init.c * channels → fin.diff_ idx = init.diff_ idx)
    ∧ (∀ c, c < init.c → fin.dist_sq_ c = init.dist_sq_ c)
    ∧ CacheHolds channels bottom_data fin.diff_ fin.dist_sq_ init.c l := by
  induction l generalizing init with
  | nil =>
    refine ⟨fun _ _ => rfl, fun _ _ => rfl, ?_⟩
    intro t h
    simp at h
  | cons q l ih =>
    simp only [List.foldl_cons]
    obtain ⟨ih1, ih2, ih3⟩ := ih
      (Forward_body sqrt margin copies legacy channels bottom_data q.1 init q.2)
    rw [Forward_body_c] at ih1 ih2 ih3
    have hd : ∀ idx, idx < init.c * channels →
        (Forward_body sqrt margin copies legacy channels bottom_data q.1 init q.2).diff_ idx
          = init.diff_ idx := by
      intro idx hidx
      rw [Forward_body_diff]
      unfold caffe_sub
      rw [if_neg (by omega)]
    have hs : ∀ c, c < init.c →
        (Forward_body sqrt margin copies legacy channels bottom_data q.1 init q.2).dist_sq_ c
          = init.dist_sq_ c := by
      intro c hc
      rw [Forward_body_dist_sq, Function.update_noteq (by omega)]
    refine ⟨?_, ?_, ?_⟩
    · intro idx hidx
      rw [ih1 idx (by nlinarith), hd idx hidx]
    · intro c hc
      rw [ih2 c (by omega), hs c hc]
    · intro t h
      cases t with
      | zero =>
        simp only [List.getElem_cons_zero, add_zero]
        constructor
        · intro k hk
          rw [ih1 _ (by nlinarith), Forward_body_diff, caffe_sub_read _ _ _ _ _ _ _ _ hk]
        · rw [ih2 _ (by omega), Forward_body_dist_sq, Function.update_same]
      | succ t =>
        have h1 : t < l.length := by simpa using h
        have := ih3 t h1
        simp only [List.getElem_cons_succ]
        have e : init.c + (t + 1) = init.c + 1 + t := by omega
        rw [e]
        exact this

theorem foldl_Backward_body_bout (sqrt : α → α) (margin : α) (copies : Nat) (legacy : Bool)
    (channels : Nat) (alpha_p : α) (bottom_data diff_ dist_sq_ : Nat → α)
    (l : List (Nat × Nat)) (init : BackwardLocals α)
    (hcache : CacheHolds channels bottom_data diff_ dist_sq_ init.c l) (idx : Nat) :
    (l.foldl (fun st q => Backward_body sqrt margin copies legacy channels alpha_p (-alpha_p)
        diff_ dist_sq_ q.1 st q.2) init).bout idx
      = init.bout idx
        + (l.map (fun q => pairDelta channels
            (coef sqrt margin copies legacy alpha_p (sqDist channels bottom_data q.1 q.2) q.1 q.2)
            (fun k => bottom_data (q.1 * channels + k) - bottom_data (q.2 * channels + k))
            q.1 q.2 idx)).sum := by
  induction l generalizing init with
  | nil => simp
  | cons q l ih =>
    have h0 := hcache 0 (by simp)
    simp only [List.getElem_cons_zero, add_zero] at h0
    have htail : CacheHolds channels bottom_data diff_ dist_sq_
        (Backward_body sqrt margin copies legacy channels alpha_p (-alpha_p)
          diff_ dist_sq_ q.1 init q.2).c l := by
      intro t h
      have := hcache (t + 1) (by simpa using h)
      simp only [List.getElem_cons_succ] at this
      rw [Backward_body_c]
      have e : init.c + 1 + t = init.c + (t + 1) := by omega
      rw [e]
      exact this
    rw [List.foldl_cons, ih _ htail, Backward_body_bout, List.map_cons, List.sum_cons, h0.2,
      add_assoc]
    congr 2
    unfold pairDelta
    congr 1
    · split_ifs with hc
      · beta_reduce
        rw [h0.1 _ (by omega)]
      · rfl
    · split_ifs with hc
      · beta_reduce
        rw [h0.1 _ (by omega)]
      · rfl

theorem Forward_cpu_cache (sqrt : α → α) (p : ContrastiveLossParameter α) (s : LayerState α) :
    CacheHolds s.channels s.bottom_data (Forward_cpu sqrt p s).diff_
      (Forward_cpu sqrt p s).dist_sq_ 0 (pairs s.num) := by
  have h := foldl_Forward_body_cache sqrt p.margin p.image_batch_copies p.legacy_version
    s.channels s.bottom_data (pairs s.num)
    { c := 0, loss := 0, diff_ := s.diff_, dist_sq_ := s.dist_sq_ }
  unfold Forward_cpu
  simp only
  rw [Forward_loops_eq_foldl_pairs]
  exact h.2.2

/-- Every entry of the gradient buffer after `Backward_cpu` (propagation
enabled) on a state whose cache holds the pair differences of `bottom_data`:
the sum over the pairs of what each pair adds. -/
theorem Backward_cpu_bottom_diff_of_cache (sqrt : α → α) (p : ContrastiveLossParameter α)
    (s : LayerState α) (bottom_data : Nat → α)
    (hc : CacheHolds s.channels bottom_data s.diff_ s.dist_sq_ 0 (pairs s.num))
    (idx : Nat) (hidx : idx < s.channels * s.num) :
    (Backward_cpu sqrt p true s).bottom_diff idx
      = ∑ i in Finset.range s.num, ∑ j in Finset.Ico (i + 1) s.num,
          pairDelta s.channels
            (coef sqrt p.margin p.image_batch_copies p.legacy_version
              (s.top_diff / ((s.num * (s.num - 1) / 2 : ℕ) : α))
              (sqDist s.channels bottom_data i j) i j)
            (fun k => bottom_data (i * s.channels + k) - bottom_data (j * s.channels + k))
            i j idx := by
  unfold Backward_cpu
  simp only [Bool.not_true, Bool.false_eq_true, if_false]
  rw [Backward_loops_eq_foldl_pairs,
    foldl_Backward_body_bout sqrt p.margin p.image_batch_copies p.legacy_version s.channels _
      bottom_data _ _ (pairs s.num) _ hc idx,
    sum_map_pairs (fun q => pairDelta s.channels
            (coef sqrt p.margin p.image_batch_copies p.legacy_version
              (s.top_diff / ((s.num * (s.num - 1) / 2 : ℕ) : α))
              (sqDist s.channels bottom_data q.1 q.2) q.1 q.2)
            (fun k => bottom_data (q.1 * s.channels + k) - bottom_data (q.2 * s.channels + k))
            q.1 q.2 idx)]
  simp only [caffe_set, if_pos hidx, zero_add]

theorem row_index_iff (channels i r k : Nat) (hk : k < channels) :
    (i * channels ≤ r * channels + k ∧ r * channels + k < i * channels + channels) ↔ i = r := by
  constructor
  · rintro ⟨h1, h2⟩
    have h3 : i * channels < (r + 1) * channels := by nlinarith
    have h4 : r * channels < (i + 1) * channels := by nlinarith
    have h5 := Nat.lt_of_mul_lt_mul_right h3
    have h6 := Nat.lt_of_mul_lt_mul_right h4
    omega
  · rintro rfl
    omega

theorem pairDelta_row (channels : Nat) (K : α) (d : Nat → α) (i j r k : Nat) (hk : k < channels) :
    pairDelta channels K d i j (r * channels + k)
      = (if i = r then K * d k else 0) + (if j = r then -K * d k else 0) := by
  unfold pairDelta
  simp only [row_index_iff channels _ r k hk]
  congr 1
  · split_ifs with h
    · subst h; simp
    · rfl
  · split_ifs with h
    · subst h; simp
    · rfl

theorem sum_pairs_row (F : Nat → Nat → α) (G : Nat → Nat → α) (N r : Nat) (hr : r < N) :
    (∑ i in Finset.range N, ∑ j in Finset.Ico (i + 1) N,
        ((if i = r then F i j else 0) + (if j = r then G i j else 0)))
      = (∑ j in Finset.Ico (r + 1) N, F r j) + ∑ i in Finset.range r, G i r := by
  simp only [Finset.sum_add_distrib]
  congr 1
  · rw [Finset.sum_eq_single r]
    · simp
    · intro b _ hb
      simp [hb]
    · intro h
      exact absurd (Finset.mem_range.mpr hr) h
  · have h1 : ∀ i ∈ Finset.range N, (∑ j in Finset.Ico (i + 1) N, if j = r then G i j else 0)
        = if i < r then G i r else 0 := by
      intro i _
      rw [Finset.sum_ite_eq']
      simp only [Finset.mem_Ico]
      by_cases h : i < r
      · rw [if_pos ⟨by omega, hr⟩, if_pos h]
      · rw [if_neg (by omega), if_neg h]
    rw [Finset.sum_congr rfl h1, ← Finset.sum_filter]
    congr 1
    ext i
    simp only [Finset.mem_filter, Finset.mem_range]
    omega

/-- Row `r`, channel `k` of the gradient buffer after `Backward_cpu`
(propagation enabled) on a state whose cache holds the pair differences of
`bottom_data`. -/
theorem Backward_cpu_row_of_cache (sqrt : α → α) (p : ContrastiveLossParameter α)
    (s : LayerState α) (bottom_data : Nat → α)
    (hc : CacheHolds s.channels bottom_data s.diff_ s.dist_sq_ 0 (pairs s.num))
    (r k : Nat) (hr : r < s.num) (hk : k < s.channels) :
    (Backward_cpu sqrt p true s).bottom_diff (r * s.channels + k)
      = (∑ j in Finset.Ico (r + 1) s.num,
            coef sqrt p.margin p.image_batch_copies p.legacy_version
                (s.top_diff / ((s.num * (s.num - 1) / 2 : ℕ) : α))
                (sqDist s.channels bottom_data r j) r j
              * (bottom_data (r * s.channels + k) - bottom_data (j * s.channels + k)))
        - ∑ i in Finset.range r,
            coef sqrt p.margin p.image_batch_copies p.legacy_version
                (s.top_diff / ((s.num * (s.num - 1) / 2 : ℕ) : α))
                (sqDist s.channels bottom_data i r) i r
              * (bottom_data (i * s.channels + k) - bottom_data (r * s.channels + k)) := by
  have hidx : r * s.channels + k < s.channels * s.num := by
    have : (r + 1) * s.channels ≤ s.num * s.channels := Nat.mul_le_mul_right _ hr
    nlinarith
  rw [Backward_cpu_bottom_diff_of_cache sqrt p s bottom_data hc _ hidx]
  simp only [pairDelta_row _ _ _ _ _ r k hk]
  rw [sum_pairs_row _ _ s.num r hr, sub_eq_add_neg, ← Finset.sum_neg_distrib]
  congr 1
  refine Finset.sum_congr rfl (fun i _ => ?_)
  ring

/-! ## Inactive hinges and the margin threshold (C7, C8, C9) -/

theorem Backward_body_bout_inactive (sqrt : α → α) (margin : α) (copies : Nat) (legacy : Bool)
    (channels : Nat) (alpha_p alpha_n : α) (diff_ dist_sq_ : Nat → α) (i : Nat)
    (st : BackwardLocals α) (j : Nat) (hgroup : i / copies ≠ j / copies)
    (hin : if legacy then margin - dist_sq_ st.c ≤ 0 else margin - sqrt (dist_sq_ st.c) ≤ 0) :
    (Backward_body sqrt margin copies legacy channels alpha_p alpha_n diff_ dist_sq_ i st j).bout
      = st.bout := by
  unfold Backward_body
  dsimp only
  rw [if_neg hgroup]
  cases legacy
  · simp only [Bool.false_eq_true, if_false] at hin ⊢
    rw [if_neg (not_lt.mpr hin)]
  · simp only [if_true] at hin ⊢
    rw [if_neg (not_lt.mpr hin)]

theorem contrib_inactive (sqrt : α → α) (margin : α) (copies : Nat) (legacy : Bool)
    (channels : Nat) (bottom_data : Nat → α) (i j : Nat) (hgroup : i / copies ≠ j / copies)
    (hin : if legacy then margin - sqDist channels bottom_data i j ≤ 0
      else margin - sqrt (sqDist channels bottom_data i j) ≤ 0) :
    contrib sqrt margin copies legacy channels bottom_data i j = 0 := by
  unfold contrib
  rw [if_neg hgroup]
  cases legacy
  · simp only [Bool.false_eq_true, if_false] at hin ⊢
    rw [max_eq_right hin]
    simp
  · simp only [if_true] at hin ⊢
    exact max_eq_right hin

/-- C7: for a different-group pair `(i, j)` whose hinge argument in the
active mode is non-positive (legacy: `margin - dist² ≤ 0`; non-legacy:
`margin - sqrt(dist²) ≤ 0`), the iteration of `Forward_cpu` for that pair
adds exactly 0 to the loss sum, and the iteration of `Backward_cpu` for that
pair (the cache slot holding the pair's squared distance) leaves the whole
gradient buffer, rows `i` and `j` included, as it was, for every upstream
gradient (`alpha_p`, `alpha_n` arbitrary). -/
theorem inactive_hinge_contributes_nothing (sqrt : α → α) (margin : α) (copies : Nat)
    (legacy : Bool) (channels : Nat) (bottom_data : Nat → α) (i j : Nat)
    (hgroup : i / copies ≠ j / copies)
    (hin : if legacy then margin - sqDist channels bottom_data i j ≤ 0
      else margin - sqrt (sqDist channels bottom_data i j) ≤ 0) :
    (∀ st : ForwardLocals α,
      (Forward_body sqrt margin copies legacy channels bottom_data i st j).loss = st.loss + 0)
    ∧ (∀ (alpha_p alpha_n : α) (diff_ dist_sq_ : Nat → α) (st : BackwardLocals α),
        dist_sq_ st.c = sqDist channels bottom_data i j →
        (Backward_body sqrt margin copies legacy channels alpha_p alpha_n diff_ dist_sq_
          i st j).bout = st.bout) := by
  constructor
  · intro st
    rw [Forward_body_loss, contrib_inactive sqrt margin copies legacy channels bottom_data i j
      hgroup hin]
  · intro alpha_p alpha_n diff_ dist_sq_ st hslot
    apply Backward_body_bout_inactive _ _ _ _ _ _ _ _ _ _ _ _ hgroup
    rw [hslot]
    exact hin

theorem sqDist_one_pair (x y : ℝ) :
    sqDist 1 (stateOf 2 1 [x, y]).bottom_data 0 1 = (x - y) ^ 2 := by
  simp [sqDist, stateOf]

theorem inactive_hinge_contributes_nothing_witness :
    ((0 : ℕ) / 1 ≠ 1 / 1
      ∧ (if true then (1 : ℝ) - sqDist 1 (stateOf 2 1 [(0 : ℝ), 2]).bottom_data 0 1 ≤ 0
          else (1 : ℝ) - Real.sqrt (sqDist 1 (stateOf 2 1 [(0 : ℝ), 2]).bottom_data 0 1) ≤ 0))
    ∧ ((∀ st : ForwardLocals ℝ,
        (Forward_body Real.sqrt 1 1 true 1 (stateOf 2 1 [(0 : ℝ), 2]).bottom_data 0 st 1).loss
          = st.loss + 0)
      ∧ (∀ (alpha_p alpha_n : ℝ) (diff_ dist_sq_ : Nat → ℝ) (st : BackwardLocals ℝ),
          dist_sq_ st.c = sqDist 1 (stateOf 2 1 [(0 : ℝ), 2]).bottom_data 0 1 →
          (Backward_body Real.sqrt 1 1 true 1 alpha_p alpha_n diff_ dist_sq_ 0 st 1).bout
            = st.bout)) :=
  ⟨⟨by decide, by rw [sqDist_one_pair]; norm_num⟩,
    inactive_hinge_contributes_nothing Real.sqrt 1 1 true 1
      (stateOf 2 1 [(0 : ℝ), 2]).bottom_data 0 1 (by decide)
      (by rw [sqDist_one_pair]; norm_num)⟩

/-- C8, refuted as stated: in legacy mode with margin `1/2`, the
different-group pair `v_0 = [0]`, `v_1 = [3/5]` has Euclidean distance
`sqrt(9/25) = 3/5 ≥ 1/2`, yet its iteration of `Forward_cpu` adds `7/50` to
the loss sum and its iteration of `Backward_cpu` (upstream coefficient
`alpha_p = 1`) changes the gradient entry of row 0 from `0` to `3/5`. -/
theorem margin_threshold_legacy_counterexample :
    (0 : ℕ) / 1 ≠ 1 / 1
    ∧ Real.sqrt (sqDist 1 (stateOf 2 1 [(0 : ℝ), 3 / 5]).bottom_data 0 1) ≥ 1 / 2
    ∧ (Forward_body Real.sqrt (1 / 2) 1 true 1 (stateOf 2 1 [(0 : ℝ), 3 / 5]).bottom_data 0
        { c := 0, loss := 0, diff_ := fun _ => 0, dist_sq_ := fun _ => 0 } 1).loss = 0 + 7 / 50
    ∧ (Backward_body Real.sqrt (1 / 2) 1 true 1 1 (-1) (fun _ => -(3 / 5)) (fun _ => 9 / 25) 0
        { c := 0, bout := fun _ => 0 } 1).bout 0 = 3 / 5 := by
  refine ⟨by decide, ?_, ?_, ?_⟩
  · rw [sqDist_one_pair, ge_iff_le, Real.le_sqrt' (by norm_num)]
    norm_num
  · rw [Forward_body_loss]
    unfold contrib
    rw [sqDist_one_pair]
    norm_num
  · norm_num [Backward_body, caffe_cpu_axpby]

/-- C8, amended: for a different-group pair, in non-legacy mode a Euclidean
distance `sqrt(dist²) ≥ margin`, and in legacy mode a squared distance
`dist² ≥ margin` (the legacy threshold is on the squared distance), makes the
pair's iteration of `Forward_cpu` add 0 to the loss sum and the pair's
iteration of `Backward_cpu` (the cache slot holding the pair's squared
distance) leave the gradient buffer as it was. -/
theorem margin_threshold (sqrt : α → α) (margin : α) (copies : Nat)
    (legacy : Bool) (channels : Nat) (bottom_data : Nat → α) (i j : Nat)
    (hgroup : i / copies ≠ j / copies)
    (hfar : if legacy then sqDist channels bottom_data i j ≥ margin
      else sqrt (sqDist channels bottom_data i j) ≥ margin) :
    (∀ st : ForwardLocals α,
      (Forward_body sqrt margin copies legacy channels bottom_data i st j).loss = st.loss + 0)
    ∧ (∀ (alpha_p alpha_n : α) (diff_ dist_sq_ : Nat → α) (st : BackwardLocals α),
        dist_sq_ st.c = sqDist channels bottom_data i j →
        (Backward_body sqrt margin copies legacy channels alpha_p alpha_n diff_ dist_sq_
          i st j).bout = st.bout) := by
  have hin : if legacy then margin - sqDist channels bottom_data i j ≤ 0
      else margin - sqrt (sqDist channels bottom_data i j) ≤ 0 := by
    cases legacy
    · simp only [Bool.false_eq_true, if_false] at hfar ⊢
      linarith
    · simp only [if_true] at hfar ⊢
      linarith
  constructor
  · intro st
    rw [Forward_body_loss, contrib_inactive sqrt margin copies legacy channels bottom_data i j
      hgroup hin]
  · intro alpha_p alpha_n diff_ dist_sq_ st hslot
    apply Backward_body_bout_inactive _ _ _ _ _ _ _ _ _ _ _ _ hgroup
    rw [hslot]
    exact hin

theorem margin_threshold_witness :
    ((0 : ℕ) / 1 ≠ 1 / 1
      ∧ (if false then sqDist 1 (stateOf 2 1 [(0 : ℝ), 2]).bottom_data 0 1 ≥ (1 : ℝ)
          else Real.sqrt (sqDist 1 (stateOf 2 1 [(0 : ℝ), 2]).bottom_data 0 1) ≥ (1 : ℝ)))
    ∧ ((∀ st : ForwardLocals ℝ,
        (Forward_body Real.sqrt 1 1 false 1 (stateOf 2 1 [(0 : ℝ), 2]).bottom_data 0 st 1).loss
          = st.loss + 0)
      ∧ (∀ (alpha_p alpha_n : ℝ) (diff_ dist_sq_ : Nat → ℝ) (st : BackwardLocals ℝ),
          dist_sq_ st.c = sqDist 1 (stateOf 2 1 [(0 : ℝ), 2]).bottom_data 0 1 →
          (Backward_body Real.sqrt 1 1 false 1 alpha_p alpha_n diff_ dist_sq_ 0 st 1).bout
            = st.bout)) :=
  ⟨⟨by decide, by
      rw [sqDist_one_pair]
      simp only [Bool.false_eq_true, if_false, ge_iff_le]
      rw [Real.le_sqrt' (by norm_num)]
      norm_num⟩,
    margin_threshold Real.sqrt 1 1 false 1
      (stateOf 2 1 [(0 : ℝ), 2]).bottom_data 0 1 (by decide) (by
        rw [sqDist_one_pair]
        simp only [Bool.false_eq_true, if_false, ge_iff_le]
        rw [Real.le_sqrt' (by norm_num)]
        norm_num)⟩

/-- C9: with `propagate_down[0] = false`, `Backward_cpu` returns the state
unchanged: gradient buffer (not zeroed), cache, batch and loss slot. -/
theorem Backward_cpu_no_propagate (sqrt : α → α) (p : ContrastiveLossParameter α)
    (s : LayerState α) :
    Backward_cpu sqrt p false s = s := by
  unfold Backward_cpu
  simp

/-! ## `Forward_cpu` carries no hidden state (C10) -/

theorem mem_pairs (num : Nat) (q : Nat × Nat) (h : q ∈ pairs num) : q.1 < q.2 ∧ q.2 < num := by
  unfold pairs at h
  simp only [List.mem_flatMap, List.mem_range, List.mem_map, List.mem_range'_1] at h
  obtain ⟨i, hi, j, hj, rfl⟩ := h
  simp only
  omega

theorem sqDist_congr (channels num : Nat) (b1 b2 : Nat → α)
    (hb : ∀ idx, idx < num * channels → b1 idx = b2 idx) (i j : Nat) (hi : i < num)
    (hj : j < num) :
    sqDist channels b1 i j = sqDist channels b2 i j := by
  unfold sqDist
  refine Finset.sum_congr rfl (fun k hk => ?_)
  have hk1 := Finset.mem_range.mp hk
  have h1 : (i + 1) * channels ≤ num * channels := Nat.mul_le_mul_right _ hi
  have h2 : (j + 1) * channels ≤ num * channels := Nat.mul_le_mul_right _ hj
  rw [hb (i * channels + k) (by nlinarith), hb (j * channels + k) (by nlinarith)]

theorem contrib_congr (sqrt : α → α) (margin : α) (copies : Nat) (legacy : Bool)
    (channels num : Nat) (b1 b2 : Nat → α)
    (hb : ∀ idx, idx < num * channels → b1 idx = b2 idx) (i j : Nat) (hi : i < num)
    (hj : j < num) :
    contrib sqrt margin copies legacy channels b1 i j
      = contrib sqrt margin copies legacy channels b2 i j := by
  unfold contrib
  rw [sqDist_congr channels num b1 b2 hb i j hi hj]

theorem Forward_cpu_top_data_congr (sqrt : α → α) (p : ContrastiveLossParameter α)
    (s1 s2 : LayerState α) (hnum : s1.num = s2.num) (hch : s1.channels = s2.channels)
    (hb : ∀ idx, idx < s1.num * s1.channels → s1.bottom_data idx = s2.bottom_data idx) :
    (Forward_cpu sqrt p s1).top_data = (Forward_cpu sqrt p s2).top_data := by
  rw [Forward_cpu_top_data, Forward_cpu_top_data, ← hnum, ← hch]
  congr 2
  refine Finset.sum_congr rfl (fun i hi => Finset.sum_congr rfl (fun j hj => ?_))
  have h1 := Finset.mem_range.mp hi
  have h2 := Finset.mem_Ico.mp hj
  exact contrib_congr sqrt _ _ _ _ s1.num _ _ hb i j h1 h2.2

theorem CacheHolds_diff_congr (channels num : Nat) (b1 b2 d1 d2 q1 q2 : Nat → α)
    (hb : ∀ idx, idx < num * channels → b1 idx = b2 idx)
    (h1 : CacheHolds channels b1 d1 q1 0 (pairs num))
    (h2 : CacheHolds channels b2 d2 q2 0 (pairs num)) :
    (∀ idx, idx < (num * (num - 1) / 2) * channels → d1 idx = d2 idx)
    ∧ (∀ c, c < num * (num - 1) / 2 → q1 c = q2 c) := by
  rw [npairs_eq_length]
  constructor
  · intro idx hidx
    have hch : 0 < channels := by
      rcases Nat.eq_zero_or_pos channels with h | h
      · rw [h] at hidx; simp at hidx
      · exact h
    have ht : idx / channels < (pairs num).length := by
      rw [Nat.div_lt_iff_lt_mul hch]
      exact hidx
    have hk : idx % channels < channels := Nat.mod_lt _ hch
    have hm := mem_pairs num _ (List.getElem_mem ht)
    have e : idx = (0 + idx / channels) * channels + idx % channels := by
      rw [zero_add, Nat.mul_comm]
      exact (Nat.div_add_mod idx channels).symm
    have a1 := (h1 _ ht).1 _ hk
    have a2 := (h2 _ ht).1 _ hk
    rw [← e] at a1 a2
    have hi : ((pairs num)[idx / channels]).1 < num := by omega
    have f1 : ((pairs num)[idx / channels].1 + 1) * channels ≤ num * channels :=
      Nat.mul_le_mul_right _ hi
    have f2 : ((pairs num)[idx / channels].2 + 1) * channels ≤ num * channels :=
      Nat.mul_le_mul_right _ hm.2
    rw [a1, a2, hb _ (by nlinarith), hb _ (by nlinarith)]
  · intro c hc
    have hm := mem_pairs num _ (List.getElem_mem hc)
    have a1 := (h1 _ hc).2
    have a2 := (h2 _ hc).2
    rw [zero_add] at a1 a2
    rw [a1, a2]
    exact sqDist_congr channels num b1 b2 hb _ _ (by omega) hm.2

/-- C10: for a batch of `N ≥ 2` vectors and any configuration, the loss
`Forward_cpu` writes and the cache contents it leaves (`diff_` on its
`npairs * channels` elements, `dist_sq_` on its `npairs` elements) depend
only on the batch (`num`, `channels` and the `num * channels` input values)
and the configuration, not on the previous cache, loss slot or gradient
buffers; hence running `Forward_cpu` a second time gives the same loss and
cache, the loss being overwritten, not accumulated. -/
theorem Forward_cpu_no_hidden_state (sqrt : α → α) (p : ContrastiveLossParameter α)
    (s1 s2 : LayerState α) (hN : 2 ≤ s1.num) (hnum : s1.num = s2.num)
    (hch : s1.channels = s2.channels)
    (hb : ∀ idx, idx < s1.num * s1.channels → s1.bottom_data idx = s2.bottom_data idx) :
    ((Forward_cpu sqrt p s1).top_data = (Forward_cpu sqrt p s2).top_data
      ∧ (∀ idx, idx < (s1.num * (s1.num - 1) / 2) * s1.channels →
          (Forward_cpu sqrt p s1).diff_ idx = (Forward_cpu sqrt p s2).diff_ idx)
      ∧ (∀ c, c < s1.num * (s1.num - 1) / 2 →
          (Forward_cpu sqrt p s1).dist_sq_ c = (Forward_cpu sqrt p s2).dist_sq_ c))
    ∧ ((Forward_cpu sqrt p (Forward_cpu sqrt p s1)).top_data = (Forward_cpu sqrt p s1).top_data
      ∧ (∀ idx, idx < (s1.num * (s1.num - 1) / 2) * s1.channels →
          (Forward_cpu sqrt p (Forward_cpu sqrt p s1)).diff_ idx
            = (Forward_cpu sqrt p s1).diff_ idx)
      ∧ (∀ c, c < s1.num * (s1.num - 1) / 2 →
          (Forward_cpu sqrt p (Forward_cpu sqrt p s1)).dist_sq_ c
            = (Forward_cpu sqrt p s1).dist_sq_ c)) := by
  have hN2 : 2 ≤ s1.num := hN
  have c1 := Forward_cpu_cache sqrt p s1
  have c2 := Forward_cpu_cache sqrt p s2
  have c3 := Forward_cpu_cache sqrt p (Forward_cpu sqrt p s1)
  rw [← hnum, ← hch] at c2
  have e1 : (Forward_cpu sqrt p s1).num = s1.num := rfl
  have e2 : (Forward_cpu sqrt p s1).channels = s1.channels := rfl
  have e3 : (Forward_cpu sqrt p s1).bottom_data = s1.bottom_data := rfl
  rw [e1, e2, e3] at c3
  refine ⟨⟨Forward_cpu_top_data_congr sqrt p s1 s2 hnum hch hb, ?_⟩, ⟨?_, ?_⟩⟩
  · exact CacheHolds_diff_congr s1.channels s1.num _ _ _ _ _ _ hb c1 c2
  · exact Forward_cpu_top_data_congr sqrt p _ s1 rfl rfl (fun _ _ => rfl)
  · exact CacheHolds_diff_congr s1.channels s1.num _ _ _ _ _ _ (fun _ _ => rfl) c3 c1

theorem Forward_cpu_no_hidden_state_witness :
    (2 ≤ (batchABCD ℝ).num
      ∧ (batchABCD ℝ).num = (overwriteScratch (batchABCD ℝ) 100).num
      ∧ (batchABCD ℝ).channels = (overwriteScratch (batchABCD ℝ) 100).channels
      ∧ (∀ idx, idx < (batchABCD ℝ).num * (batchABCD ℝ).channels →
          (batchABCD ℝ).bottom_data idx = (overwriteScratch (batchABCD ℝ) 100).bottom_data idx))
    ∧ (Forward_cpu Real.sqrt (paramsOf (1 : ℝ) 2 false) (batchABCD ℝ)).top_data
        = (Forward_cpu Real.sqrt (paramsOf (1 : ℝ) 2 false)
            (overwriteScratch (batchABCD ℝ) 100)).top_data :=
  ⟨⟨by decide, rfl, rfl, fun _ _ => rfl⟩,
    (Forward_cpu_no_hidden_state Real.sqrt (paramsOf (1 : ℝ) 2 false) (batchABCD ℝ)
      (overwriteScratch (batchABCD ℝ) 100) (by decide) rfl rfl (fun _ _ => rfl)).1.1⟩

/-! ## Derivatives of the loss (C4, for C5) -/

theorem flat_index_eq_iff (channels i r k k0 : Nat) (hk : k < channels) (hk0 : k0 < channels) :
    i * channels + k = r * channels + k0 ↔ i = r ∧ k = k0 := by
  constructor
  · intro h
    have h1 := (row_index_iff channels i r k0 hk0).mp (by omega)
    subst h1
    exact ⟨rfl, by omega⟩
  · rintro ⟨rfl, rfl⟩
    rfl

theorem hasDerivAt_update (b : Nat → ℝ) (idx0 m : Nat) (x0 : ℝ) :
    HasDerivAt (fun x => Function.update b idx0 x m) (if m = idx0 then 1 else 0) x0 := by
  by_cases h : m = idx0
  · subst h
    simp only [Function.update_same, if_true]
    exact hasDerivAt_id' x0
  · simp only [Function.update_noteq h, if_neg h]
    exact hasDerivAt_const x0 (b m)

theorem hasDerivAt_sqDist (channels : Nat) (b : Nat → ℝ) (r k0 i j : Nat)
    (hk0 : k0 < channels) :
    HasDerivAt (fun x => sqDist channels (Function.update b (r * channels + k0) x) i j)
      (dSqDist channels b r k0 i j) (b (r * channels + k0)) := by
  unfold sqDist
  have h := HasDerivAt.sum (u := Finset.range channels)
    (A := fun k x => (Function.update b (r * channels + k0) x (i * channels + k)
        - Function.update b (r * channels + k0) x (j * channels + k)) ^ 2)
    (x := b (r * channels + k0))
    (fun k _ => ((hasDerivAt_update b (r * channels + k0) (i * channels + k)
        (b (r * channels + k0))).sub
      (hasDerivAt_update b (r * channels + k0) (j * channels + k) (b (r * channels + k0)))).pow 2)
  convert h using 1
  simp only [Function.update_eq_self]
  unfold dSqDist
  rw [Finset.sum_eq_single k0]
  · simp only [flat_index_eq_iff channels _ r k0 k0 hk0 hk0, and_true]
    split_ifs <;> norm_num
  · intro k hk hne
    have hk1 := Finset.mem_range.mp hk
    simp only [flat_index_eq_iff channels _ r k k0 hk1 hk0, hne, and_false, if_false]
    simp
  · intro h
    exact absurd (Finset.mem_range.mpr hk0) h

theorem hasDerivAt_max_zero_of_pos (f : ℝ → ℝ) (f' x0 : ℝ) (hf : HasDerivAt f f' x0)
    (hpos : 0 < f x0) : HasDerivAt (fun x => max (f x) 0) f' x0 := by
  refine hf.congr_of_eventuallyEq ?_
  have h : ∀ᶠ x in nhds x0, 0 < f x := hf.continuousAt.eventually (lt_mem_nhds hpos)
  filter_upwards [h] with x hx
  exact max_eq_left hx.le

theorem hasDerivAt_max_zero_of_neg (f : ℝ → ℝ) (f' x0 : ℝ) (hf : HasDerivAt f f' x0)
    (hneg : f x0 < 0) : HasDerivAt (fun x => max (f x) 0) 0 x0 := by
  refine (hasDerivAt_const x0 (0 : ℝ)).congr_of_eventuallyEq ?_
  have h : ∀ᶠ x in nhds x0, f x < 0 := hf.continuousAt.eventually (gt_mem_nhds hneg)
  filter_upwards [h] with x hx
  exact max_eq_right hx.le

theorem hasDerivAt_contrib_legacy (margin : ℝ) (copies channels : Nat) (b : Nat → ℝ)
    (r k0 i j : Nat) (hk0 : k0 < channels)
    (hne : i / copies ≠ j / copies → sqDist channels b i j ≠ margin) :
    HasDerivAt
      (fun x => contrib Real.sqrt margin copies true channels
        (Function.update b (r * channels + k0) x) i j)
      (dContrib Real.sqrt margin copies true channels b r k0 i j) (b (r * channels + k0)) := by
  have hD := hasDerivAt_sqDist channels b r k0 i j hk0
  unfold contrib dContrib
  by_cases hg : i / copies = j / copies
  · simp only [hg, if_true]
    exact hD
  · simp only [hg, if_false, if_true]
    have hm := hD.const_sub margin
    have hx0 : sqDist channels (Function.update b (r * channels + k0) (b (r * channels + k0))) i j
        = sqDist channels b i j := by rw [Function.update_eq_self]
    by_cases hpos : margin - sqDist channels b i j > 0
    · rw [if_pos hpos]
      exact hasDerivAt_max_zero_of_pos _ _ _ hm (by rw [hx0]; exact hpos)
    · rw [if_neg hpos]
      have hneg : margin - sqDist channels b i j < 0 := by
        rcases lt_or_eq_of_le (not_lt.mp hpos) with h | h
        · exact h
        · exact absurd (by linarith) (hne hg)
      exact hasDerivAt_max_zero_of_neg _ _ _ hm (by rw [hx0]; exact hneg)

theorem sqDist_nonneg (channels : Nat) (b : Nat → α) (i j : Nat) :
    0 ≤ sqDist channels b i j := by
  unfold sqDist
  exact Finset.sum_nonneg (fun k _ => sq_nonneg _)

theorem hasDerivAt_contrib_nonlegacy (margin : ℝ) (copies channels : Nat) (b : Nat → ℝ)
    (r k0 i j : Nat) (hk0 : k0 < channels)
    (hne : i / copies ≠ j / copies →
      Real.sqrt (sqDist channels b i j) ≠ 0 ∧ Real.sqrt (sqDist channels b i j) ≠ margin) :
    HasDerivAt
      (fun x => contrib Real.sqrt margin copies false channels
        (Function.update b (r * channels + k0) x) i j)
      (dContrib Real.sqrt margin copies false channels b r k0 i j) (b (r * channels + k0)) := by
  have hD := hasDerivAt_sqDist channels b r k0 i j hk0
  unfold contrib dContrib
  by_cases hg : i / copies = j / copies
  · simp only [hg, if_true]
    exact hD
  · simp only [hg, if_false, Bool.false_eq_true]
    obtain ⟨h0, h1⟩ := hne hg
    have hx0 : sqDist channels (Function.update b (r * channels + k0) (b (r * channels + k0))) i j
        = sqDist channels b i j := by rw [Function.update_eq_self]
    have hsq0 : sqDist channels b i j ≠ 0 := by
      intro h
      rw [h, Real.sqrt_zero] at h0
      exact h0 rfl
    have hs := (hD.sqrt (by rw [hx0]; exact hsq0)).const_sub margin
    rw [hx0] at hs
    by_cases hpos : margin - Real.sqrt (sqDist channels b i j) > 0
    · rw [if_pos hpos]
      have hmax := hasDerivAt_max_zero_of_pos _ _ _ hs (by rw [hx0]; exact hpos)
      have hp := hmax.pow 2
      convert hp using 1
      rw [hx0, max_eq_left hpos.le]
      norm_num
    · rw [if_neg hpos]
      have hneg : margin - Real.sqrt (sqDist channels b i j) < 0 := by
        rcases lt_or_eq_of_le (not_lt.mp hpos) with h | h
        · exact h
        · exact absurd (by linarith) h1
      have hmax := hasDerivAt_max_zero_of_neg _ _ _ hs (by rw [hx0]; exact hneg)
      have hp := hmax.pow 2
      convert hp using 1
      simp

/-- The loss written by `Forward_cpu` as a function of one input scalar has
the derivative given by the sum of the pair derivatives, provided each pair
contribution has its derivative. -/
theorem hasDerivAt_Forward_cpu (p : ContrastiveLossParameter ℝ) (s : LayerState ℝ)
    (r k0 : Nat)
    (hpair : ∀ i j, i < j → j < s.num →
      HasDerivAt
        (fun x => contrib Real.sqrt p.margin p.image_batch_copies p.legacy_version s.channels
          (Function.update s.bottom_data (r * s.channels + k0) x) i j)
        (dContrib Real.sqrt p.margin p.image_batch_copies p.legacy_version s.channels
          s.bottom_data r k0 i j) (s.bottom_data (r * s.channels + k0))) :
    HasDerivAt
      (fun x => (Forward_cpu Real.sqrt p (perturb s (r * s.channels + k0) x)).top_data)
      ((∑ i in Finset.range s.num, ∑ j in Finset.Ico (i + 1) s.num,
          dContrib Real.sqrt p.margin p.image_batch_copies p.legacy_version s.channels
            s.bottom_data r k0 i j) / ((s.num * (s.num - 1) / 2 : ℕ) : ℝ) / 2)
      (s.bottom_data (r * s.channels + k0)) := by
  have hfun : (fun x => (Forward_cpu Real.sqrt p (perturb s (r * s.channels + k0) x)).top_data)
      = fun x => (∑ i in Finset.range s.num, ∑ j in Finset.Ico (i + 1) s.num,
          contrib Real.sqrt p.margin p.image_batch_copies p.legacy_version s.channels
            (Function.update s.bottom_data (r * s.channels + k0) x) i j)
          / ((s.num * (s.num - 1) / 2 : ℕ) : ℝ) / 2 := by
    funext x
    rw [Forward_cpu_top_data]
    rfl
  rw [hfun]
  refine HasDerivAt.div_const (HasDerivAt.div_const ?_ _) _
  refine HasDerivAt.sum (fun i _ => HasDerivAt.sum (fun j hj => ?_))
  have h2 := Finset.mem_Ico.mp hj
  exact hpair i j (by omega) h2.2

theorem row_terms_eq_dContrib_legacy (sqrt : α → α) (margin : α) (copies channels : Nat)
    (b : Nat → α) (g P : α) (r k0 i j : Nat) :
    (if i = r then
        coef sqrt margin copies true (g / P) (sqDist channels b i j) i j
          * (b (i * channels + k0) - b (j * channels + k0))
      else 0)
      + (if j = r then
          -coef sqrt margin copies true (g / P) (sqDist channels b i j) i j
            * (b (i * channels + k0) - b (j * channels + k0))
        else 0)
      = g * (dContrib sqrt margin copies true channels b r k0 i j / P / 2) := by
  unfold coef dContrib dSqDist
  simp only [if_true]
  split_ifs <;> ring

/-- Entry `(r, k0)` of the gradient buffer after `Backward_cpu` on a state
whose cache holds the pair differences, as a double sum over the pairs. -/
theorem Backward_cpu_entry_of_cache (sqrt : α → α) (p : ContrastiveLossParameter α)
    (s : LayerState α) (bottom_data : Nat → α)
    (hc : CacheHolds s.channels bottom_data s.diff_ s.dist_sq_ 0 (pairs s.num))
    (r k0 : Nat) (hr : r < s.num) (hk0 : k0 < s.channels) :
    (Backward_cpu sqrt p true s).bottom_diff (r * s.channels + k0)
      = ∑ i in Finset.range s.num, ∑ j in Finset.Ico (i + 1) s.num,
          ((if i = r then
              coef sqrt p.margin p.image_batch_copies p.legacy_version
                  (s.top_diff / ((s.num * (s.num - 1) / 2 : ℕ) : α))
                  (sqDist s.channels bottom_data i j) i j
                * (bottom_data (i * s.channels + k0) - bottom_data (j * s.channels + k0))
            else 0)
          + (if j = r then
              -coef sqrt p.margin p.image_batch_copies p.legacy_version
                  (s.top_diff / ((s.num * (s.num - 1) / 2 : ℕ) : α))
                  (sqDist s.channels bottom_data i j) i j
                * (bottom_data (i * s.channels + k0) - bottom_data (j * s.channels + k0))
            else 0)) := by
  have hidx : r * s.channels + k0 < s.channels * s.num := by
    have : (r + 1) * s.channels ≤ s.num * s.channels := Nat.mul_le_mul_right _ hr
    nlinarith
  rw [Backward_cpu_bottom_diff_of_cache sqrt p s bottom_data hc _ hidx]
  simp only [pairDelta_row _ _ _ _ _ r k0 hk0]

/-- C4: in legacy mode, for a batch of `N ≥ 2` vectors, `copiesPerGroup ≥ 1`
and a margin that no different-group pair's squared distance equals, with
upstream gradient 1 (and whatever the gradient buffer `b0` held), entry
`(r, k0)` of the gradient buffer written by `Backward_cpu` after
`Forward_cpu` is the derivative of the loss written by `Forward_cpu` with
respect to the input scalar `v_r[k0]`. -/
theorem Backward_cpu_legacy_is_gradient (p : ContrastiveLossParameter ℝ) (s : LayerState ℝ)
    (b0 : Nat → ℝ) (r k0 : Nat) (hN : 2 ≤ s.num) (hcopies : 1 ≤ p.image_batch_copies)
    (hmode : p.legacy_version = true) (hr : r < s.num) (hk0 : k0 < s.channels)
    (hkink : ∀ i j, i < j → j < s.num →
      i / p.image_batch_copies ≠ j / p.image_batch_copies →
      sqDist s.channels s.bottom_data i j ≠ p.margin) :
    HasDerivAt
      (fun x => (Forward_cpu Real.sqrt p (perturb s (r * s.channels + k0) x)).top_data)
      ((Backward_cpu Real.sqrt p true
          { Forward_cpu Real.sqrt p s with bottom_diff := b0, top_diff := 1 }).bottom_diff
        (r * s.channels + k0))
      (s.bottom_data (r * s.channels + k0)) := by
  have h2 : 2 ≤ s.num := hN
  have hc : 1 ≤ p.image_batch_copies := hcopies
  have h := hasDerivAt_Forward_cpu p s r k0 (fun i j hij hj => by
    rw [hmode]
    exact hasDerivAt_contrib_legacy p.margin p.image_batch_copies s.channels s.bottom_data
      r k0 i j hk0 (hkink i j hij hj))
  convert h using 1
  have e := Backward_cpu_entry_of_cache Real.sqrt p
    { Forward_cpu Real.sqrt p s with bottom_diff := b0, top_diff := 1 } s.bottom_data
    (Forward_cpu_cache Real.sqrt p s) r k0 hr hk0
  refine e.trans ?_
  rw [Finset.sum_div, Finset.sum_div]
  refine Finset.sum_congr rfl (fun i _ => ?_)
  rw [Finset.sum_div, Finset.sum_div]
  refine Finset.sum_congr rfl (fun j _ => ?_)
  rw [hmode]
  have := row_terms_eq_dContrib_legacy Real.sqrt p.margin p.image_batch_copies s.channels
    s.bottom_data 1 ((s.num * (s.num - 1) / 2 : ℕ) : ℝ) r k0 i j
  rw [one_mul] at this
  exact this

theorem row_terms_eq_dContrib_nonlegacy (margin : ℝ) (copies channels : Nat)
    (b : Nat → ℝ) (g P : ℝ) (r k0 i j : Nat)
    (hne : i / copies ≠ j / copies → Real.sqrt (sqDist channels b i j) ≠ 0) :
    (if i = r then
        coef Real.sqrt margin copies false (g / P) (sqDist channels b i j) i j
          * (b (i * channels + k0) - b (j * channels + k0))
      else 0)
      + (if j = r then
          -coef Real.sqrt margin copies false (g / P) (sqDist channels b i j) i j
            * (b (i * channels + k0) - b (j * channels + k0))
        else 0)
      = epsScale Real.sqrt margin copies channels b i j
        * (g * (dContrib Real.sqrt margin copies false channels b r k0 i j / P / 2)) := by
  unfold coef dContrib dSqDist epsScale
  simp only [Bool.false_eq_true, if_false]
  by_cases hg : i / copies = j / copies
  · simp only [hg, if_true]
    split_ifs <;> ring
  · simp only [hg, if_false]
    have h0 := hne hg
    have h1 : Real.sqrt (sqDist channels b i j) + 1 / 10000 ≠ 0 := by
      have := Real.sqrt_nonneg (sqDist channels b i j)
      linarith
    by_cases hpos : margin - Real.sqrt (sqDist channels b i j) > 0
    · simp only [hpos, if_true]
      by_cases hP : P = 0
      · subst hP
        split_ifs <;> simp
      · split_ifs <;> field_simp <;> ring
    · simp only [hpos, if_false]
      split_ifs <;> simp

theorem hasDerivAt_Forward_cpu_nonlegacy (p : ContrastiveLossParameter ℝ)
    (s : LayerState ℝ) (r k0 : Nat) (hmode : p.legacy_version = false) (hk0 : k0 < s.channels)
    (hkink : ∀ i j, i < j → j < s.num →
      i / p.image_batch_copies ≠ j / p.image_batch_copies →
      Real.sqrt (sqDist s.channels s.bottom_data i j) ≠ 0
        ∧ Real.sqrt (sqDist s.channels s.bottom_data i j) ≠ p.margin) :
    HasDerivAt
      (fun x => (Forward_cpu Real.sqrt p (perturb s (r * s.channels + k0) x)).top_data)
      (∑ i in Finset.range s.num, ∑ j in Finset.Ico (i + 1) s.num,
        dContrib Real.sqrt p.margin p.image_batch_copies false s.channels s.bottom_data r k0 i j
          / ((s.num * (s.num - 1) / 2 : ℕ) : ℝ) / 2)
      (s.bottom_data (r * s.channels + k0)) := by
  have h := hasDerivAt_Forward_cpu p s r k0 (fun i j hij hj => by
    rw [hmode]
    exact hasDerivAt_contrib_nonlegacy p.margin p.image_batch_copies s.channels s.bottom_data
      r k0 i j hk0 (hkink i j hij hj))
  convert h using 1
  rw [hmode, Finset.sum_div, Finset.sum_div]
  refine Finset.sum_congr rfl (fun i _ => ?_)
  rw [Finset.sum_div, Finset.sum_div]

theorem Backward_cpu_nonlegacy_entry (p : ContrastiveLossParameter ℝ)
    (s : LayerState ℝ) (b0 : Nat → ℝ) (r k0 : Nat) (hmode : p.legacy_version = false)
    (hr : r < s.num) (hk0 : k0 < s.channels)
    (hkink : ∀ i j, i < j → j < s.num →
      i / p.image_batch_copies ≠ j / p.image_batch_copies →
      Real.sqrt (sqDist s.channels s.bottom_data i j) ≠ 0) :
    (Backward_cpu Real.sqrt p true
          { Forward_cpu Real.sqrt p s with bottom_diff := b0, top_diff := 1 }).bottom_diff
        (r * s.channels + k0)
      = ∑ i in Finset.range s.num, ∑ j in Finset.Ico (i + 1) s.num,
          epsScale Real.sqrt p.margin p.image_batch_copies s.channels s.bottom_data i j
            * (dContrib Real.sqrt p.margin p.image_batch_copies false s.channels
                s.bottom_data r k0 i j / ((s.num * (s.num - 1) / 2 : ℕ) : ℝ) / 2) := by
  have e := Backward_cpu_entry_of_cache Real.sqrt p
    { Forward_cpu Real.sqrt p s with bottom_diff := b0, top_diff := 1 } s.bottom_data
    (Forward_cpu_cache Real.sqrt p s) r k0 hr hk0
  refine e.trans ?_
  refine Finset.sum_congr rfl (fun i _ => Finset.sum_congr rfl (fun j hj => ?_))
  have hj2 := Finset.mem_Ico.mp hj
  rw [hmode]
  have := row_terms_eq_dContrib_nonlegacy p.margin p.image_batch_copies s.channels
    s.bottom_data 1 ((s.num * (s.num - 1) / 2 : ℕ) : ℝ) r k0 i j
    (fun hg => hkink i j (by omega) hj2.2 hg)
  rw [one_mul] at this
  exact this

theorem sqrt_sqDist_one_pair (x y : ℝ) :
    Real.sqrt (sqDist 1 (stateOf 2 1 [x, y]).bottom_data 0 1) = |x - y| := by
  rw [sqDist_one_pair, Real.sqrt_sq_eq_abs]

theorem example_pair_differentiable :
    ∀ i j, i < j → j < (stateOf 2 1 [(0 : ℝ), 1 / 2]).num →
      i / (paramsOf (1 : ℝ) 1 false).image_batch_copies
        ≠ j / (paramsOf (1 : ℝ) 1 false).image_batch_copies →
      Real.sqrt (sqDist (stateOf 2 1 [(0 : ℝ), 1 / 2]).channels
          (stateOf 2 1 [(0 : ℝ), 1 / 2]).bottom_data i j) ≠ 0
        ∧ Real.sqrt (sqDist (stateOf 2 1 [(0 : ℝ), 1 / 2]).channels
          (stateOf 2 1 [(0 : ℝ), 1 / 2]).bottom_data i j) ≠ (paramsOf (1 : ℝ) 1 false).margin := by
  intro i j hij hj _
  have hj2 : j < 2 := hj
  obtain rfl : j = 1 := by omega
  obtain rfl : i = 0 := by omega
  show Real.sqrt (sqDist 1 (stateOf 2 1 [(0 : ℝ), 1 / 2]).bottom_data 0 1) ≠ 0
    ∧ Real.sqrt (sqDist 1 (stateOf 2 1 [(0 : ℝ), 1 / 2]).bottom_data 0 1) ≠ 1
  rw [sqrt_sqDist_one_pair]
  norm_num [abs_of_neg]

theorem example_pair_off_margin :
    ∀ i j, i < j → j < (stateOf 2 1 [(0 : ℝ), 2]).num →
      i / (paramsOf (1 : ℝ) 1 true).image_batch_copies
        ≠ j / (paramsOf (1 : ℝ) 1 true).image_batch_copies →
      sqDist (stateOf 2 1 [(0 : ℝ), 2]).channels (stateOf 2 1 [(0 : ℝ), 2]).bottom_data i j
        ≠ (paramsOf (1 : ℝ) 1 true).margin := by
  intro i j hij hj _
  have hj2 : j < 2 := hj
  obtain rfl : j = 1 := by omega
  obtain rfl : i = 0 := by omega
  show sqDist 1 (stateOf 2 1 [(0 : ℝ), 2]).bottom_data 0 1 ≠ 1
  rw [sqDist_one_pair]
  norm_num

theorem Backward_cpu_legacy_is_gradient_witness :
    (2 ≤ (stateOf 2 1 [(0 : ℝ), 2]).num ∧ 1 ≤ (paramsOf (1 : ℝ) 1 true).image_batch_copies
      ∧ (paramsOf (1 : ℝ) 1 true).legacy_version = true
      ∧ 0 < (stateOf 2 1 [(0 : ℝ), 2]).num ∧ 0 < (stateOf 2 1 [(0 : ℝ), 2]).channels
      ∧ ∀ i j, i < j → j < (stateOf 2 1 [(0 : ℝ), 2]).num →
          i / (paramsOf (1 : ℝ) 1 true).image_batch_copies
            ≠ j / (paramsOf (1 : ℝ) 1 true).image_batch_copies →
          sqDist (stateOf 2 1 [(0 : ℝ), 2]).channels (stateOf 2 1 [(0 : ℝ), 2]).bottom_data i j
            ≠ (paramsOf (1 : ℝ) 1 true).margin)
    ∧ HasDerivAt
        (fun x => (Forward_cpu Real.sqrt (paramsOf 1 1 true)
          (perturb (stateOf 2 1 [(0 : ℝ), 2])
            (0 * (stateOf 2 1 [(0 : ℝ), 2]).channels + 0) x)).top_data)
        ((Backward_cpu Real.sqrt (paramsOf 1 1 true) true
          { Forward_cpu Real.sqrt (paramsOf 1 1 true) (stateOf 2 1 [(0 : ℝ), 2]) with
            bottom_diff := fun _ => 0, top_diff := 1 }).bottom_diff
          (0 * (stateOf 2 1 [(0 : ℝ), 2]).channels + 0))
        ((stateOf 2 1 [(0 : ℝ), 2]).bottom_data
          (0 * (stateOf 2 1 [(0 : ℝ), 2]).channels + 0)) :=
  ⟨⟨by decide, by decide, rfl, by decide, by decide, example_pair_off_margin⟩,
    Backward_cpu_legacy_is_gradient (paramsOf 1 1 true) (stateOf 2 1 [(0 : ℝ), 2])
      (fun _ => 0) 0 0 (by decide) (by decide) rfl (by decide) (by decide)
      example_pair_off_margin⟩

/-! ## The gradient check (C6) -/

theorem sqrt_move_bounds (r0 r1 d t : ℝ) (hr0 : 0 ≤ r0) (hr1 : 0 ≤ r1) (ht : 0 ≤ t)
    (hd1 : -r0 ≤ d) (hd2 : d ≤ r0)
    (e1 : r1 ^ 2 = r0 ^ 2 + 2 * d * t + t ^ 2) :
    r0 - t ≤ r1 ∧ r1 ≤ r0 + t := by
  constructor
  · by_contra hc
    push_neg at hc
    have h1 : 0 ≤ r0 - t := by linarith
    have h2 : r1 ^ 2 < (r0 - t) ^ 2 := by
      have := mul_self_lt_mul_self hr1 hc
      nlinarith
    nlinarith
  · by_contra hc
    push_neg at hc
    have h2 : (r0 + t) ^ 2 < r1 ^ 2 := by
      have := mul_self_lt_mul_self (by linarith : 0 ≤ r0 + t) hc
      nlinarith
    nlinarith

theorem code_term_small (r0 d : ℝ) (hr0 : 0 ≤ r0) (hd1 : -r0 ≤ d) (hd2 : d ≤ r0)
    (hs : 1 - r0 ≤ 1 / 100) (hpos : 1 - r0 > 0) :
    |(-(1 : ℝ)) * (1 - r0) / (r0 + 1 / 10000) * (2 * d)| ≤ 2 / 100 := by
  have he : (0 : ℝ) < r0 + 1 / 10000 := by linarith
  have hq0 : 0 ≤ (1 - r0) / (r0 + 1 / 10000) := div_nonneg hpos.le he.le
  have hq1 : (1 - r0) / (r0 + 1 / 10000) * r0 ≤ 1 / 100 := by
    rw [div_mul_eq_mul_div, div_le_iff₀ he]
    nlinarith
  have e : (-(1 : ℝ)) * (1 - r0) / (r0 + 1 / 10000) * (2 * d)
      = -(2 * ((1 - r0) / (r0 + 1 / 10000) * d)) := by ring
  rw [e, abs_le]
  have u1 : (1 - r0) / (r0 + 1 / 10000) * d ≤ (1 - r0) / (r0 + 1 / 10000) * r0 :=
    mul_le_mul_of_nonneg_left hd2 hq0
  have u2 : (1 - r0) / (r0 + 1 / 10000) * (-r0) ≤ (1 - r0) / (r0 + 1 / 10000) * d :=
    mul_le_mul_of_nonneg_left hd1 hq0
  constructor <;> linarith

theorem sum_of_moved_bounds (r0 rp rm d : ℝ) (h0 : 1 / 10 ≤ r0) (hp : 0 ≤ rp) (hm : 0 ≤ rm)
    (hd : d ^ 2 ≤ r0 ^ 2)
    (ep : rp ^ 2 = r0 ^ 2 + 2 * d * (1 / 100) + (1 / 100) ^ 2)
    (em : rm ^ 2 = r0 ^ 2 - 2 * d * (1 / 100) + (1 / 100) ^ 2) :
    2 * r0 ≤ rp + rm ∧ rp + rm ≤ 2 * r0 + 1 / 1000 := by
  have hr0 : 0 ≤ r0 := by linarith
  have hprod : r0 ^ 2 - (1 / 100) ^ 2 ≤ rp * rm := by
    have h1 : (r0 ^ 2 - (1 / 100) ^ 2) ^ 2 ≤ (rp * rm) ^ 2 := by
      have e : (rp * rm) ^ 2 - (r0 ^ 2 - (1 / 100) ^ 2) ^ 2
          = 4 * (1 / 100) ^ 2 * (r0 ^ 2 - d ^ 2) := by
        have : (rp * rm) ^ 2 = rp ^ 2 * rm ^ 2 := by ring
        rw [this, ep, em]
        ring
      nlinarith
    exact (abs_le_of_sq_le_sq' h1 (mul_nonneg hp hm)).2
  have hsum : (rp + rm) ^ 2 = 2 * r0 ^ 2 + 2 * (1 / 100) ^ 2 + 2 * (rp * rm) := by
    have : (rp + rm) ^ 2 = rp ^ 2 + rm ^ 2 + 2 * (rp * rm) := by ring
    rw [this, ep, em]
    ring
  constructor
  · have : (2 * r0) ^ 2 ≤ (rp + rm) ^ 2 := by
      rw [hsum]
      nlinarith
    exact (abs_le_of_sq_le_sq' this (by linarith)).2
  · have hpm : 2 * (rp * rm) ≤ rp ^ 2 + rm ^ 2 := by nlinarith [sq_nonneg (rp - rm)]
    have h2 : (rp + rm) ^ 2 ≤ (2 * r0 + 1 / 1000) ^ 2 := by
      rw [hsum]
      rw [ep, em] at hpm
      nlinarith
    exact (abs_le_of_sq_le_sq' h2 (by linarith)).2

theorem nonlegacy_pair_error_active (r0 rp rm d : ℝ) (h0 : 1 / 10 ≤ r0) (hp : 0 ≤ rp)
    (hm : 0 ≤ rm) (hd : d ^ 2 ≤ r0 ^ 2)
    (ep : rp ^ 2 = r0 ^ 2 + 2 * d * (1 / 100) + (1 / 100) ^ 2)
    (em : rm ^ 2 = r0 ^ 2 - 2 * d * (1 / 100) + (1 / 100) ^ 2)
    (hpa : 1 - rp > 0) (hma : 1 - rm > 0) :
    1 - r0 > 0 ∧
    |((1 - rp) ^ 2 - (1 - rm) ^ 2) / (2 * (1 / 100))
        - (-(1 : ℝ)) * (1 - r0) / (r0 + 1 / 10000) * (2 * d)| ≤ 6 / 100 := by
  have hr0 : 0 ≤ r0 := by linarith
  have hdabs : |d| ≤ r0 := abs_le.mpr (abs_le_of_sq_le_sq' hd hr0)
  obtain ⟨hs_ge, hs_le⟩ := sum_of_moved_bounds r0 rp rm d h0 hp hm hd ep em
  have he : (0 : ℝ) < r0 + 1 / 10000 := by linarith
  have hs_pos : 0 < rp + rm := by linarith
  refine ⟨by linarith, ?_⟩
  have hX : ((1 - rp) ^ 2 - (1 - rm) ^ 2) / (2 * (1 / 100))
      = -(2 * d * (2 - (rp + rm))) / (rp + rm) := by
    rw [eq_div_iff hs_pos.ne']
    linear_combination (-(50 * (2 - rp - rm))) * ep + (50 * (2 - rp - rm)) * em
  have key : -(2 * d * (2 - (rp + rm))) / (rp + rm)
      - (-(1 : ℝ)) * (1 - r0) / (r0 + 1 / 10000) * (2 * d)
      = 2 * d * ((rp + rm - 2 * r0) - 1 / 10000 * (2 - (rp + rm)))
        / ((r0 + 1 / 10000) * (rp + rm)) := by
    field_simp
    ring
  rw [hX, key]
  have hden : 0 < (r0 + 1 / 10000) * (rp + rm) := mul_pos he hs_pos
  have hden_ge : 2 * (r0 * r0) ≤ (r0 + 1 / 10000) * (rp + rm) := by
    have a1 : r0 * (2 * r0) ≤ (r0 + 1 / 10000) * (2 * r0) :=
      mul_le_mul_of_nonneg_right (by linarith) (by linarith)
    have a2 : (r0 + 1 / 10000) * (2 * r0) ≤ (r0 + 1 / 10000) * (rp + rm) :=
      mul_le_mul_of_nonneg_left hs_ge he.le
    linarith
  have habs : |2 * d * ((rp + rm - 2 * r0) - 1 / 10000 * (2 - (rp + rm)))|
      ≤ 2 * r0 * (1 / 1000) := by
    rw [abs_mul]
    have a1 : |2 * d| ≤ 2 * r0 := by
      rw [abs_mul]
      simpa using hdabs
    have a2 : |(rp + rm - 2 * r0) - 1 / 10000 * (2 - (rp + rm))| ≤ 1 / 1000 := by
      rw [abs_le]
      constructor <;> linarith
    exact mul_le_mul a1 a2 (abs_nonneg _) (by linarith)
  rw [abs_div, abs_of_pos hden, div_le_iff₀ hden]
  have a3 : r0 * (1 / 10) ≤ r0 * r0 := mul_le_mul_of_nonneg_left h0 hr0
  linarith

theorem sq_diff_small (u : ℝ) (hu0 : 0 ≤ u) (hu : u ≤ 2 / 100) :
    |(u ^ 2 - (0 : ℝ) ^ 2) / (2 * (1 / 100))| ≤ 2 / 100
    ∧ |((0 : ℝ) ^ 2 - u ^ 2) / (2 * (1 / 100))| ≤ 2 / 100 := by
  have h1 : u ^ 2 ≤ (2 / 100) * u := by nlinarith
  have h2 : 0 ≤ u ^ 2 := sq_nonneg u
  constructor
  · rw [abs_le]
    constructor
    · rw [le_div_iff₀ (by norm_num)]
      linarith
    · rw [div_le_iff₀ (by norm_num)]
      linarith
  · rw [abs_le]
    constructor
    · rw [le_div_iff₀ (by norm_num)]
      linarith
    · rw [div_le_iff₀ (by norm_num)]
      linarith

theorem nonlegacy_pair_error (r0 rp rm d : ℝ) (h0 : 1 / 10 ≤ r0) (hp : 0 ≤ rp) (hm : 0 ≤ rm)
    (hd : d ^ 2 ≤ r0 ^ 2)
    (ep : rp ^ 2 = r0 ^ 2 + 2 * d * (1 / 100) + (1 / 100) ^ 2)
    (em : rm ^ 2 = r0 ^ 2 - 2 * d * (1 / 100) + (1 / 100) ^ 2) :
    |((max (1 - rp) 0) ^ 2 - (max (1 - rm) 0) ^ 2) / (2 * (1 / 100))
        - (if 1 - r0 > 0 then (-(1 : ℝ)) * (1 - r0) / (r0 + 1 / 10000) * (2 * d) else 0)|
      ≤ 6 / 100 := by
  have hr0 : 0 ≤ r0 := by linarith
  obtain ⟨hd1, hd2⟩ := abs_le_of_sq_le_sq' hd hr0
  obtain ⟨hp_ge, hp_le⟩ := sqrt_move_bounds r0 rp d (1 / 100) hr0 hp (by norm_num) hd1 hd2 ep
  obtain ⟨hm_ge, hm_le⟩ := sqrt_move_bounds r0 rm (-d) (1 / 100) hr0 hm (by norm_num)
    (by linarith) (by linarith) (by rw [em]; ring)
  by_cases hpa : 1 - rp > 0
  · by_cases hma : 1 - rm > 0
    · rw [max_eq_left hpa.le, max_eq_left hma.le]
      obtain ⟨h0a, hb⟩ := nonlegacy_pair_error_active r0 rp rm d h0 hp hm hd ep em hpa hma
      rw [if_pos h0a]
      exact hb
    · have hma1 : 1 - rm ≤ 0 := not_lt.mp hma
      rw [max_eq_left hpa.le, max_eq_right hma1]
      have e1 := (sq_diff_small (1 - rp) hpa.le (by linarith)).1
      by_cases h0a : 1 - r0 > 0
      · rw [if_pos h0a]
        have e2 := code_term_small r0 d hr0 hd1 hd2 (by linarith) h0a
        have e3 := abs_sub (((1 - rp) ^ 2 - (0 : ℝ) ^ 2) / (2 * (1 / 100)))
          ((-(1 : ℝ)) * (1 - r0) / (r0 + 1 / 10000) * (2 * d))
        linarith
      · rw [if_neg h0a, sub_zero]
        linarith
  · have hpa1 : 1 - rp ≤ 0 := not_lt.mp hpa
    rw [max_eq_right hpa1]
    by_cases hma : 1 - rm > 0
    · rw [max_eq_left hma.le]
      have e1 := (sq_diff_small (1 - rm) hma.le (by linarith)).2
      by_cases h0a : 1 - r0 > 0
      · rw [if_pos h0a]
        have e2 := code_term_small r0 d hr0 hd1 hd2 (by linarith) h0a
        have e3 := abs_sub (((0 : ℝ) ^ 2 - (1 - rm) ^ 2) / (2 * (1 / 100)))
          ((-(1 : ℝ)) * (1 - r0) / (r0 + 1 / 10000) * (2 * d))
        linarith
      · rw [if_neg h0a, sub_zero]
        linarith
    · have hma1 : 1 - rm ≤ 0 := not_lt.mp hma
      rw [max_eq_right hma1]
      by_cases h0a : 1 - r0 > 0
      · rw [if_pos h0a]
        have e2 := code_term_small r0 d hr0 hd1 hd2 (by linarith) h0a
        simp only [sub_self, zero_div, zero_sub, abs_neg]
        linarith
      · rw [if_neg h0a]
        norm_num

theorem legacy_pair_error (D0 d h m : ℝ) (hh : 0 < h)
    (hact : (m - (D0 + 2 * d * h + h ^ 2) > 0 ↔ m - (D0 - 2 * d * h + h ^ 2) > 0)) :
    |(max (m - (D0 + 2 * d * h + h ^ 2)) 0 - max (m - (D0 - 2 * d * h + h ^ 2)) 0) / (2 * h)
        - (if m - D0 > 0 then -(2 * d) else 0)| ≤ h := by
  by_cases hp : m - (D0 + 2 * d * h + h ^ 2) > 0
  · have hm := hact.mp hp
    have h0 : m - D0 > 0 := by nlinarith
    rw [max_eq_left hp.le, max_eq_left hm.le, if_pos h0]
    have e : (m - (D0 + 2 * d * h + h ^ 2) - (m - (D0 - 2 * d * h + h ^ 2))) / (2 * h)
        - -(2 * d) = 0 := by
      field_simp
      ring
    rw [e, abs_zero]
    exact hh.le
  · have hm : ¬ (m - (D0 - 2 * d * h + h ^ 2) > 0) := fun hm => hp (hact.mpr hm)
    rw [max_eq_right (not_lt.mp hp), max_eq_right (not_lt.mp hm)]
    simp only [sub_self, zero_div, zero_sub]
    by_cases h0 : m - D0 > 0
    · rw [if_pos h0, neg_neg, abs_le]
      have hp1 := not_lt.mp hp
      have hm1 := not_lt.mp hm
      constructor
      · by_contra hc
        push_neg at hc
        nlinarith
      · by_contra hc
        push_neg at hc
        nlinarith
    · rw [if_neg h0, neg_zero, abs_zero]
      exact hh.le

theorem sqDist_update (channels : Nat) (b : Nat → α) (r k0 : Nat) (x : α) (i j : Nat)
    (hk0 : k0 < channels) :
    sqDist channels (Function.update b (r * channels + k0) x) i j
      = sqDist channels b i j
        - (b (i * channels + k0) - b (j * channels + k0)) ^ 2
        + ((if i = r then x else b (i * channels + k0))
            - (if j = r then x else b (j * channels + k0))) ^ 2 := by
  have hupd : ∀ m k, k < channels →
      Function.update b (r * channels + k0) x (m * channels + k)
        = if m = r ∧ k = k0 then x else b (m * channels + k) := by
    intro m k hk
    unfold Function.update
    simp only [flat_index_eq_iff channels m r k k0 hk hk0, eq_rec_constant, dite_eq_ite]
  have hsum : sqDist channels (Function.update b (r * channels + k0) x) i j
      - sqDist channels b i j
      = ((if i = r then x else b (i * channels + k0))
            - (if j = r then x else b (j * channels + k0))) ^ 2
        - (b (i * channels + k0) - b (j * channels + k0)) ^ 2 := by
    unfold sqDist
    rw [← Finset.sum_sub_distrib, Finset.sum_eq_single k0]
    · rw [hupd i k0 hk0, hupd j k0 hk0]
      simp only [and_true]
    · intro k hk hne
      have hk1 := Finset.mem_range.mp hk
      rw [hupd i k hk1, hupd j k hk1]
      simp only [hne, and_false, if_false, sub_self]
    · intro h
      exact absurd (Finset.mem_range.mpr hk0) h
  linear_combination hsum

theorem sq_entry_le_sqDist (channels : Nat) (b : Nat → α) (i j k0 : Nat) (hk0 : k0 < channels) :
    (b (i * channels + k0) - b (j * channels + k0)) ^ 2 ≤ sqDist channels b i j := by
  unfold sqDist
  exact Finset.single_le_sum
    (f := fun k => (b (i * channels + k) - b (j * channels + k)) ^ 2)
    (fun k _ => sq_nonneg _) (Finset.mem_range.mpr hk0)

theorem hinge_pair_error (legacy : Bool) (P D0 Dp Dm d : ℝ) (hP : 0 < P) (hD0 : 0 ≤ D0)
    (hDp : 0 ≤ Dp) (hDm : 0 ≤ Dm) (hd : d ^ 2 ≤ D0)
    (ep : Dp = D0 + 2 * d * (1 / 100) + (1 / 100) ^ 2)
    (em : Dm = D0 - 2 * d * (1 / 100) + (1 / 100) ^ 2)
    (hcond : if legacy then (1 - Dp > 0 ↔ 1 - Dm > 0) else Real.sqrt D0 ≥ 1 / 10) :
    |(if legacy then (if 1 - D0 > 0 then -(1 / P) else 0)
        else (if 1 - Real.sqrt D0 > 0 then
            -(1 / P) * (1 - Real.sqrt D0) / (Real.sqrt D0 + 1 / 10000)
          else 0)) * d
      - ((if legacy then max (1 - Dp) 0 else (max (1 - Real.sqrt Dp) 0) ^ 2)
          - (if legacy then max (1 - Dm) 0 else (max (1 - Real.sqrt Dm) 0) ^ 2))
        / P / 2 / (2 * (1 / 100))|
      ≤ 6 / 100 / (2 * P) := by
  have h2P : 0 < 2 * P := by linarith
  cases legacy
  · simp only [Bool.false_eq_true, if_false] at hcond ⊢
    have hb := nonlegacy_pair_error (Real.sqrt D0) (Real.sqrt Dp) (Real.sqrt Dm) d hcond
      (Real.sqrt_nonneg _) (Real.sqrt_nonneg _)
      (by rw [Real.sq_sqrt hD0]; exact hd)
      (by rw [Real.sq_sqrt hDp, Real.sq_sqrt hD0]; exact ep)
      (by rw [Real.sq_sqrt hDm, Real.sq_sqrt hD0]; exact em)
    have e : (if 1 - Real.sqrt D0 > 0 then
            -(1 / P) * (1 - Real.sqrt D0) / (Real.sqrt D0 + 1 / 10000)
          else 0) * d
        - ((max (1 - Real.sqrt Dp) 0) ^ 2 - (max (1 - Real.sqrt Dm) 0) ^ 2)
          / P / 2 / (2 * (1 / 100))
        = -(((max (1 - Real.sqrt Dp) 0) ^ 2 - (max (1 - Real.sqrt Dm) 0) ^ 2) / (2 * (1 / 100))
            - (if 1 - Real.sqrt D0 > 0 then
                (-(1 : ℝ)) * (1 - Real.sqrt D0) / (Real.sqrt D0 + 1 / 10000) * (2 * d)
              else 0)) / (2 * P) := by
      split_ifs
      · field_simp
        ring
      · field_simp
        left
        ring
    rw [e, abs_div, abs_neg, abs_of_pos h2P]
    exact div_le_div_of_nonneg_right hb h2P.le
  · simp only [if_true] at hcond ⊢
    have hact : (1 - (D0 + 2 * d * (1 / 100) + (1 / 100) ^ 2) > 0
        ↔ 1 - (D0 - 2 * d * (1 / 100) + (1 / 100) ^ 2) > 0) := by
      rw [← ep, ← em]
      exact hcond
    have hb := legacy_pair_error D0 d (1 / 100) 1 (by norm_num) hact
    rw [← ep, ← em] at hb
    have e : (if 1 - D0 > 0 then -(1 / P) else 0) * d
        - (max (1 - Dp) 0 - max (1 - Dm) 0) / P / 2 / (2 * (1 / 100))
        = -((max (1 - Dp) 0 - max (1 - Dm) 0) / (2 * (1 / 100))
            - (if 1 - D0 > 0 then -(2 * d) else 0)) / (2 * P) := by
      split_ifs
      · field_simp
        ring
      · field_simp
        left
        ring
    rw [e, abs_div, abs_neg, abs_of_pos h2P]
    exact div_le_div_of_nonneg_right (by linarith) h2P.le

/-- The error of one pair in the gradient check: what `Backward_cpu` adds for
the pair to entry `(r, k0)` against the pair's share of the central
difference with step `1/100` (margin 1, upstream gradient 1, `P` pairs). -/
theorem pair_error_bound (cp channels : Nat) (b : Nat → ℝ) (legacy : Bool) (P : ℝ)
    (hP : 0 < P) (r k0 i j : Nat) (hij : i < j) (hk0 : k0 < channels)
    (hcond : i / cp ≠ j / cp → (i = r ∨ j = r) →
      if legacy then
        (1 - sqDist channels (Function.update b (r * channels + k0)
              (b (r * channels + k0) + 1 / 100)) i j > 0
          ↔ 1 - sqDist channels (Function.update b (r * channels + k0)
              (b (r * channels + k0) - 1 / 100)) i j > 0)
      else Real.sqrt (sqDist channels b i j) ≥ 1 / 10) :
    |((if i = r then
          coef Real.sqrt 1 cp legacy (1 / P) (sqDist channels b i j) i j
            * (b (i * channels + k0) - b (j * channels + k0))
        else 0)
        + (if j = r then
            -coef Real.sqrt 1 cp legacy (1 / P) (sqDist channels b i j) i j
              * (b (i * channels + k0) - b (j * channels + k0))
          else 0))
      - (contrib Real.sqrt 1 cp legacy channels
            (Function.update b (r * channels + k0) (b (r * channels + k0) + 1 / 100)) i j
          - contrib Real.sqrt 1 cp legacy channels
            (Function.update b (r * channels + k0) (b (r * channels + k0) - 1 / 100)) i j)
        / P / 2 / (2 * (1 / 100))|
      ≤ if (i = r ∨ j = r) ∧ i / cp ≠ j / cp then 6 / 100 / (2 * P) else 0 := by
  have hp := sqDist_update channels b r k0 (b (r * channels + k0) + 1 / 100) i j hk0
  have hm := sqDist_update channels b r k0 (b (r * channels + k0) - 1 / 100) i j hk0
  have hD0 := sqDist_nonneg channels b i j
  have hDp := sqDist_nonneg channels
    (Function.update b (r * channels + k0) (b (r * channels + k0) + 1 / 100)) i j
  have hDm := sqDist_nonneg channels
    (Function.update b (r * channels + k0) (b (r * channels + k0) - 1 / 100)) i j
  have hd := sq_entry_le_sqDist channels b i j k0 hk0
  by_cases hi : i = r
  · have hj : j ≠ r := by omega
    subst hi
    simp only [if_true, if_neg hj, add_zero] at hp hm ⊢
    have ep : sqDist channels (Function.update b (i * channels + k0)
          (b (i * channels + k0) + 1 / 100)) i j
        = sqDist channels b i j + 2 * (b (i * channels + k0) - b (j * channels + k0)) * (1 / 100)
          + (1 / 100) ^ 2 := by
      rw [hp]; ring
    have em : sqDist channels (Function.update b (i * channels + k0)
          (b (i * channels + k0) - 1 / 100)) i j
        = sqDist channels b i j - 2 * (b (i * channels + k0) - b (j * channels + k0)) * (1 / 100)
          + (1 / 100) ^ 2 := by
      rw [hm]; ring
    by_cases hg : i / cp = j / cp
    · simp only [hg, ne_eq, not_true_eq_false, and_false, if_false]
      unfold coef contrib
      simp only [hg, if_true]
      rw [ep, em]
      have : 1 / P * (b (i * channels + k0) - b (j * channels + k0))
          - (sqDist channels b i j
              + 2 * (b (i * channels + k0) - b (j * channels + k0)) * (1 / 100) + (1 / 100) ^ 2
            - (sqDist channels b i j
              - 2 * (b (i * channels + k0) - b (j * channels + k0)) * (1 / 100) + (1 / 100) ^ 2))
            / P / 2 / (2 * (1 / 100)) = 0 := by
        field_simp
        ring
      rw [this, abs_zero]
    · rw [if_pos ⟨Or.inl trivial, hg⟩]
      have hc := hcond hg (Or.inl rfl)
      have hb := hinge_pair_error legacy P _ _ _ _ hP hD0 hDp hDm hd ep em hc
      unfold coef contrib
      simp only [hg, if_false]
      exact hb
  · by_cases hj : j = r
    · subst hj
      simp only [if_neg hi, if_true, zero_add] at hp hm ⊢
      have ep : sqDist channels (Function.update b (j * channels + k0)
            (b (j * channels + k0) + 1 / 100)) i j
          = sqDist channels b i j
            + 2 * (-(b (i * channels + k0) - b (j * channels + k0))) * (1 / 100)
            + (1 / 100) ^ 2 := by
        rw [hp]; ring
      have em : sqDist channels (Function.update b (j * channels + k0)
            (b (j * channels + k0) - 1 / 100)) i j
          = sqDist channels b i j
            - 2 * (-(b (i * channels + k0) - b (j * channels + k0))) * (1 / 100)
            + (1 / 100) ^ 2 := by
        rw [hm]; ring
      by_cases hg : i / cp = j / cp
      · simp only [hg, ne_eq, not_true_eq_false, and_false, if_false]
        unfold coef contrib
        simp only [hg, if_true]
        rw [ep, em]
        have : -(1 / P) * (b (i * channels + k0) - b (j * channels + k0))
            - (sqDist channels b i j
                + 2 * (-(b (i * channels + k0) - b (j * channels + k0))) * (1 / 100)
                + (1 / 100) ^ 2
              - (sqDist channels b i j
                - 2 * (-(b (i * channels + k0) - b (j * channels + k0))) * (1 / 100)
                + (1 / 100) ^ 2))
              / P / 2 / (2 * (1 / 100)) = 0 := by
          field_simp
          ring
        rw [this, abs_zero]
      · rw [if_pos ⟨Or.inr trivial, hg⟩]
        have hc := hcond hg (Or.inr rfl)
        have hd' : (-(b (i * channels + k0) - b (j * channels + k0))) ^ 2
            ≤ sqDist channels b i j := by
          rw [neg_sq]; exact hd
        have hb := hinge_pair_error legacy P _ _ _ _ hP hD0 hDp hDm hd' ep em hc
        unfold coef contrib
        simp only [hg, if_false]
        rw [neg_mul, ← mul_neg]
        exact hb
    · simp only [if_neg hi, if_neg hj] at hp hm ⊢
      have ep : sqDist channels (Function.update b (r * channels + k0)
            (b (r * channels + k0) + 1 / 100)) i j = sqDist channels b i j := by
        rw [hp]; ring
      have em : sqDist channels (Function.update b (r * channels + k0)
            (b (r * channels + k0) - 1 / 100)) i j = sqDist channels b i j := by
        rw [hm]; ring
      unfold contrib
      rw [ep, em]
      simp [hi, hj]

theorem finiteDifference_eq_sum (sqrt : α → α) (p : ContrastiveLossParameter α)
    (s : LayerState α) (idx : Nat) (h : α) :
    finiteDifference sqrt p s idx h
      = ∑ i in Finset.range s.num, ∑ j in Finset.Ico (i + 1) s.num,
          (contrib sqrt p.margin p.image_batch_copies p.legacy_version s.channels
              (Function.update s.bottom_data idx (s.bottom_data idx + h)) i j
            - contrib sqrt p.margin p.image_batch_copies p.legacy_version s.channels
              (Function.update s.bottom_data idx (s.bottom_data idx - h)) i j)
          / ((s.num * (s.num - 1) / 2 : ℕ) : α) / 2 / (2 * h) := by
  unfold finiteDifference
  rw [Forward_cpu_top_data, Forward_cpu_top_data]
  show ((∑ i in Finset.range s.num, ∑ j in Finset.Ico (i + 1) s.num,
          contrib sqrt p.margin p.image_batch_copies p.legacy_version s.channels
            (Function.update s.bottom_data idx (s.bottom_data idx + h)) i j)
        / ((s.num * (s.num - 1) / 2 : ℕ) : α) / 2
      - (∑ i in Finset.range s.num, ∑ j in Finset.Ico (i + 1) s.num,
          contrib sqrt p.margin p.image_batch_copies p.legacy_version s.channels
            (Function.update s.bottom_data idx (s.bottom_data idx - h)) i j)
        / ((s.num * (s.num - 1) / 2 : ℕ) : α) / 2) / (2 * h) = _
  rw [← sub_div, ← sub_div, ← Finset.sum_sub_distrib, Finset.sum_div, Finset.sum_div,
    Finset.sum_div]
  refine Finset.sum_congr rfl (fun i _ => ?_)
  rw [← Finset.sum_sub_distrib, Finset.sum_div, Finset.sum_div, Finset.sum_div]

/-- The gradient-check error of entry `(r, k0)` is at most `6/100 / (2 * P)`
per different-group pair touching row `r` (margin 1, step `1/100`, upstream
gradient 1). -/
theorem gradient_check_error_le (s : LayerState ℝ) (cp : Nat) (legacy : Bool) (b0 : Nat → ℝ)
    (r k0 : Nat) (hP : 0 < s.num * (s.num - 1) / 2) (hr : r < s.num) (hk0 : k0 < s.channels)
    (hcond : ∀ i j, i < j → j < s.num → i / cp ≠ j / cp → (i = r ∨ j = r) →
      if legacy then
        (1 - sqDist s.channels (Function.update s.bottom_data (r * s.channels + k0)
              (s.bottom_data (r * s.channels + k0) + 1 / 100)) i j > 0
          ↔ 1 - sqDist s.channels (Function.update s.bottom_data (r * s.channels + k0)
              (s.bottom_data (r * s.channels + k0) - 1 / 100)) i j > 0)
      else Real.sqrt (sqDist s.channels s.bottom_data i j) ≥ 1 / 10) :
    |(Backward_cpu Real.sqrt (paramsOf 1 cp legacy) true
          { Forward_cpu Real.sqrt (paramsOf 1 cp legacy) s with
            bottom_diff := b0, top_diff := 1 }).bottom_diff (r * s.channels + k0)
        - finiteDifference Real.sqrt (paramsOf 1 cp legacy) s (r * s.channels + k0) (1 / 100)|
      ≤ ∑ i in Finset.range s.num, ∑ j in Finset.Ico (i + 1) s.num,
          if (i = r ∨ j = r) ∧ i / cp ≠ j / cp then
            6 / 100 / (2 * ((s.num * (s.num - 1) / 2 : ℕ) : ℝ))
          else 0 := by
  have e : (Backward_cpu Real.sqrt (paramsOf 1 cp legacy) true
          { Forward_cpu Real.sqrt (paramsOf 1 cp legacy) s with
            bottom_diff := b0, top_diff := 1 }).bottom_diff (r * s.channels + k0)
      = ∑ i in Finset.range s.num, ∑ j in Finset.Ico (i + 1) s.num,
          ((if i = r then
              coef Real.sqrt 1 cp legacy (1 / ((s.num * (s.num - 1) / 2 : ℕ) : ℝ))
                  (sqDist s.channels s.bottom_data i j) i j
                * (s.bottom_data (i * s.channels + k0) - s.bottom_data (j * s.channels + k0))
            else 0)
          + (if j = r then
              -coef Real.sqrt 1 cp legacy (1 / ((s.num * (s.num - 1) / 2 : ℕ) : ℝ))
                  (sqDist s.channels s.bottom_data i j) i j
                * (s.bottom_data (i * s.channels + k0) - s.bottom_data (j * s.channels + k0))
            else 0)) :=
    Backward_cpu_entry_of_cache Real.sqrt (paramsOf 1 cp legacy)
      { Forward_cpu Real.sqrt (paramsOf 1 cp legacy) s with bottom_diff := b0, top_diff := 1 }
      s.bottom_data (Forward_cpu_cache Real.sqrt (paramsOf 1 cp legacy) s) r k0 hr hk0
  have e2 : finiteDifference Real.sqrt (paramsOf 1 cp legacy) s (r * s.channels + k0) (1 / 100)
      = ∑ i in Finset.range s.num, ∑ j in Finset.Ico (i + 1) s.num,
          (contrib Real.sqrt 1 cp legacy s.channels
              (Function.update s.bottom_data (r * s.channels + k0)
                (s.bottom_data (r * s.channels + k0) + 1 / 100)) i j
            - contrib Real.sqrt 1 cp legacy s.channels
              (Function.update s.bottom_data (r * s.channels + k0)
                (s.bottom_data (r * s.channels + k0) - 1 / 100)) i j)
          / ((s.num * (s.num - 1) / 2 : ℕ) : ℝ) / 2 / (2 * (1 / 100)) :=
    finiteDifference_eq_sum Real.sqrt (paramsOf 1 cp legacy) s (r * s.channels + k0) (1 / 100)
  rw [e, e2, ← Finset.sum_sub_distrib]
  refine (Finset.abs_sum_le_sum_abs _ _).trans (Finset.sum_le_sum (fun i _ => ?_))
  rw [← Finset.sum_sub_distrib]
  refine (Finset.abs_sum_le_sum_abs _ _).trans (Finset.sum_le_sum (fun j hj => ?_))
  have hj2 := Finset.mem_Ico.mp hj
  have hPr : (0 : ℝ) < ((s.num * (s.num - 1) / 2 : ℕ) : ℝ) := by exact_mod_cast hP
  exact pair_error_bound cp s.channels s.bottom_data legacy _ hPr r k0 i j (by omega) hk0
    (hcond i j (by omega) hj2.2)

/-- C6, amended: for a batch of `N = 4` vectors with `C = 2` channels,
`copiesPerGroup = 2`, margin 1 and upstream gradient 1, the entry `g` of the
gradient written by `Backward_cpu` for the input scalar `(r, k0)` and the
central finite-difference estimate `e` with step `1/100` satisfy
`|g - e| ≤ 1/100 * max(1, |g|, |e|)` whenever, for every different-group pair
involving row `r`: in legacy mode the hinge is active (`1 - dist² > 0`) at
both perturbed points or at neither; in non-legacy mode the Euclidean
distance of the pair is at least `1/10`. -/
theorem gradient_check_within_tolerance (s : LayerState ℝ) (legacy : Bool) (b0 : Nat → ℝ)
    (r k0 : Nat) (hnum : s.num = 4) (hch : s.channels = 2) (hr : r < s.num)
    (hk0 : k0 < s.channels)
    (hcond : ∀ i j, i < j → j < s.num → i / 2 ≠ j / 2 → (i = r ∨ j = r) →
      if legacy then
        (1 - sqDist s.channels (Function.update s.bottom_data (r * s.channels + k0)
              (s.bottom_data (r * s.channels + k0) + 1 / 100)) i j > 0
          ↔ 1 - sqDist s.channels (Function.update s.bottom_data (r * s.channels + k0)
              (s.bottom_data (r * s.channels + k0) - 1 / 100)) i j > 0)
      else Real.sqrt (sqDist s.channels s.bottom_data i j) ≥ 1 / 10) :
    |(Backward_cpu Real.sqrt (paramsOf 1 2 legacy) true
          { Forward_cpu Real.sqrt (paramsOf 1 2 legacy) s with
            bottom_diff := b0, top_diff := 1 }).bottom_diff (r * s.channels + k0)
        - finiteDifference Real.sqrt (paramsOf 1 2 legacy) s (r * s.channels + k0) (1 / 100)|
      ≤ 1 / 100 * max 1 (max
          |(Backward_cpu Real.sqrt (paramsOf 1 2 legacy) true
            { Forward_cpu Real.sqrt (paramsOf 1 2 legacy) s with
              bottom_diff := b0, top_diff := 1 }).bottom_diff (r * s.channels + k0)|
          |finiteDifference Real.sqrt (paramsOf 1 2 legacy) s (r * s.channels + k0)
            (1 / 100)|) := by
  have hc2 : s.channels = 2 := hch
  have h := gradient_check_error_le s 2 legacy b0 r k0 (by rw [hnum]; decide) hr hk0 hcond
  have hsum : (∑ i in Finset.range s.num, ∑ j in Finset.Ico (i + 1) s.num,
      if (i = r ∨ j = r) ∧ i / 2 ≠ j / 2 then
        6 / 100 / (2 * ((s.num * (s.num - 1) / 2 : ℕ) : ℝ))
      else 0) = 1 / 100 := by
    rw [hnum] at hr ⊢
    rw [sum_pairs_four (fun i j => if (i = r ∨ j = r) ∧ i / 2 ≠ j / 2 then
        6 / 100 / (2 * ((4 * (4 - 1) / 2 : ℕ) : ℝ)) else 0)]
    interval_cases r <;> norm_num
  rw [hsum] at h
  have hmax : (1 : ℝ) ≤ max 1 (max
          |(Backward_cpu Real.sqrt (paramsOf 1 2 legacy) true
            { Forward_cpu Real.sqrt (paramsOf 1 2 legacy) s with
              bottom_diff := b0, top_diff := 1 }).bottom_diff (r * s.channels + k0)|
          |finiteDifference Real.sqrt (paramsOf 1 2 legacy) s (r * s.channels + k0)
            (1 / 100)|) := le_max_left _ _
  linarith

theorem sqDist_two (b : Nat → α) (i j : Nat) :
    sqDist 2 b i j = (b (i * 2) - b (j * 2)) ^ 2 + (b (i * 2 + 1) - b (j * 2 + 1)) ^ 2 := by
  simp [sqDist, Finset.sum_range_succ]

/-- Entry `(r, k0)` of the gradient for `N = 4`, `C = 2`, upstream gradient 1. -/
theorem Backward_cpu_entry_four (s : LayerState ℝ) (cp : Nat) (legacy : Bool) (b0 : Nat → ℝ)
    (r k0 : Nat) (hnum : s.num = 4) (hch : s.channels = 2) (hr : r < 4) (hk0 : k0 < 2) :
    (Backward_cpu Real.sqrt (paramsOf 1 cp legacy) true
          { Forward_cpu Real.sqrt (paramsOf 1 cp legacy) s with
            bottom_diff := b0, top_diff := 1 }).bottom_diff (r * 2 + k0)
      = ∑ i in Finset.range 4, ∑ j in Finset.Ico (i + 1) 4,
          ((if i = r then
              coef Real.sqrt 1 cp legacy (1 / 6) (sqDist 2 s.bottom_data i j) i j
                * (s.bottom_data (i * 2 + k0) - s.bottom_data (j * 2 + k0))
            else 0)
          + (if j = r then
              -coef Real.sqrt 1 cp legacy (1 / 6) (sqDist 2 s.bottom_data i j) i j
                * (s.bottom_data (i * 2 + k0) - s.bottom_data (j * 2 + k0))
            else 0)) := by
  have e : (Backward_cpu Real.sqrt (paramsOf 1 cp legacy) true
          { Forward_cpu Real.sqrt (paramsOf 1 cp legacy) s with
            bottom_diff := b0, top_diff := 1 }).bottom_diff (r * s.channels + k0)
      = ∑ i in Finset.range s.num, ∑ j in Finset.Ico (i + 1) s.num,
          ((if i = r then
              coef Real.sqrt 1 cp legacy (1 / ((s.num * (s.num - 1) / 2 : ℕ) : ℝ))
                  (sqDist s.channels s.bottom_data i j) i j
                * (s.bottom_data (i * s.channels + k0) - s.bottom_data (j * s.channels + k0))
            else 0)
          + (if j = r then
              -coef Real.sqrt 1 cp legacy (1 / ((s.num * (s.num - 1) / 2 : ℕ) : ℝ))
                  (sqDist s.channels s.bottom_data i j) i j
                * (s.bottom_data (i * s.channels + k0) - s.bottom_data (j * s.channels + k0))
            else 0)) :=
    Backward_cpu_entry_of_cache Real.sqrt (paramsOf 1 cp legacy)
      { Forward_cpu Real.sqrt (paramsOf 1 cp legacy) s with bottom_diff := b0, top_diff := 1 }
      s.bottom_data (Forward_cpu_cache Real.sqrt (paramsOf 1 cp legacy) s) r k0
      (show r < s.num by rw [hnum]; exact hr) (show k0 < s.channels by rw [hch]; exact hk0)
  rw [hnum, hch] at e
  rw [e]
  norm_num

/-- The central difference with step `1/100` for `N = 4`, `C = 2`, margin 1. -/
theorem finiteDifference_four (s : LayerState ℝ) (cp : Nat) (legacy : Bool)
    (idx : Nat) (hnum : s.num = 4) (hch : s.channels = 2) :
    finiteDifference Real.sqrt (paramsOf 1 cp legacy) s idx (1 / 100)
      = ∑ i in Finset.range 4, ∑ j in Finset.Ico (i + 1) 4,
          (contrib Real.sqrt 1 cp legacy 2
              (Function.update s.bottom_data idx (s.bottom_data idx + 1 / 100)) i j
            - contrib Real.sqrt 1 cp legacy 2
              (Function.update s.bottom_data idx (s.bottom_data idx - 1 / 100)) i j)
          / 6 / 2 / (2 * (1 / 100)) := by
  have e2 : finiteDifference Real.sqrt (paramsOf 1 cp legacy) s idx (1 / 100)
      = ∑ i in Finset.range s.num, ∑ j in Finset.Ico (i + 1) s.num,
          (contrib Real.sqrt 1 cp legacy s.channels
              (Function.update s.bottom_data idx (s.bottom_data idx + 1 / 100)) i j
            - contrib Real.sqrt 1 cp legacy s.channels
              (Function.update s.bottom_data idx (s.bottom_data idx - 1 / 100)) i j)
          / ((s.num * (s.num - 1) / 2 : ℕ) : ℝ) / 2 / (2 * (1 / 100)) :=
    finiteDifference_eq_sum Real.sqrt (paramsOf 1 cp legacy) s idx (1 / 100)
  rw [hnum, hch] at e2
  rw [e2]
  norm_num

theorem gradient_check_legacy_values :
    (Backward_cpu Real.sqrt (paramsOf 1 2 true) true
        { Forward_cpu Real.sqrt (paramsOf 1 2 true) (batchOnMargin ℝ) with
          bottom_diff := fun _ => 0, top_diff := 1 }).bottom_diff (0 * 2 + 0) = 0
    ∧ finiteDifference Real.sqrt (paramsOf 1 2 true) (batchOnMargin ℝ) (0 * 2 + 0) (1 / 100)
        = 199 / 1200 := by
  constructor
  · rw [Backward_cpu_entry_four (batchOnMargin ℝ) 2 true (fun _ => 0) 0 0 rfl rfl (by decide)
      (by decide), sum_pairs_four]
    norm_num [coef, sqDist_two, batchOnMargin, stateOf]
  · rw [finiteDifference_four (batchOnMargin ℝ) 2 true (0 * 2 + 0) rfl rfl, sum_pairs_four]
    norm_num [contrib, sqDist_two, batchOnMargin, stateOf, Function.update, max_def]

theorem gradient_check_nonlegacy_values :
    (Backward_cpu Real.sqrt (paramsOf 1 2 false) true
        { Forward_cpu Real.sqrt (paramsOf 1 2 false) (batchNear ℝ) with
          bottom_diff := fun _ => 0, top_diff := 1 }).bottom_diff (0 * 2 + 0) = -(199 / 612)
    ∧ finiteDifference Real.sqrt (paramsOf 1 2 false) (batchNear ℝ) (0 * 2 + 0) (1 / 100)
        = -(33 / 200) := by
  have h200 : Real.sqrt 40000 = 200 := by
    rw [show (40000 : ℝ) = 200 ^ 2 by norm_num, Real.sqrt_sq (by norm_num)]
  have h3 : Real.sqrt 9 = 3 := by
    rw [show (9 : ℝ) = 3 ^ 2 by norm_num, Real.sqrt_sq (by norm_num)]
  constructor
  · rw [Backward_cpu_entry_four (batchNear ℝ) 2 false (fun _ => 0) 0 0 rfl rfl (by decide)
      (by decide), sum_pairs_four]
    norm_num [coef, sqDist_two, batchNear, stateOf]
    rw [h200]
    norm_num
  · rw [finiteDifference_four (batchNear ℝ) 2 false (0 * 2 + 0) rfl rfl, sum_pairs_four]
    norm_num [contrib, sqDist_two, batchNear, stateOf, Function.update]
    rw [h200, h3]
    norm_num [max_def]

/-- C6, refuted as stated, in both modes, for entry `(0, 0)`, `N = 4`,
`C = 2`, `copiesPerGroup = 2`, margin 1, upstream gradient 1, step `1/100`,
all batch entries in `[-1, 1]`.  Legacy mode, batch `[0,0]`, `[0,0]`,
`[1,0]`, `[1,0]`: `Backward_cpu` writes `g = 0`, the central difference is
`e = 199/1200`.  Non-legacy mode, batch `[1/200,0]`, `[1/200,0]`, `[0,0]`,
`[0,0]`: `g = -199/612`, `e = -33/200`.  In both,
`|g - e| > 1/100 * max(1, |g|, |e|)`. -/
theorem gradient_check_counterexample :
    ((∀ idx, idx < 8 → -1 ≤ (batchOnMargin ℝ).bottom_data idx
        ∧ (batchOnMargin ℝ).bottom_data idx ≤ 1)
      ∧ ¬ (|(Backward_cpu Real.sqrt (paramsOf 1 2 true) true
              { Forward_cpu Real.sqrt (paramsOf 1 2 true) (batchOnMargin ℝ) with
                bottom_diff := fun _ => 0, top_diff := 1 }).bottom_diff (0 * 2 + 0)
            - finiteDifference Real.sqrt (paramsOf 1 2 true) (batchOnMargin ℝ) (0 * 2 + 0)
                (1 / 100)|
          ≤ 1 / 100 * max 1 (max
              |(Backward_cpu Real.sqrt (paramsOf 1 2 true) true
                { Forward_cpu Real.sqrt (paramsOf 1 2 true) (batchOnMargin ℝ) with
                  bottom_diff := fun _ => 0, top_diff := 1 }).bottom_diff (0 * 2 + 0)|
              |finiteDifference Real.sqrt (paramsOf 1 2 true) (batchOnMargin ℝ) (0 * 2 + 0)
                (1 / 100)|)))
    ∧ ((∀ idx, idx < 8 → -1 ≤ (batchNear ℝ).bottom_data idx
        ∧ (batchNear ℝ).bottom_data idx ≤ 1)
      ∧ ¬ (|(Backward_cpu Real.sqrt (paramsOf 1 2 false) true
              { Forward_cpu Real.sqrt (paramsOf 1 2 false) (batchNear ℝ) with
                bottom_diff := fun _ => 0, top_diff := 1 }).bottom_diff (0 * 2 + 0)
            - finiteDifference Real.sqrt (paramsOf 1 2 false) (batchNear ℝ) (0 * 2 + 0)
                (1 / 100)|
          ≤ 1 / 100 * max 1 (max
              |(Backward_cpu Real.sqrt (paramsOf 1 2 false) true
                { Forward_cpu Real.sqrt (paramsOf 1 2 false) (batchNear ℝ) with
                  bottom_diff := fun _ => 0, top_diff := 1 }).bottom_diff (0 * 2 + 0)|
              |finiteDifference Real.sqrt (paramsOf 1 2 false) (batchNear ℝ) (0 * 2 + 0)
                (1 / 100)|))) := by
  obtain ⟨g1, e1⟩ := gradient_check_legacy_values
  obtain ⟨g2, e2⟩ := gradient_check_nonlegacy_values
  refine ⟨⟨?_, ?_⟩, ⟨?_, ?_⟩⟩
  · intro idx hidx
    interval_cases idx <;> norm_num [batchOnMargin, stateOf]
  · rw [g1, e1]
    norm_num [abs_of_pos, max_def]
  · intro idx hidx
    interval_cases idx <;> norm_num [batchNear, stateOf]
  · rw [g2, e2]
    norm_num [abs_of_pos, abs_of_neg, max_def]

theorem batchABCD_far :
    ∀ i j, i < j → j < (batchABCD ℝ).num → i / 2 ≠ j / 2 → (i = 0 ∨ j = 0) →
      if false then
        (1 - sqDist (batchABCD ℝ).channels
              (Function.update (batchABCD ℝ).bottom_data (0 * (batchABCD ℝ).channels + 0)
                ((batchABCD ℝ).bottom_data (0 * (batchABCD ℝ).channels + 0) + 1 / 100)) i j > 0
          ↔ 1 - sqDist (batchABCD ℝ).channels
              (Function.update (batchABCD ℝ).bottom_data (0 * (batchABCD ℝ).channels + 0)
                ((batchABCD ℝ).bottom_data (0 * (batchABCD ℝ).channels + 0) - 1 / 100)) i j > 0)
      else Real.sqrt (sqDist (batchABCD ℝ).channels (batchABCD ℝ).bottom_data i j) ≥ 1 / 10 := by
  intro i j hij hj hg h0
  have hj4 : j < 4 := hj
  have hi0 : i = 0 := by omega
  subst hi0
  simp only [Bool.false_eq_true, if_false, ge_iff_le]
  show 1 / 10 ≤ Real.sqrt (sqDist 2 (batchABCD ℝ).bottom_data 0 j)
  rw [Real.le_sqrt' (by norm_num), sqDist_two]
  interval_cases j
  · omega
  · norm_num [batchABCD, stateOf]
  · norm_num [batchABCD, stateOf]

theorem gradient_check_within_tolerance_witness :
    ((batchABCD ℝ).num = 4 ∧ (batchABCD ℝ).channels = 2 ∧ 0 < (batchABCD ℝ).num
      ∧ 0 < (batchABCD ℝ).channels
      ∧ ∀ i j, i < j → j < (batchABCD ℝ).num → i / 2 ≠ j / 2 → (i = 0 ∨ j = 0) →
        if false then
          (1 - sqDist (batchABCD ℝ).channels
                (Function.update (batchABCD ℝ).bottom_data (0 * (batchABCD ℝ).channels + 0)
                  ((batchABCD ℝ).bottom_data (0 * (batchABCD ℝ).channels + 0) + 1 / 100)) i j > 0
            ↔ 1 - sqDist (batchABCD ℝ).channels
                (Function.update (batchABCD ℝ).bottom_data (0 * (batchABCD ℝ).channels + 0)
                  ((batchABCD ℝ).bottom_data (0 * (batchABCD ℝ).channels + 0) - 1 / 100)) i j
                > 0)
        else Real.sqrt (sqDist (batchABCD ℝ).channels (batchABCD ℝ).bottom_data i j) ≥ 1 / 10)
    ∧ |(Backward_cpu Real.sqrt (paramsOf 1 2 false) true
          { Forward_cpu Real.sqrt (paramsOf 1 2 false) (batchABCD ℝ) with
            bottom_diff := fun _ => 0, top_diff := 1 }).bottom_diff
          (0 * (batchABCD ℝ).channels + 0)
        - finiteDifference Real.sqrt (paramsOf 1 2 false) (batchABCD ℝ)
            (0 * (batchABCD ℝ).channels + 0) (1 / 100)|
      ≤ 1 / 100 * max 1 (max
          |(Backward_cpu Real.sqrt (paramsOf 1 2 false) true
            { Forward_cpu Real.sqrt (paramsOf 1 2 false) (batchABCD ℝ) with
              bottom_diff := fun _ => 0, top_diff := 1 }).bottom_diff
            (0 * (batchABCD ℝ).channels + 0)|
          |finiteDifference Real.sqrt (paramsOf 1 2 false) (batchABCD ℝ)
            (0 * (batchABCD ℝ).channels + 0) (1 / 100)|) :=
  ⟨⟨rfl, rfl, by decide, by decide, batchABCD_far⟩,
    gradient_check_within_tolerance (batchABCD ℝ) false (fun _ => 0) 0 0 rfl rfl (by decide)
      (by decide) batchABCD_far⟩

/-! ## Pair symmetry (C11) -/

theorem sqDist_comm (channels : Nat) (b : Nat → α) (i j : Nat) :
    sqDist channels b j i = sqDist channels b i j := by
  unfold sqDist
  refine Finset.sum_congr rfl (fun k _ => ?_)
  ring

theorem contrib_comm (sqrt : α → α) (margin : α) (cp : Nat) (legacy : Bool) (channels : Nat)
    (b : Nat → α) (i j : Nat) :
    contrib sqrt margin cp legacy channels b j i = contrib sqrt margin cp legacy channels b i j := by
  unfold contrib
  rw [sqDist_comm channels b i j]
  by_cases h : i / cp = j / cp
  · rw [if_pos h, if_pos h.symm]
  · rw [if_neg h, if_neg (fun h' => h h'.symm)]

theorem sqDist_swap (channels : Nat) (b b' : Nat → α) (i j : Nat)
    (hswap : ∀ k, k < channels →
      b' (i * channels + k) = b (j * channels + k) ∧ b' (j * channels + k) = b (i * channels + k)) :
    sqDist channels b' i j = sqDist channels b i j := by
  unfold sqDist
  refine Finset.sum_congr rfl (fun k hk => ?_)
  obtain ⟨h1, h2⟩ := hswap k (Finset.mem_range.mp hk)
  rw [h1, h2]
  ring

/-- C11: for vectors `a` (row `i`) and `b` (row `j`) of a batch, what the
iteration of `Forward_cpu` for the pair adds to the loss sum is the same when
the two vectors exchange their rows (batch `b'`) and when the two indices are
exchanged, for every `copiesPerGroup ≥ 1`, margin and mode; and in the
iteration of `Backward_cpu` for a pair `i ≠ j`, what is added to entry `k` of
gradient row `i` is the exact negative of what is added to entry `k` of
gradient row `j`. -/
theorem pair_symmetry (sqrt : α → α) (margin : α) (cp : Nat) (legacy : Bool) (channels : Nat)
    (b b' : Nat → α) (i j : Nat) (hcp : 1 ≤ cp)
    (hswap : ∀ k, k < channels →
      b' (i * channels + k) = b (j * channels + k) ∧ b' (j * channels + k) = b (i * channels + k)) :
    (∀ st : ForwardLocals α,
      (Forward_body sqrt margin cp legacy channels b' i st j).loss - st.loss
        = (Forward_body sqrt margin cp legacy channels b i st j).loss - st.loss)
    ∧ (∀ st : ForwardLocals α,
      (Forward_body sqrt margin cp legacy channels b j st i).loss - st.loss
        = (Forward_body sqrt margin cp legacy channels b i st j).loss - st.loss)
    ∧ (∀ (alpha_p : α) (diff_ dist_sq_ : Nat → α) (st : BackwardLocals α) (k : Nat),
        k < channels → i ≠ j →
        (Backward_body sqrt margin cp legacy channels alpha_p (-alpha_p) diff_ dist_sq_
            i st j).bout (i * channels + k) - st.bout (i * channels + k)
          = -((Backward_body sqrt margin cp legacy channels alpha_p (-alpha_p) diff_ dist_sq_
              i st j).bout (j * channels + k) - st.bout (j * channels + k))) := by
  have hc : 1 ≤ cp := hcp
  refine ⟨?_, ?_, ?_⟩
  · intro st
    rw [Forward_body_loss, Forward_body_loss]
    unfold contrib
    rw [sqDist_swap channels b b' i j hswap]
  · intro st
    rw [Forward_body_loss, Forward_body_loss, contrib_comm]
  · intro alpha_p diff_ dist_sq_ st k hk hij
    rw [Backward_body_bout, Backward_body_bout, pairDelta_row _ _ _ _ _ i k hk,
      pairDelta_row _ _ _ _ _ j k hk]
    rw [if_pos rfl, if_neg (fun h => hij h.symm), if_neg hij, if_pos rfl]
    ring

theorem pair_symmetry_witness :
    ((1 : ℕ) ≤ 2
      ∧ ∀ k, k < 2 →
        (stateOf 4 2 [(5 : ℝ), 5, 0, 0, 1, 2, 0, 0]).bottom_data (0 * 2 + k)
            = (stateOf 4 2 [(1 : ℝ), 2, 0, 0, 5, 5, 0, 0]).bottom_data (2 * 2 + k)
          ∧ (stateOf 4 2 [(5 : ℝ), 5, 0, 0, 1, 2, 0, 0]).bottom_data (2 * 2 + k)
            = (stateOf 4 2 [(1 : ℝ), 2, 0, 0, 5, 5, 0, 0]).bottom_data (0 * 2 + k))
    ∧ (∀ st : ForwardLocals ℝ,
      (Forward_body Real.sqrt 1 2 false 2
          (stateOf 4 2 [(5 : ℝ), 5, 0, 0, 1, 2, 0, 0]).bottom_data 0 st 2).loss - st.loss
        = (Forward_body Real.sqrt 1 2 false 2
          (stateOf 4 2 [(1 : ℝ), 2, 0, 0, 5, 5, 0, 0]).bottom_data 0 st 2).loss - st.loss) :=
  ⟨⟨by decide, fun k hk => by interval_cases k <;> simp [stateOf]⟩,
    (pair_symmetry Real.sqrt 1 2 false 2
      (stateOf 4 2 [(1 : ℝ), 2, 0, 0, 5, 5, 0, 0]).bottom_data
      (stateOf 4 2 [(5 : ℝ), 5, 0, 0, 1, 2, 0, 0]).bottom_data 0 2 (by decide)
      (fun k hk => by interval_cases k <;> simp [stateOf])).1⟩

/-! ## The concrete scenario (C12) -/

theorem contrib_far_nonlegacy (cp channels : Nat) (b : Nat → ℝ) (i j : Nat)
    (hg : i / cp ≠ j / cp) (hfar : 1 ≤ sqDist channels b i j) :
    contrib Real.sqrt 1 cp false channels b i j = 0 := by
  apply contrib_inactive Real.sqrt 1 cp false channels b i j hg
  simp only [Bool.false_eq_true, if_false]
  have : (1 : ℝ) ≤ Real.sqrt (sqDist channels b i j) := by
    rw [Real.le_sqrt' (by norm_num)]
    simpa using hfar
  linarith

theorem batchABCD_sqDist :
    sqDist 2 (batchABCD ℝ).bottom_data 0 1 = 2 / 100
    ∧ sqDist 2 (batchABCD ℝ).bottom_data 2 3 = 2 / 100
    ∧ sqDist 2 (batchABCD ℝ).bottom_data 0 2 = 50
    ∧ sqDist 2 (batchABCD ℝ).bottom_data 0 3 = 5002 / 100
    ∧ sqDist 2 (batchABCD ℝ).bottom_data 1 2 = 4802 / 100
    ∧ sqDist 2 (batchABCD ℝ).bottom_data 1 3 = 4804 / 100 := by
  refine ⟨?_, ?_, ?_, ?_, ?_, ?_⟩ <;> rw [sqDist_two] <;> norm_num [batchABCD, stateOf]

/-- C12: with `N = 4`, `C = 2`, `copiesPerGroup = 2`, margin 1, non-legacy
mode and the batch `A = [0,0]`, `B = [0.1,0.1]`, `C_ = [5,5]`,
`D = [5.1,4.9]`, the iterations of `Forward_cpu` for the four different-group
pairs `(A,C_)`, `(A,D)`, `(B,C_)`, `(B,D)` each add 0 to the loss sum, and the
loss written is `(dist²(A,B) + dist²(C_,D)) / 12 = (0.02 + 0.02) / 12 = 1/300`. -/
theorem Forward_cpu_scenario :
    (∀ st : ForwardLocals ℝ,
      (Forward_body Real.sqrt 1 2 false 2 (batchABCD ℝ).bottom_data 0 st 2).loss = st.loss + 0
      ∧ (Forward_body Real.sqrt 1 2 false 2 (batchABCD ℝ).bottom_data 0 st 3).loss = st.loss + 0
      ∧ (Forward_body Real.sqrt 1 2 false 2 (batchABCD ℝ).bottom_data 1 st 2).loss = st.loss + 0
      ∧ (Forward_body Real.sqrt 1 2 false 2 (batchABCD ℝ).bottom_data 1 st 3).loss = st.loss + 0)
    ∧ (Forward_cpu Real.sqrt (paramsOf 1 2 false) (batchABCD ℝ)).top_data
        = (sqDist 2 (batchABCD ℝ).bottom_data 0 1 + sqDist 2 (batchABCD ℝ).bottom_data 2 3) / 12
    ∧ (sqDist 2 (batchABCD ℝ).bottom_data 0 1 + sqDist 2 (batchABCD ℝ).bottom_data 2 3) / 12
        = (2 / 100 + 2 / 100) / 12
    ∧ (Forward_cpu Real.sqrt (paramsOf 1 2 false) (batchABCD ℝ)).top_data = 1 / 300 := by
  obtain ⟨h01, h23, h02, h03, h12, h13⟩ := batchABCD_sqDist
  have c02 := contrib_far_nonlegacy 2 2 (batchABCD ℝ).bottom_data 0 2 (by decide)
    (by rw [h02]; norm_num)
  have c03 := contrib_far_nonlegacy 2 2 (batchABCD ℝ).bottom_data 0 3 (by decide)
    (by rw [h03]; norm_num)
  have c12 := contrib_far_nonlegacy 2 2 (batchABCD ℝ).bottom_data 1 2 (by decide)
    (by rw [h12]; norm_num)
  have c13 := contrib_far_nonlegacy 2 2 (batchABCD ℝ).bottom_data 1 3 (by decide)
    (by rw [h13]; norm_num)
  have c01 : contrib Real.sqrt 1 2 false 2 (batchABCD ℝ).bottom_data 0 1
      = sqDist 2 (batchABCD ℝ).bottom_data 0 1 := by
    unfold contrib
    rw [if_pos (by decide)]
  have c23 : contrib Real.sqrt 1 2 false 2 (batchABCD ℝ).bottom_data 2 3
      = sqDist 2 (batchABCD ℝ).bottom_data 2 3 := by
    unfold contrib
    rw [if_pos (by decide)]
  have htop : (Forward_cpu Real.sqrt (paramsOf 1 2 false) (batchABCD ℝ)).top_data
      = (sqDist 2 (batchABCD ℝ).bottom_data 0 1 + sqDist 2 (batchABCD ℝ).bottom_data 2 3)
        / 12 := by
    have e : (Forward_cpu Real.sqrt (paramsOf 1 2 false) (batchABCD ℝ)).top_data
        = (∑ i in Finset.range 4, ∑ j in Finset.Ico (i + 1) 4,
            contrib Real.sqrt 1 2 false 2 (batchABCD ℝ).bottom_data i j)
          / ((4 * (4 - 1) / 2 : ℕ) : ℝ) / 2 :=
      Forward_cpu_top_data Real.sqrt (paramsOf 1 2 false) (batchABCD ℝ)
    rw [e, sum_pairs_four, c01, c23, c02, c03, c12, c13]
    norm_num
    ring
  refine ⟨fun st => ⟨?_, ?_, ?_, ?_⟩, htop, by rw [h01, h23], ?_⟩
  · rw [Forward_body_loss, c02]
  · rw [Forward_body_loss, c03]
  · rw [Forward_body_loss, c12]
  · rw [Forward_body_loss, c13]
  · rw [htop, h01, h23]
    norm_num

/-! ## What `Backward_cpu` writes (C15, C18) -/

theorem pairDelta_outside (channels : Nat) (K : α) (d : Nat → α) (num i j idx : Nat)
    (hi : i < num) (hj : j < num) (hidx : channels * num ≤ idx) :
    pairDelta channels K d i j idx = 0 := by
  unfold pairDelta
  have h1 : (i + 1) * channels ≤ num * channels := Nat.mul_le_mul_right _ hi
  have h2 : (j + 1) * channels ≤ num * channels := Nat.mul_le_mul_right _ hj
  rw [if_neg (by intro h; nlinarith [h.2]), if_neg (by intro h; nlinarith [h.2]), add_zero]

theorem foldl_Backward_body_bout_outside (sqrt : α → α) (margin : α) (copies : Nat)
    (legacy : Bool) (num channels : Nat) (alpha_p : α) (diff_ dist_sq_ : Nat → α)
    (l : List (Nat × Nat)) (hl : ∀ q ∈ l, q.1 < num ∧ q.2 < num) (init : BackwardLocals α)
    (idx : Nat) (hidx : channels * num ≤ idx) :
    (l.foldl (fun st q => Backward_body sqrt margin copies legacy channels alpha_p (-alpha_p)
        diff_ dist_sq_ q.1 st q.2) init).bout idx = init.bout idx := by
  induction l generalizing init with
  | nil => rfl
  | cons q l ih =>
    have hq := hl q (List.mem_cons_self _ _)
    rw [List.foldl_cons, ih (fun q' hq' => hl q' (List.mem_cons_of_mem _ hq')),
      Backward_body_bout, pairDelta_outside channels _ _ num q.1 q.2 idx hq.1 hq.2 hidx, add_zero]

/-- C15: with propagation enabled `Backward_cpu` leaves the shape, the input
batch, the loss slot, the upstream gradient and the cache (`diff_`,
`dist_sq_`) unchanged; of the gradient buffer it leaves every entry beyond
the `N × C` block unchanged; and what it writes does not depend on the batch
values (the differences and squared distances are read from the cache, not
recomputed). -/
theorem Backward_cpu_frame (sqrt : α → α) (p : ContrastiveLossParameter α) (s : LayerState α) :
    (Backward_cpu sqrt p true s).num = s.num
    ∧ (Backward_cpu sqrt p true s).channels = s.channels
    ∧ (Backward_cpu sqrt p true s).bottom_data = s.bottom_data
    ∧ (Backward_cpu sqrt p true s).top_data = s.top_data
    ∧ (Backward_cpu sqrt p true s).top_diff = s.top_diff
    ∧ (Backward_cpu sqrt p true s).diff_ = s.diff_
    ∧ (Backward_cpu sqrt p true s).dist_sq_ = s.dist_sq_
    ∧ (∀ idx, s.channels * s.num ≤ idx →
        (Backward_cpu sqrt p true s).bottom_diff idx = s.bottom_diff idx)
    ∧ (∀ b1 : Nat → α,
        (Backward_cpu sqrt p true { s with bottom_data := b1 }).bottom_diff
          = (Backward_cpu sqrt p true s).bottom_diff) := by
  refine ⟨rfl, rfl, rfl, rfl, rfl, rfl, rfl, ?_, fun _ => rfl⟩
  intro idx hidx
  unfold Backward_cpu
  simp only [Bool.not_true, Bool.false_eq_true, if_false]
  rw [Backward_loops_eq_foldl_pairs,
    foldl_Backward_body_bout_outside sqrt _ _ _ s.num s.channels _ _ _ (pairs s.num)
      (fun q hq => by
        have := mem_pairs s.num q hq
        exact ⟨by omega, this.2⟩) _ idx hidx]
  simp only [caffe_set, if_neg (not_lt.mpr hidx)]

theorem sum_rows_pair_terms (X : Nat → Nat → α) (N : Nat) :
    (∑ r in Finset.range N, ∑ i in Finset.range N, ∑ j in Finset.Ico (i + 1) N,
        ((if i = r then X i j else 0) + (if j = r then -X i j else 0))) = 0 := by
  rw [Finset.sum_comm]
  refine Finset.sum_eq_zero (fun i hi => ?_)
  rw [Finset.sum_comm]
  refine Finset.sum_eq_zero (fun j hj => ?_)
  have hj2 := (Finset.mem_Ico.mp hj).2
  rw [Finset.sum_add_distrib, Finset.sum_ite_eq, Finset.sum_ite_eq, if_pos hi,
    if_pos (Finset.mem_range.mpr hj2)]
  ring

/-- C18: after `Forward_cpu` on a batch of `N ≥ 2` vectors
(`copiesPerGroup ≥ 1`, any margin, mode and upstream gradient `g`, whatever
the gradient buffer `b0` held) and `Backward_cpu` with propagation enabled,
the entries of channel `k0` of the `N` rows of the gradient buffer sum to
zero. -/
theorem gradient_rows_cancel (sqrt : α → α) (p : ContrastiveLossParameter α)
    (s : LayerState α) (b0 : Nat → α) (g : α) (k0 : Nat) (hN : 2 ≤ s.num)
    (hcopies : 1 ≤ p.image_batch_copies) (hk0 : k0 < s.channels) :
    ∑ r in Finset.range s.num,
      (Backward_cpu sqrt p true
        { Forward_cpu sqrt p s with bottom_diff := b0, top_diff := g }).bottom_diff
        (r * s.channels + k0) = 0 := by
  have h2 : 2 ≤ s.num := hN
  have hc : 1 ≤ p.image_batch_copies := hcopies
  have e : ∀ r ∈ Finset.range s.num,
      (Backward_cpu sqrt p true
        { Forward_cpu sqrt p s with bottom_diff := b0, top_diff := g }).bottom_diff
        (r * s.channels + k0)
      = ∑ i in Finset.range s.num, ∑ j in Finset.Ico (i + 1) s.num,
          ((if i = r then
              coef sqrt p.margin p.image_batch_copies p.legacy_version
                  (g / ((s.num * (s.num - 1) / 2 : ℕ) : α))
                  (sqDist s.channels s.bottom_data i j) i j
                * (s.bottom_data (i * s.channels + k0) - s.bottom_data (j * s.channels + k0))
            else 0)
          + (if j = r then
              -(coef sqrt p.margin p.image_batch_copies p.legacy_version
                  (g / ((s.num * (s.num - 1) / 2 : ℕ) : α))
                  (sqDist s.channels s.bottom_data i j) i j
                * (s.bottom_data (i * s.channels + k0) - s.bottom_data (j * s.channels + k0)))
            else 0)) := by
    intro r hr
    have := Backward_cpu_entry_of_cache sqrt p
      { Forward_cpu sqrt p s with bottom_diff := b0, top_diff := g } s.bottom_data
      (Forward_cpu_cache sqrt p s) r k0 (Finset.mem_range.mp hr) hk0
    simp only [neg_mul] at this
    exact this
  rw [Finset.sum_congr rfl e]
  exact sum_rows_pair_terms _ s.num

theorem gradient_rows_cancel_witness :
    (2 ≤ (batchABCD ℝ).num ∧ 1 ≤ (paramsOf (1 : ℝ) 2 false).image_batch_copies
      ∧ 0 < (batchABCD ℝ).channels)
    ∧ ∑ r in Finset.range (batchABCD ℝ).num,
      (Backward_cpu Real.sqrt (paramsOf 1 2 false) true
        { Forward_cpu Real.sqrt (paramsOf 1 2 false) (batchABCD ℝ) with
          bottom_diff := fun _ => 5, top_diff := 3 }).bottom_diff
        (r * (batchABCD ℝ).channels + 0) = 0 :=
  ⟨⟨by decide, by decide, by decide⟩,
    gradient_rows_cancel Real.sqrt (paramsOf 1 2 false) (batchABCD ℝ) (fun _ => 5) 3 0
      (by decide) (by decide) (by decide)⟩

/-! ## Sign of the loss and translation of the batch (C19, C20) -/

theorem contrib_nonneg (sqrt : α → α) (margin : α) (cp : Nat) (legacy : Bool) (channels : Nat)
    (b : Nat → α) (i j : Nat) :
    0 ≤ contrib sqrt margin cp legacy channels b i j := by
  unfold contrib
  split_ifs
  · exact sqDist_nonneg channels b i j
  · exact le_max_right _ _
  · exact sq_nonneg _

/-- C19: for a batch of `N ≥ 2` vectors, `copiesPerGroup ≥ 1`, every margin
(zero and negative included) and both modes, the loss written by
`Forward_cpu` is `≥ 0`, and every squared distance it caches
(`dist_sq_[c]`, `c < N * (N - 1) / 2`) is `≥ 0`. -/
theorem Forward_cpu_loss_nonneg (sqrt : α → α) (p : ContrastiveLossParameter α)
    (s : LayerState α) (hN : 2 ≤ s.num) (hcopies : 1 ≤ p.image_batch_copies) :
    0 ≤ (Forward_cpu sqrt p s).top_data
    ∧ ∀ c, c < s.num * (s.num - 1) / 2 → 0 ≤ (Forward_cpu sqrt p s).dist_sq_ c := by
  have h2 : 2 ≤ s.num := hN
  have hc : 1 ≤ p.image_batch_copies := hcopies
  constructor
  · rw [Forward_cpu_top_data]
    refine div_nonneg (div_nonneg ?_ (Nat.cast_nonneg _)) (by norm_num)
    exact Finset.sum_nonneg (fun i _ => Finset.sum_nonneg (fun j _ => contrib_nonneg _ _ _ _ _ _ _ _))
  · intro c hlt
    rw [npairs_eq_length] at hlt
    have h := (Forward_cpu_cache sqrt p s c hlt).2
    rw [zero_add] at h
    rw [h]
    exact sqDist_nonneg _ _ _ _

theorem Forward_cpu_loss_nonneg_witness :
    (2 ≤ (batchABCD ℝ).num ∧ 1 ≤ (paramsOf (-3 : ℝ) 2 true).image_batch_copies)
    ∧ 0 ≤ (Forward_cpu Real.sqrt (paramsOf (-3) 2 true) (batchABCD ℝ)).top_data :=
  ⟨⟨by decide, by decide⟩,
    (Forward_cpu_loss_nonneg Real.sqrt (paramsOf (-3) 2 true) (batchABCD ℝ) (by decide)
      (by decide)).1⟩

theorem Forward_body_congr (sqrt : α → α) (margin : α) (cp : Nat) (legacy : Bool)
    (channels : Nat) (b b1 : Nat → α) (i j : Nat) (st : ForwardLocals α)
    (hdiff : ∀ k, k < channels →
      b1 (i * channels + k) - b1 (j * channels + k) = b (i * channels + k) - b (j * channels + k)) :
    Forward_body sqrt margin cp legacy channels b1 i st j
      = Forward_body sqrt margin cp legacy channels b i st j := by
  have hsub : caffe_sub channels b1 (i * channels) b1 (j * channels) st.diff_ (st.c * channels)
      = caffe_sub channels b (i * channels) b (j * channels) st.diff_ (st.c * channels) := by
    funext idx
    unfold caffe_sub
    split_ifs with h
    · exact hdiff _ (by omega)
    · rfl
  unfold Forward_body
  simp only [hsub]

theorem foldl_Forward_body_congr (sqrt : α → α) (margin : α) (cp : Nat) (legacy : Bool)
    (num channels : Nat) (b b1 : Nat → α) (l : List (Nat × Nat))
    (hl : ∀ q ∈ l, q.1 < num ∧ q.2 < num)
    (hdiff : ∀ i j k, i < num → j < num → k < channels →
      b1 (i * channels + k) - b1 (j * channels + k) = b (i * channels + k) - b (j * channels + k))
    (init : ForwardLocals α) :
    l.foldl (fun st q => Forward_body sqrt margin cp legacy channels b1 q.1 st q.2) init
      = l.foldl (fun st q => Forward_body sqrt margin cp legacy channels b q.1 st q.2) init := by
  induction l generalizing init with
  | nil => rfl
  | cons q l ih =>
    have hq := hl q (List.mem_cons_self _ _)
    rw [List.foldl_cons, List.foldl_cons,
      Forward_body_congr sqrt margin cp legacy channels b b1 q.1 q.2 init
        (fun k hk => hdiff q.1 q.2 k hq.1 hq.2 hk),
      ih (fun q' hq' => hl q' (List.mem_cons_of_mem _ hq'))]

theorem translate_diff (s : LayerState α) (t : Nat → α) (i j k : Nat) (hk : k < s.channels) :
    (translate s t).bottom_data (i * s.channels + k)
        - (translate s t).bottom_data (j * s.channels + k)
      = s.bottom_data (i * s.channels + k) - s.bottom_data (j * s.channels + k) := by
  unfold translate
  simp only
  have e1 : (i * s.channels + k) % s.channels = k := by
    rw [Nat.add_comm, Nat.add_mul_mod_self_right, Nat.mod_eq_of_lt hk]
  have e2 : (j * s.channels + k) % s.channels = k := by
    rw [Nat.add_comm, Nat.add_mul_mod_self_right, Nat.mod_eq_of_lt hk]
  rw [e1, e2]
  ring

theorem Forward_cpu_translate (sqrt : α → α) (p : ContrastiveLossParameter α)
    (s : LayerState α) (t : Nat → α) :
    Forward_cpu sqrt p (translate s t) = translate (Forward_cpu sqrt p s) t := by
  have hfold : Forward_loops sqrt p.margin p.image_batch_copies p.legacy_version s.num
        s.channels (translate s t).bottom_data
        { c := 0, loss := 0, diff_ := s.diff_, dist_sq_ := s.dist_sq_ }
      = Forward_loops sqrt p.margin p.image_batch_copies p.legacy_version s.num
        s.channels s.bottom_data
        { c := 0, loss := 0, diff_ := s.diff_, dist_sq_ := s.dist_sq_ } := by
    rw [Forward_loops_eq_foldl_pairs, Forward_loops_eq_foldl_pairs]
    exact foldl_Forward_body_congr sqrt _ _ _ s.num s.channels _ _ (pairs s.num)
      (fun q hq => by
        have := mem_pairs s.num q hq
        exact ⟨by omega, this.2⟩)
      (fun i j k _ _ hk => translate_diff s t i j k hk) _
  show ({ translate s t with
      diff_ := (Forward_loops sqrt p.margin p.image_batch_copies p.legacy_version s.num
        s.channels (translate s t).bottom_data
        { c := 0, loss := 0, diff_ := s.diff_, dist_sq_ := s.dist_sq_ }).diff_,
      dist_sq_ := (Forward_loops sqrt p.margin p.image_batch_copies p.legacy_version s.num
        s.channels (translate s t).bottom_data
        { c := 0, loss := 0, diff_ := s.diff_, dist_sq_ := s.dist_sq_ }).dist_sq_,
      top_data := (Forward_loops sqrt p.margin p.image_batch_copies p.legacy_version s.num
        s.channels (translate s t).bottom_data
        { c := 0, loss := 0, diff_ := s.diff_, dist_sq_ := s.dist_sq_ }).loss
          / ((s.num * (s.num - 1) / 2 : ℕ) : α) / 2 } : LayerState α) = _
  rw [hfold]
  rfl

/-- C20: for a batch of `N ≥ 2` vectors, a vector `t`, any configuration
(`copiesPerGroup ≥ 1`), upstream gradient `g` and prior gradient buffer `b0`,
running `Forward_cpu` and then `Backward_cpu` on the batch with `t` added to
every vector gives the same loss, the same cache (`diff_`, `dist_sq_`) and
the same gradient buffer as running them on the original batch. -/
theorem translation_invariance (sqrt : α → α) (p : ContrastiveLossParameter α)
    (s : LayerState α) (t : Nat → α) (b0 : Nat → α) (g : α) (hN : 2 ≤ s.num)
    (hcopies : 1 ≤ p.image_batch_copies) :
    (Forward_cpu sqrt p (translate s t)).top_data = (Forward_cpu sqrt p s).top_data
    ∧ (Forward_cpu sqrt p (translate s t)).diff_ = (Forward_cpu sqrt p s).diff_
    ∧ (Forward_cpu sqrt p (translate s t)).dist_sq_ = (Forward_cpu sqrt p s).dist_sq_
    ∧ (Backward_cpu sqrt p true
          { Forward_cpu sqrt p (translate s t) with bottom_diff := b0, top_diff := g }).bottom_diff
        = (Backward_cpu sqrt p true
          { Forward_cpu sqrt p s with bottom_diff := b0, top_diff := g }).bottom_diff := by
  have h2 : 2 ≤ s.num := hN
  have hc : 1 ≤ p.image_batch_copies := hcopies
  rw [Forward_cpu_translate]
  exact ⟨rfl, rfl, rfl, rfl⟩

theorem translation_invariance_witness :
    (2 ≤ (batchABCD ℝ).num ∧ 1 ≤ (paramsOf (1 : ℝ) 2 false).image_batch_copies)
    ∧ (Forward_cpu Real.sqrt (paramsOf 1 2 false)
          (translate (batchABCD ℝ) (fun k => (k : ℝ) + 10))).top_data
        = (Forward_cpu Real.sqrt (paramsOf 1 2 false) (batchABCD ℝ)).top_data :=
  ⟨⟨by decide, by decide⟩,
    (translation_invariance Real.sqrt (paramsOf 1 2 false) (batchABCD ℝ)
      (fun k => (k : ℝ) + 10) (fun _ => 0) 1 (by decide) (by decide)).1⟩

/-! ## The canonical order of the cache (for C14) -/

theorem triangle_succ (i : Nat) : (i + 1) * (i + 1 + 1) / 2 = i * (i + 1) / 2 + (i + 1) := by
  have e : (i + 1) * (i + 1 + 1) = i * (i + 1) + 2 * (i + 1) := by ring
  rw [e, Nat.add_mul_div_left _ _ (by norm_num : 0 < 2)]

theorem triangle_le (N i : Nat) (hi : i ≤ N) : i * (i + 1) / 2 ≤ i * N := by
  rcases Nat.eq_zero_or_pos i with h | h
  · subst h; simp
  · have h1 : i * (i + 1) ≤ i * (2 * N) := Nat.mul_le_mul_left _ (by omega)
    have h2 : i * (2 * N) = 2 * (i * N) := by ring
    have h3 : i * (i + 1) / 2 ≤ 2 * (i * N) / 2 := Nat.div_le_div_right (h2 ▸ h1)
    simpa using h3

/-- The first pair index of row `i + 1` follows the last of row `i`. -/
theorem pairIndex_row_succ (N i : Nat) (hi : i + 1 ≤ N) :
    (i + 1) * N - (i + 1) * (i + 1 + 1) / 2 = i * N - i * (i + 1) / 2 + (N - (i + 1)) := by
  have h1 := triangle_succ i
  have h2 := triangle_le N i (by omega)
  have h3 : (i + 1) * N = i * N + N := by ring
  omega

theorem map_range'_shift (a s n : Nat) :
    (List.range' s n).map (fun j => a + (j - s)) = List.range' a n := by
  induction n generalizing a s with
  | zero => rfl
  | succ n ih =>
    rw [List.range'_succ, List.range'_succ, List.map_cons]
    congr 1
    · simp
    · rw [← ih (a + 1) (s + 1)]
      refine List.map_congr_left (fun j hj => ?_)
      have := (List.mem_range'_1.mp hj).1
      omega

theorem map_pairIndex_row (N i : Nat) :
    ((List.range' (i + 1) (N - (i + 1))).map (fun j => (i, j))).map
        (fun q => pairIndex N q.1 q.2)
      = List.range' (i * N - i * (i + 1) / 2) (N - (i + 1)) := by
  rw [List.map_map, ← map_range'_shift (i * N - i * (i + 1) / 2) (i + 1) (N - (i + 1))]
  refine List.map_congr_left (fun j _ => ?_)
  simp only [Function.comp, pairIndex]
  omega

theorem map_pairIndex_rows (N m : Nat) (hm : m + 1 ≤ N) :
    (((List.range m).flatMap
        (fun i => (List.range' (i + 1) (N - (i + 1))).map (fun j => (i, j)))).map
        (fun q => pairIndex N q.1 q.2))
      = List.range (m * N - m * (m + 1) / 2) := by
  induction m with
  | zero => simp
  | succ m ih =>
    rw [List.range_succ, List.flatMap_append, List.map_append, ih (by omega)]
    simp only [List.flatMap_cons, List.flatMap_nil, List.append_nil]
    rw [map_pairIndex_row, pairIndex_row_succ N m (by omega), List.range_eq_range',
      List.range_eq_range']
    have e := List.range'_append_1 0 (m * N - m * (m + 1) / 2) (N - (m + 1))
    rw [Nat.zero_add] at e
    rw [e]
    congr 1
    omega

theorem map_pairIndex_pairs (N : Nat) (hN : 1 ≤ N) :
    (pairs N).map (fun q => pairIndex N q.1 q.2)
      = List.range ((N - 1) * N - (N - 1) * (N - 1 + 1) / 2) := by
  unfold pairs
  exact map_pairIndex_rows N (N - 1) (by omega)

theorem pairIndex_getElem (N : Nat) (hN : 1 ≤ N) (t : Nat) (h : t < (pairs N).length) :
    pairIndex N (pairs N)[t].1 (pairs N)[t].2 = t := by
  have hmap := map_pairIndex_pairs N hN
  have h1 : t < ((pairs N).map (fun q => pairIndex N q.1 q.2)).length := by simpa using h
  have h2 : ((pairs N).map (fun q => pairIndex N q.1 q.2))[t]
      = pairIndex N (pairs N)[t].1 (pairs N)[t].2 := by simp
  rw [← h2]
  have h3 : t < (List.range ((N - 1) * N - (N - 1) * (N - 1 + 1) / 2)).length := by
    rw [← hmap]; exact h1
  have h4 : ((pairs N).map (fun q => pairIndex N q.1 q.2))[t]
      = (List.range ((N - 1) * N - (N - 1) * (N - 1 + 1) / 2))[t] := by
    simp only [hmap]
  rw [h4, List.getElem_range]

theorem mem_pairs_of_lt (N i j : Nat) (hij : i < j) (hj : j < N) : (i, j) ∈ pairs N := by
  unfold pairs
  simp only [List.mem_flatMap, List.mem_range, List.mem_map, List.mem_range'_1]
  exact ⟨i, by omega, j, ⟨by omega, by omega⟩, rfl⟩

/-- The pair `(i, j)`, `i < j < N`, sits at position `pairIndex N i j` of the
enumeration. -/
theorem getElem_pairIndex (N i j : Nat) (hij : i < j) (hj : j < N) :
    ∃ h : pairIndex N i j < (pairs N).length, (pairs N)[pairIndex N i j] = (i, j) := by
  obtain ⟨t, ht, hq⟩ := List.getElem_of_mem (mem_pairs_of_lt N i j hij hj)
  have h := pairIndex_getElem N (by omega) t ht
  rw [hq] at h
  simp only at h
  subst h
  exact ⟨ht, hq⟩

/-! ## The 32-bit pair count and the checked runs -/

theorem int32_of_fits (x : Int) (h0 : 0 ≤ x) (h1 : x ≤ 2147483647) : int32 x = x := by
  unfold int32
  omega

theorem int32_le (x : Int) : int32 x ≤ 2147483647 := by
  unfold int32
  omega

theorem cast_mul_pred (num : Nat) :
    (num : ℤ) * ((num : ℤ) - 1) = ((num * (num - 1) : ℕ) : ℤ) := by
  rcases Nat.eq_zero_or_pos num with h0 | h0
  · subst h0
    simp
  · rw [Nat.cast_mul, Nat.cast_sub h0]
    simp

/-- Where `num * (num - 1)` fits in an `int`, the 32-bit `npairs` is the
number of pairs. -/
theorem npairs_of_fits (num : Nat) (h : num * (num - 1) ≤ INT_MAX) :
    npairs num = ((num * (num - 1) / 2 : ℕ) : ℤ) := by
  have h1 : ((num * (num - 1) : ℕ) : ℤ) ≤ 2147483647 := by
    unfold INT_MAX at h
    exact_mod_cast h
  unfold npairs
  rw [cast_mul_pred, int32_of_fits _ (Int.natCast_nonneg _) h1,
    Int.tdiv_eq_ediv (Int.natCast_nonneg _) (by norm_num)]
  norm_cast

theorem Reshape_of_fits (num channels : Nat) (h : num * (num - 1) ≤ INT_MAX) :
    Reshape num channels = (num * (num - 1) / 2 * channels, num * (num - 1) / 2) := by
  unfold Reshape
  rw [npairs_of_fits num h, Int.toNat_ofNat]

theorem cast_npairs_of_fits (num : Nat) (h : num * (num - 1) ≤ INT_MAX) :
    ((npairs num : ℤ) : α) = ((num * (num - 1) / 2 : ℕ) : α) := by
  rw [npairs_of_fits num h, Int.cast_natCast]

theorem npairs_zero_of_lt_two (num : Nat) (hN : num < 2) : npairs num = 0 := by
  interval_cases num <;> rfl

theorem npairs_wide : npairs 65537 = 32768 := by
  decide

theorem Reshape_wide : Reshape 65537 1 = (32768, 32768) := by
  decide

theorem foldlM_pairs {β : Type} (g : β → Nat → Nat → Except Fault β) (l : List Nat)
    (r : Nat → List Nat) (init : β) :
    (l.flatMap (fun i => (r i).map (fun j => (i, j)))).foldlM (fun st q => g st q.1 q.2) init
      = l.foldlM (fun st i => (r i).foldlM (fun st j => g st i j) st) init := by
  induction l generalizing init with
  | nil => rfl
  | cons i l ih =>
    rw [List.flatMap_cons, List.foldlM_append, List.foldlM_cons, List.foldlM_map]
    congr 1
    funext st
    exact ih st

theorem Forward_loops_checked_eq_foldlM_pairs (sqrt : α → α) (margin : α) (copies : Nat)
    (legacy : Bool) (num channels : Nat) (bottom_data : Nat → α) (init : ForwardLocals α) :
    Forward_loops_checked sqrt margin copies legacy num channels bottom_data init
      = (pairs num).foldlM
          (fun st q => Forward_body_checked sqrt margin copies legacy num channels bottom_data
            q.1 st q.2)
          init := by
  unfold Forward_loops_checked pairs
  rw [foldlM_pairs (fun st i j => Forward_body_checked sqrt margin copies legacy num channels
    bottom_data i st j)]

theorem Backward_loops_checked_eq_foldlM_pairs (sqrt : α → α) (margin : α) (copies : Nat)
    (legacy : Bool) (num channels : Nat) (alpha_p alpha_n : α) (diff_ dist_sq_ : Nat → α)
    (init : BackwardLocals α) :
    Backward_loops_checked sqrt margin copies legacy num channels alpha_p alpha_n diff_ dist_sq_
        init
      = (pairs num).foldlM
          (fun st q => Backward_body_checked sqrt margin copies legacy num channels alpha_p
            alpha_n diff_ dist_sq_ q.1 st q.2)
          init := by
  unfold Backward_loops_checked pairs
  rw [foldlM_pairs (fun st i j => Backward_body_checked sqrt margin copies legacy num channels
    alpha_p alpha_n diff_ dist_sq_ i st j)]

theorem row_in_range (num channels i : Nat) (hi : i < num) :
    i * channels + channels ≤ num * channels := by
  have : (i + 1) * channels ≤ num * channels := Nat.mul_le_mul_right _ hi
  nlinarith

theorem npairs_le_mul (num : Nat) : num * (num - 1) / 2 ≤ num * (num - 1) :=
  Nat.div_le_self _ _

theorem Forward_body_checked_ok (sqrt : α → α) (margin : α) (copies : Nat) (legacy : Bool)
    (num channels : Nat) (bottom_data : Nat → α) (i j : Nat) (st : ForwardLocals α)
    (hpairs : num * (num - 1) ≤ INT_MAX) (hbatch : num * channels ≤ INT_MAX)
    (hcache : num * (num - 1) / 2 * channels ≤ INT_MAX)
    (hi : i < num) (hj : j < num) (hc : st.c < num * (num - 1) / 2) (hcp : 1 ≤ copies) :
    Forward_body_checked sqrt margin copies legacy num channels bottom_data i st j
      = Except.ok (Forward_body sqrt margin copies legacy channels bottom_data i st j) := by
  have hri := row_in_range num channels i hi
  have hrj := row_in_range num channels j hj
  have hrc := row_in_range _ channels st.c hc
  have hP := npairs_le_mul num
  unfold Forward_body_checked
  rw [Reshape_of_fits num channels hpairs, if_neg (by omega), if_pos ⟨hri, hrj, hrc, hc⟩,
    if_neg (by omega), if_neg (by omega)]

theorem foldlM_Forward_body_checked_ok (sqrt : α → α) (margin : α) (copies : Nat)
    (legacy : Bool) (num channels : Nat) (bottom_data : Nat → α)
    (hpairs : num * (num - 1) ≤ INT_MAX) (hbatch : num * channels ≤ INT_MAX)
    (hcache : num * (num - 1) / 2 * channels ≤ INT_MAX) (hcp : 1 ≤ copies)
    (l : List (Nat × Nat)) (hl : ∀ q ∈ l, q.1 < num ∧ q.2 < num) (init : ForwardLocals α)
    (hc : init.c + l.length ≤ num * (num - 1) / 2) :
    l.foldlM (fun st q => Forward_body_checked sqrt margin copies legacy num channels
        bottom_data q.1 st q.2) init
      = Except.ok (l.foldl (fun st q => Forward_body sqrt margin copies legacy channels
        bottom_data q.1 st q.2) init) := by
  induction l generalizing init with
  | nil => rfl
  | cons q l ih =>
    have hq := hl q (List.mem_cons_self _ _)
    rw [List.length_cons] at hc
    rw [List.foldlM_cons, List.foldl_cons,
      Forward_body_checked_ok sqrt margin copies legacy num channels bottom_data q.1 q.2 init
        hpairs hbatch hcache hq.1 hq.2 (by omega) hcp]
    exact ih (fun q' hq' => hl q' (List.mem_cons_of_mem _ hq')) _
      (by rw [Forward_body_c]; omega)

theorem pairs_lt (num : Nat) : ∀ q ∈ pairs num, q.1 < num ∧ q.2 < num := by
  intro q hq
  have := mem_pairs num q hq
  exact ⟨by omega, this.2⟩

theorem Forward_loops_checked_ok (sqrt : α → α) (margin : α) (copies : Nat) (legacy : Bool)
    (num channels : Nat) (bottom_data : Nat → α)
    (hpairs : num * (num - 1) ≤ INT_MAX) (hbatch : num * channels ≤ INT_MAX)
    (hcache : num * (num - 1) / 2 * channels ≤ INT_MAX) (hcp : 1 ≤ copies) (d q : Nat → α) :
    Forward_loops_checked sqrt margin copies legacy num channels bottom_data
        { c := 0, loss := 0, diff_ := d, dist_sq_ := q }
      = Except.ok (Forward_loops sqrt margin copies legacy num channels bottom_data
        { c := 0, loss := 0, diff_ := d, dist_sq_ := q }) := by
  rw [Forward_loops_checked_eq_foldlM_pairs, Forward_loops_eq_foldl_pairs]
  exact foldlM_Forward_body_checked_ok sqrt margin copies legacy num channels bottom_data
    hpairs hbatch hcache hcp (pairs num) (pairs_lt num) _ (by rw [npairs_eq_length]; simp)

theorem npairs_pos (num : Nat) (hN : 2 ≤ num) : 0 < num * (num - 1) / 2 := by
  have h1 : 2 * 1 ≤ num * (num - 1) := Nat.mul_le_mul hN (by omega)
  exact Nat.div_pos (by omega) (by norm_num)

/-- Where the sizes fit in an `int`, the 32-bit checked `Forward_cpu` raises
no fault and returns what `Forward_cpu` returns. -/
theorem Forward_cpu_checked_ok (sqrt : α → α) (p : ContrastiveLossParameter α)
    (s : LayerState α) (hN : 2 ≤ s.num) (hcp : 1 ≤ p.image_batch_copies)
    (hpairs : s.num * (s.num - 1) ≤ INT_MAX) (hbatch : s.num * s.channels ≤ INT_MAX)
    (hcache : s.num * (s.num - 1) / 2 * s.channels ≤ INT_MAX) :
    Forward_cpu_checked sqrt p s = Except.ok (Forward_cpu sqrt p s) := by
  have hP : ((s.num * (s.num - 1) / 2 : ℕ) : α) ≠ 0 := by
    have := npairs_pos s.num hN
    exact_mod_cast this.ne'
  unfold Forward_cpu_checked
  rw [Forward_loops_checked_ok sqrt _ _ _ _ _ _ hpairs hbatch hcache hcp,
    cast_npairs_of_fits s.num hpairs]
  simp only [Except.bind, checkedDiv, if_neg hP]
  rw [if_neg (by norm_num)]
  rfl

theorem Forward_loops_counter (sqrt : α → α) (margin : α) (copies : Nat) (legacy : Bool)
    (num channels : Nat) (bottom_data : Nat → α) (d q : Nat → α) :
    (Forward_loops sqrt margin copies legacy num channels bottom_data
        { c := 0, loss := 0, diff_ := d, dist_sq_ := q }).c = num * (num - 1) / 2 := by
  rw [Forward_loops_eq_foldl_pairs, foldl_Forward_body_c, npairs_eq_length]
  simp

omit [LinearOrderedField α] in
theorem Backward_axpby_checked_ok (num channels i j : Nat) (st res : BackwardLocals α)
    (hpairs : num * (num - 1) ≤ INT_MAX) (hbatch : num * channels ≤ INT_MAX)
    (hcache : num * (num - 1) / 2 * channels ≤ INT_MAX)
    (hi : i < num) (hj : j < num) (hc : st.c < num * (num - 1) / 2) :
    Backward_axpby_checked num channels i j st res = Except.ok res := by
  have hri := row_in_range num channels i hi
  have hrj := row_in_range num channels j hj
  have hrc := row_in_range _ channels st.c hc
  have hP := npairs_le_mul num
  unfold Backward_axpby_checked
  rw [Reshape_of_fits num channels hpairs, if_neg (by omega), if_pos ⟨hrc, hri, hrj⟩,
    if_neg (by omega)]

theorem Backward_body_checked_ok (sqrt : α → α) (hsqrt : ∀ x, 0 ≤ sqrt x) (margin : α)
    (copies : Nat) (legacy : Bool) (num channels : Nat) (alpha_p alpha_n : α)
    (diff_ dist_sq_ : Nat → α) (i j : Nat) (st : BackwardLocals α)
    (hpairs : num * (num - 1) ≤ INT_MAX) (hbatch : num * channels ≤ INT_MAX)
    (hcache : num * (num - 1) / 2 * channels ≤ INT_MAX)
    (hi : i < num) (hj : j < num) (hc : st.c < num * (num - 1) / 2) (hcp : 1 ≤ copies) :
    Backward_body_checked sqrt margin copies legacy num channels alpha_p alpha_n diff_ dist_sq_
        i st j
      = Except.ok (Backward_body sqrt margin copies legacy channels alpha_p alpha_n diff_
        dist_sq_ i st j) := by
  have hax := Backward_axpby_checked_ok num channels i j st
    (Backward_body sqrt margin copies legacy channels alpha_p alpha_n diff_ dist_sq_ i st j)
    hpairs hbatch hcache hi hj hc
  have hslot : st.c < (Reshape num channels).2 := by
    rw [Reshape_of_fits num channels hpairs]
    exact hc
  have hden : ¬ (legacy = false ∧ sqrt (dist_sq_ st.c) + 1 / 10000 = 0) := by
    rintro ⟨_, h0⟩
    have := hsqrt (dist_sq_ st.c)
    have h1 : (0 : α) < 1 / 10000 := by norm_num
    linarith
  have hP := npairs_le_mul num
  unfold Backward_body_checked
  simp only
  rw [if_neg (by omega)]
  by_cases hg : i / copies = j / copies
  · rw [if_pos hg, hax]
  · rw [if_neg hg, if_pos hslot, if_neg hden, hax, if_neg (by omega : ¬ INT_MAX < st.c + 1)]
    split_ifs <;> rfl

theorem foldl_Backward_body_c (sqrt : α → α) (margin : α) (copies : Nat) (legacy : Bool)
    (channels : Nat) (alpha_p alpha_n : α) (diff_ dist_sq_ : Nat → α) (l : List (Nat × Nat))
    (init : BackwardLocals α) :
    (l.foldl (fun st q => Backward_body sqrt margin copies legacy channels alpha_p alpha_n
        diff_ dist_sq_ q.1 st q.2) init).c = init.c + l.length := by
  induction l generalizing init with
  | nil => simp
  | cons q l ih =>
    rw [List.foldl_cons, ih, Backward_body_c, List.length_cons]
    omega

theorem foldlM_Backward_body_checked_ok (sqrt : α → α) (hsqrt : ∀ x, 0 ≤ sqrt x) (margin : α)
    (copies : Nat) (legacy : Bool) (num channels : Nat) (alpha_p alpha_n : α)
    (diff_ dist_sq_ : Nat → α)
    (hpairs : num * (num - 1) ≤ INT_MAX) (hbatch : num * channels ≤ INT_MAX)
    (hcache : num * (num - 1) / 2 * channels ≤ INT_MAX) (hcp : 1 ≤ copies)
    (l : List (Nat × Nat)) (hl : ∀ q ∈ l, q.1 < num ∧ q.2 < num) (init : BackwardLocals α)
    (hc : init.c + l.length ≤ num * (num - 1) / 2) :
    l.foldlM (fun st q => Backward_body_checked sqrt margin copies legacy num channels
        alpha_p alpha_n diff_ dist_sq_ q.1 st q.2) init
      = Except.ok (l.foldl (fun st q => Backward_body sqrt margin copies legacy channels
        alpha_p alpha_n diff_ dist_sq_ q.1 st q.2) init) := by
  induction l generalizing init with
  | nil => rfl
  | cons q l ih =>
    have hq := hl q (List.mem_cons_self _ _)
    rw [List.length_cons] at hc
    rw [List.foldlM_cons, List.foldl_cons,
      Backward_body_checked_ok sqrt hsqrt margin copies legacy num channels alpha_p alpha_n
        diff_ dist_sq_ q.1 q.2 init hpairs hbatch hcache hq.1 hq.2 (by omega) hcp]
    exact ih (fun q' hq' => hl q' (List.mem_cons_of_mem _ hq')) _
      (by rw [Backward_body_c]; omega)

theorem Backward_loops_checked_ok (sqrt : α → α) (hsqrt : ∀ x, 0 ≤ sqrt x) (margin : α)
    (copies : Nat) (legacy : Bool) (num channels : Nat) (alpha_p alpha_n : α)
    (diff_ dist_sq_ : Nat → α)
    (hpairs : num * (num - 1) ≤ INT_MAX) (hbatch : num * channels ≤ INT_MAX)
    (hcache : num * (num - 1) / 2 * channels ≤ INT_MAX) (hcp : 1 ≤ copies) (b : Nat → α) :
    Backward_loops_checked sqrt margin copies legacy num channels alpha_p alpha_n diff_ dist_sq_
        { c := 0, bout := b }
      = Except.ok (Backward_loops sqrt margin copies legacy num channels alpha_p alpha_n diff_
        dist_sq_ { c := 0, bout := b }) := by
  rw [Backward_loops_checked_eq_foldlM_pairs, Backward_loops_eq_foldl_pairs]
  exact foldlM_Backward_body_checked_ok sqrt hsqrt margin copies legacy num channels alpha_p
    alpha_n diff_ dist_sq_ hpairs hbatch hcache hcp (pairs num) (pairs_lt num) _
    (by rw [npairs_eq_length]; simp)

/-- Where the sizes fit in an `int` (and `sqrt` has no negative value), the
32-bit checked `Backward_cpu` raises no fault and returns what `Backward_cpu`
returns. -/
theorem Backward_cpu_checked_ok (sqrt : α → α) (hsqrt : ∀ x, 0 ≤ sqrt x)
    (p : ContrastiveLossParameter α) (propagate_down0 : Bool) (s : LayerState α)
    (hN : 2 ≤ s.num) (hcp : 1 ≤ p.image_batch_copies)
    (hpairs : s.num * (s.num - 1) ≤ INT_MAX) (hbatch : s.num * s.channels ≤ INT_MAX)
    (hcache : s.num * (s.num - 1) / 2 * s.channels ≤ INT_MAX) :
    Backward_cpu_checked sqrt p propagate_down0 s
      = Except.ok (Backward_cpu sqrt p propagate_down0 s) := by
  have hP : ((s.num * (s.num - 1) / 2 : ℕ) : α) ≠ 0 := by
    have := npairs_pos s.num hN
    exact_mod_cast this.ne'
  have hb : ¬ INT_MAX < s.channels * s.num := by
    rw [Nat.mul_comm]
    omega
  unfold Backward_cpu_checked Backward_cpu
  cases propagate_down0
  · rfl
  · simp only [Bool.not_true, Bool.false_eq_true, if_false, checkedDiv,
      cast_npairs_of_fits s.num hpairs, if_neg hP, Except.bind, if_neg hb]
    rw [Backward_loops_checked_ok sqrt hsqrt _ _ _ _ _ _ _ _ _ hpairs hbatch hcache hcp]

theorem Backward_loops_counter (sqrt : α → α) (margin : α) (copies : Nat) (legacy : Bool)
    (num channels : Nat) (alpha_p alpha_n : α) (diff_ dist_sq_ : Nat → α) (b : Nat → α) :
    (Backward_loops sqrt margin copies legacy num channels alpha_p alpha_n diff_ dist_sq_
        { c := 0, bout := b }).c = num * (num - 1) / 2 := by
  rw [Backward_loops_eq_foldl_pairs, foldl_Backward_body_c, npairs_eq_length]
  simp

/-- The loop counter when the `t`-th pair of the enumeration is visited is `t`. -/
theorem Forward_counter_at (sqrt : α → α) (margin : α) (copies : Nat) (legacy : Bool)
    (num channels : Nat) (bottom_data : Nat → α) (d q : Nat → α) (t : Nat)
    (ht : t ≤ (pairs num).length) :
    (((pairs num).take t).foldl
        (fun st q => Forward_body sqrt margin copies legacy channels bottom_data q.1 st q.2)
        { c := 0, loss := 0, diff_ := d, dist_sq_ := q }).c = t := by
  rw [foldl_Forward_body_c, List.length_take]
  simp only [zero_add]
  omega

theorem Backward_counter_at (sqrt : α → α) (margin : α) (copies : Nat) (legacy : Bool)
    (num channels : Nat) (alpha_p alpha_n : α) (diff_ dist_sq_ : Nat → α) (b : Nat → α)
    (t : Nat) (ht : t ≤ (pairs num).length) :
    (((pairs num).take t).foldl
        (fun st q => Backward_body sqrt margin copies legacy channels alpha_p alpha_n diff_
          dist_sq_ q.1 st q.2)
        { c := 0, bout := b }).c = t := by
  rw [foldl_Backward_body_c, List.length_take]
  simp only [zero_add]
  omega

/-! ## Batches whose pair count does not fit in an `int` -/

/-- A checked loop whose every iteration needs the counter below `B` and
increments it stops with `outOfRange` when the list is longer than `B`. -/
theorem foldlM_overrun {β γ : Type} (f : β → γ → Except Fault β) (c : β → Nat) (B : Nat)
    (l : List γ)
    (hstep : ∀ st, ∀ x ∈ l, c st < B →
      (∃ st', f st x = Except.ok st' ∧ c st' = c st + 1)
        ∨ f st x = Except.error Fault.outOfRange)
    (hstop : ∀ st, ∀ x ∈ l, c st = B → f st x = Except.error Fault.outOfRange)
    (init : β) (hinit : c init ≤ B) (hlen : B < c init + l.length) :
    l.foldlM f init = Except.error Fault.outOfRange := by
  induction l generalizing init with
  | nil =>
    simp only [List.length_nil, add_zero] at hlen
    omega
  | cons x l ih =>
    rw [List.foldlM_cons]
    rw [List.length_cons] at hlen
    rcases Nat.lt_or_ge (c init) B with h | h
    · rcases hstep init x (List.mem_cons_self _ _) h with ⟨st', hok, hc⟩ | herr
      · rw [hok]
        exact ih (fun st y hy => hstep st y (List.mem_cons_of_mem _ hy))
          (fun st y hy => hstop st y (List.mem_cons_of_mem _ hy)) st' (by omega) (by omega)
      · rw [herr]
        rfl
    · rw [hstop init x (List.mem_cons_self _ _) (by omega)]
      rfl

theorem bind_ok {β γ : Type} (x : β) (f : β → Except Fault γ) :
    (Except.ok x : Except Fault β).bind f = f x :=
  rfl

theorem length_pairs_wide : (pairs 65537).length = 2147516416 := by
  rw [← npairs_eq_length]

theorem Forward_body_checked_wide (sqrt : α → α) (margin : α) (copies : Nat) (legacy : Bool)
    (bottom_data : Nat → α) (hcp : 1 ≤ copies) (st : ForwardLocals α) (q : Nat × Nat)
    (hq : q ∈ pairs 65537) :
    (st.c < 32768 →
      (∃ st', Forward_body_checked sqrt margin copies legacy 65537 1 bottom_data q.1 st q.2
          = Except.ok st' ∧ st'.c = st.c + 1)
        ∨ Forward_body_checked sqrt margin copies legacy 65537 1 bottom_data q.1 st q.2
          = Except.error Fault.outOfRange)
    ∧ (st.c = 32768 →
      Forward_body_checked sqrt margin copies legacy 65537 1 bottom_data q.1 st q.2
        = Except.error Fault.outOfRange) := by
  have hI : INT_MAX = 2147483647 := rfl
  have hm := pairs_lt 65537 q hq
  unfold Forward_body_checked
  rw [Reshape_wide]
  constructor
  · intro hc
    left
    rw [if_neg (by omega), if_pos (by omega), if_neg (by omega), if_neg (by omega)]
    exact ⟨_, rfl, Forward_body_c _ _ _ _ _ _ _ _ _⟩
  · intro hc
    rw [if_neg (by omega), if_neg (by omega)]

/-- For `N = 65537`, `C = 1` the checked `Forward_cpu` runs past the cache
of `32768` slots. -/
theorem Forward_cpu_checked_wide (sqrt : α → α) (p : ContrastiveLossParameter α)
    (s : LayerState α) (hnum : s.num = 65537) (hch : s.channels = 1)
    (hcp : 1 ≤ p.image_batch_copies) :
    Forward_cpu_checked sqrt p s = Except.error Fault.outOfRange := by
  unfold Forward_cpu_checked
  rw [Forward_loops_checked_eq_foldlM_pairs, hnum, hch,
    foldlM_overrun _ (fun st => st.c) 32768 (pairs 65537)
      (fun st q hq => (Forward_body_checked_wide sqrt p.margin p.image_batch_copies
        p.legacy_version s.bottom_data hcp st q hq).1)
      (fun st q hq => (Forward_body_checked_wide sqrt p.margin p.image_batch_copies
        p.legacy_version s.bottom_data hcp st q hq).2)
      _ (by simp) (by rw [length_pairs_wide]; simp)]
  rfl

omit [LinearOrderedField α] in
theorem Backward_axpby_checked_wide (st res : BackwardLocals α) (hres : res.c = st.c + 1)
    (q : Nat × Nat) (hq : q ∈ pairs 65537) :
    (st.c < 32768 →
      (∃ st', Backward_axpby_checked 65537 1 q.1 q.2 st res = Except.ok st'
          ∧ st'.c = st.c + 1)
        ∨ Backward_axpby_checked 65537 1 q.1 q.2 st res = Except.error Fault.outOfRange)
    ∧ (st.c = 32768 →
      Backward_axpby_checked 65537 1 q.1 q.2 st res = Except.error Fault.outOfRange) := by
  have hI : INT_MAX = 2147483647 := rfl
  have hm := pairs_lt 65537 q hq
  unfold Backward_axpby_checked
  rw [Reshape_wide]
  constructor
  · intro hc
    left
    rw [if_neg (by omega), if_pos (by omega), if_neg (by omega)]
    exact ⟨_, rfl, hres⟩
  · intro hc
    rw [if_neg (by omega), if_neg (by omega)]

theorem Backward_body_checked_wide (sqrt : α → α) (hsqrt : ∀ x, 0 ≤ sqrt x) (margin : α)
    (copies : Nat) (legacy : Bool) (alpha_p alpha_n : α) (diff_ dist_sq_ : Nat → α)
    (hcp : 1 ≤ copies) (st : BackwardLocals α) (q : Nat × Nat) (hq : q ∈ pairs 65537) :
    (st.c < 32768 →
      (∃ st', Backward_body_checked sqrt margin copies legacy 65537 1 alpha_p alpha_n diff_
          dist_sq_ q.1 st q.2 = Except.ok st' ∧ st'.c = st.c + 1)
        ∨ Backward_body_checked sqrt margin copies legacy 65537 1 alpha_p alpha_n diff_
          dist_sq_ q.1 st q.2 = Except.error Fault.outOfRange)
    ∧ (st.c = 32768 →
      Backward_body_checked sqrt margin copies legacy 65537 1 alpha_p alpha_n diff_
        dist_sq_ q.1 st q.2 = Except.error Fault.outOfRange) := by
  have hI : INT_MAX = 2147483647 := rfl
  have hres := Backward_body_c sqrt margin copies legacy 1 alpha_p alpha_n diff_ dist_sq_ q.1
    st q.2
  have hax := Backward_axpby_checked_wide st
    (Backward_body sqrt margin copies legacy 1 alpha_p alpha_n diff_ dist_sq_ q.1 st q.2)
    hres q hq
  have hden : ¬ (legacy = false ∧ sqrt (dist_sq_ st.c) + 1 / 10000 = 0) := by
    rintro ⟨_, h0⟩
    have := hsqrt (dist_sq_ st.c)
    have h1 : (0 : α) < 1 / 10000 := by norm_num
    linarith
  unfold Backward_body_checked
  simp only
  rw [if_neg (by omega), Reshape_wide]
  by_cases hg : q.1 / copies = q.2 / copies
  · rw [if_pos hg]
    exact hax
  · rw [if_neg hg]
    constructor
    · intro hc
      rw [if_pos hc, if_neg hden]
      by_cases hmd : (if legacy = true then margin - dist_sq_ st.c
          else margin - sqrt (dist_sq_ st.c)) > 0
      · rw [if_pos hmd]
        exact hax.1 hc
      · rw [if_neg hmd, if_neg (by omega)]
        exact Or.inl ⟨_, rfl, hres⟩
    · intro hc
      rw [if_neg (by omega)]

/-- For `N = 65537`, `C = 1` the checked `Backward_cpu` divides the upstream
gradient by the 32-bit pair count `32768` and runs past the cache of `32768`
slots. -/
theorem Backward_cpu_checked_wide (sqrt : α → α) (hsqrt : ∀ x, 0 ≤ sqrt x)
    (p : ContrastiveLossParameter α) (s : LayerState α) (hnum : s.num = 65537)
    (hch : s.channels = 1) (hcp : 1 ≤ p.image_batch_copies) :
    Backward_cpu_checked sqrt p true s = Except.error Fault.outOfRange := by
  have hI : INT_MAX = 2147483647 := rfl
  have hP : (((32768 : ℤ)) : α) ≠ 0 := by norm_num
  unfold Backward_cpu_checked
  simp only [Bool.not_true, Bool.false_eq_true, if_false]
  rw [hnum, hch, npairs_wide]
  unfold checkedDiv
  rw [if_neg hP, bind_ok, if_neg (by omega), Backward_loops_checked_eq_foldlM_pairs,
    foldlM_overrun _ (fun st => st.c) 32768 (pairs 65537)
      (fun st q hq => (Backward_body_checked_wide sqrt hsqrt p.margin p.image_batch_copies
        p.legacy_version _ _ s.diff_ s.dist_sq_ hcp st q hq).1)
      (fun st q hq => (Backward_body_checked_wide sqrt hsqrt p.margin p.image_batch_copies
        p.legacy_version _ _ s.diff_ s.dist_sq_ hcp st q hq).2)
      _ (by simp) (by rw [length_pairs_wide]; simp)]
  rfl

/-! ## Fewer than two vectors (C13) -/

theorem pairs_of_lt_two (num : Nat) (hN : num < 2) : pairs num = [] := by
  have h : num - 1 = 0 := by omega
  unfold pairs
  rw [h]
  rfl

/-- With fewer than two vectors the checked `Forward_cpu` reaches the
division of the loss sum by `npairs = 0`. -/
theorem Forward_cpu_checked_lt_two (sqrt : α → α) (p : ContrastiveLossParameter α)
    (s : LayerState α) (hN : s.num < 2) :
    Forward_cpu_checked sqrt p s = Except.error Fault.divByZero := by
  unfold Forward_cpu_checked
  rw [Forward_loops_checked_eq_foldlM_pairs, pairs_of_lt_two s.num hN,
    npairs_zero_of_lt_two s.num hN]
  simp [Except.bind, checkedDiv, pure, Except.pure]

/-- With fewer than two vectors and propagation enabled the checked
`Backward_cpu` reaches the division of the upstream gradient by `npairs = 0`. -/
theorem Backward_cpu_checked_lt_two (sqrt : α → α) (p : ContrastiveLossParameter α)
    (s : LayerState α) (hN : s.num < 2) :
    Backward_cpu_checked sqrt p true s = Except.error Fault.divByZero := by
  unfold Backward_cpu_checked
  simp only [Bool.not_true, Bool.false_eq_true, if_false]
  rw [npairs_zero_of_lt_two s.num hN]
  simp [Except.bind, checkedDiv]

theorem Backward_cpu_lt_two (sqrt : α → α) (p : ContrastiveLossParameter α)
    (s : LayerState α) (hN : s.num < 2) :
    (Backward_cpu sqrt p true s).bottom_diff = caffe_set (s.channels * s.num) 0 s.bottom_diff := by
  unfold Backward_cpu
  simp only [Bool.not_true, Bool.false_eq_true, if_false]
  rw [Backward_loops_eq_foldl_pairs, pairs_of_lt_two s.num hN]
  rfl

theorem Forward_cpu_lt_two (sqrt : α → α) (p : ContrastiveLossParameter α)
    (s : LayerState α) (hN : s.num < 2) :
    (Forward_cpu sqrt p s).diff_ = s.diff_ ∧ (Forward_cpu sqrt p s).dist_sq_ = s.dist_sq_ := by
  unfold Forward_cpu
  simp only
  rw [Forward_loops_eq_foldl_pairs, pairs_of_lt_two s.num hN]
  exact ⟨rfl, rfl⟩

/-- C13, refuted as stated: for the batch of `N = 1` vector `[1, 2]`
(`C = 2`, pair count 0) the checked `Forward_cpu` stops at the division of
the loss sum by the pair count 0, and the checked `Backward_cpu` with
propagation enabled stops at the division of the upstream gradient by the
pair count 0: neither entry point has a guard. -/
theorem zero_pairs_counterexample :
    (stateOf 1 2 [(1 : ℝ), 2]).num < 2
    ∧ Forward_cpu_checked Real.sqrt (paramsOf 1 2 false) (stateOf 1 2 [(1 : ℝ), 2])
        = Except.error Fault.divByZero
    ∧ Backward_cpu_checked Real.sqrt (paramsOf 1 2 false) true (stateOf 1 2 [(1 : ℝ), 2])
        = Except.error Fault.divByZero :=
  ⟨by decide, Forward_cpu_checked_lt_two _ _ _ (by decide),
    Backward_cpu_checked_lt_two _ _ _ (by decide)⟩

/-- C13, amended: for a batch with `N < 2` (pair count 0) the code has no
guard.  `Forward_cpu` visits no pair (the cache is left as it was) and divides
the loss sum by the pair count 0; `Backward_cpu` with propagation enabled
divides the upstream gradient by the pair count 0, then zeroes the `N × C`
gradient buffer and accumulates nothing; with propagation disabled it returns
before the division.  For `N ≥ 2` the pair count is positive and neither
division is by zero. -/
theorem zero_pairs_unguarded (sqrt : α → α) (p : ContrastiveLossParameter α)
    (s : LayerState α) (hN : s.num < 2) :
    Forward_cpu_checked sqrt p s = Except.error Fault.divByZero
    ∧ (Forward_cpu sqrt p s).diff_ = s.diff_
    ∧ (Forward_cpu sqrt p s).dist_sq_ = s.dist_sq_
    ∧ Backward_cpu_checked sqrt p true s = Except.error Fault.divByZero
    ∧ Backward_cpu_checked sqrt p false s = Except.ok s
    ∧ (∀ idx, idx < s.channels * s.num → (Backward_cpu sqrt p true s).bottom_diff idx = 0)
    ∧ (∀ idx, s.channels * s.num ≤ idx →
        (Backward_cpu sqrt p true s).bottom_diff idx = s.bottom_diff idx)
    ∧ (∀ s2 : LayerState α, 2 ≤ s2.num →
        ((s2.num * (s2.num - 1) / 2 : ℕ) : α) ≠ 0) := by
  have hb := Backward_cpu_lt_two sqrt p s hN
  refine ⟨Forward_cpu_checked_lt_two sqrt p s hN, (Forward_cpu_lt_two sqrt p s hN).1,
    (Forward_cpu_lt_two sqrt p s hN).2, Backward_cpu_checked_lt_two sqrt p s hN, rfl, ?_, ?_, ?_⟩
  · intro idx hidx
    rw [hb]
    simp only [caffe_set, if_pos hidx]
  · intro idx hidx
    rw [hb]
    simp only [caffe_set, if_neg (not_lt.mpr hidx)]
  · intro s2 h2
    have := npairs_pos s2.num h2
    exact_mod_cast this.ne'

theorem zero_pairs_unguarded_witness :
    ((stateOf 0 2 ([] : List ℝ)).num < 2)
    ∧ Forward_cpu_checked Real.sqrt (paramsOf 1 2 true) (stateOf 0 2 ([] : List ℝ))
        = Except.error Fault.divByZero :=
  ⟨by decide, (zero_pairs_unguarded Real.sqrt (paramsOf 1 2 true) (stateOf 0 2 ([] : List ℝ))
    (by decide)).1⟩

/-! ## A checked run that returns is the exact run -/

theorem npairs_toNat_le (num : Nat) : (npairs num).toNat ≤ 1073741823 := by
  have h := int32_le ((num : ℤ) * ((num : ℤ) - 1))
  unfold npairs
  rcases le_or_lt 0 (int32 ((num : ℤ) * ((num : ℤ) - 1))) with h0 | h0
  · rw [Int.tdiv_eq_ediv h0 (by norm_num)]
    omega
  · have e : (int32 ((num : ℤ) * ((num : ℤ) - 1))).tdiv 2
        = -((-(int32 ((num : ℤ) * ((num : ℤ) - 1)))).tdiv 2) := by
      rw [Int.neg_tdiv, neg_neg]
    have := Int.tdiv_nonneg (by omega : (0 : ℤ) ≤ -(int32 ((num : ℤ) * ((num : ℤ) - 1))))
      (by norm_num : (0 : ℤ) ≤ 2)
    omega

/-- If the cache sized by `Reshape` has a slot for every pair, the product
`num * (num - 1)` fits in an `int`. -/
theorem fits_of_length_le (num : Nat) (h : (pairs num).length ≤ (npairs num).toNat) :
    num * (num - 1) ≤ INT_MAX := by
  have h1 := npairs_toNat_le num
  rw [← npairs_eq_length] at h
  have hI : INT_MAX = 2147483647 := rfl
  omega

theorem Forward_body_checked_inv (sqrt : α → α) (margin : α) (copies : Nat) (legacy : Bool)
    (num channels : Nat) (bottom_data : Nat → α) (i j : Nat) (st st' : ForwardLocals α)
    (h : Forward_body_checked sqrt margin copies legacy num channels bottom_data i st j
      = Except.ok st') :
    st' = Forward_body sqrt margin copies legacy channels bottom_data i st j
      ∧ st.c < (npairs num).toNat := by
  unfold Forward_body_checked at h
  split_ifs at h with h1 h2 h3 h4
  · injection h with h
    exact ⟨h.symm, h2.2.2.2⟩

theorem foldlM_Forward_body_checked_inv (sqrt : α → α) (margin : α) (copies : Nat)
    (legacy : Bool) (num channels : Nat) (bottom_data : Nat → α) (l : List (Nat × Nat))
    (init fin : ForwardLocals α) (h0 : init.c ≤ (npairs num).toNat)
    (h : l.foldlM (fun st q => Forward_body_checked sqrt margin copies legacy num channels
        bottom_data q.1 st q.2) init = Except.ok fin) :
    fin = l.foldl (fun st q => Forward_body sqrt margin copies legacy channels
        bottom_data q.1 st q.2) init
      ∧ init.c + l.length ≤ (npairs num).toNat := by
  induction l generalizing init with
  | nil =>
    injection h with h
    exact ⟨h.symm, h0⟩
  | cons q l ih =>
    rw [List.foldlM_cons] at h
    cases hb : Forward_body_checked sqrt margin copies legacy num channels bottom_data
        q.1 init q.2 with
    | error e =>
      rw [hb] at h
      cases h
    | ok st' =>
      rw [hb] at h
      obtain ⟨hst, hc⟩ := Forward_body_checked_inv sqrt margin copies legacy num channels
        bottom_data q.1 q.2 init st' hb
      have hc' : st'.c = init.c + 1 := by
        rw [hst, Forward_body_c]
      obtain ⟨hfin, hlen⟩ := ih st' (by omega) h
      rw [List.foldl_cons, ← hst, List.length_cons]
      exact ⟨hfin, by omega⟩

/-- Every run of the 32-bit checked `Forward_cpu` that returns, returns what
`Forward_cpu` computes with exact `int`s; and it returns only for batches of
`N ≥ 2` vectors for which `N * (N - 1)` fits in an `int`. -/
theorem Forward_cpu_checked_sound (sqrt : α → α) (p : ContrastiveLossParameter α)
    (s s' : LayerState α) (h : Forward_cpu_checked sqrt p s = Except.ok s') :
    s' = Forward_cpu sqrt p s ∧ 2 ≤ s.num ∧ s.num * (s.num - 1) ≤ INT_MAX := by
  have hN : 2 ≤ s.num := by
    by_contra hlt
    rw [Forward_cpu_checked_lt_two sqrt p s (by omega)] at h
    cases h
  unfold Forward_cpu_checked at h
  rw [Forward_loops_checked_eq_foldlM_pairs] at h
  cases hl : (pairs s.num).foldlM (fun st q => Forward_body_checked sqrt p.margin
      p.image_batch_copies p.legacy_version s.num s.channels s.bottom_data q.1 st q.2)
      { c := 0, loss := 0, diff_ := s.diff_, dist_sq_ := s.dist_sq_ } with
  | error e =>
    rw [hl] at h
    cases h
  | ok fin =>
    rw [hl, bind_ok] at h
    obtain ⟨hfin, hlen⟩ := foldlM_Forward_body_checked_inv sqrt p.margin p.image_batch_copies
      p.legacy_version s.num s.channels s.bottom_data (pairs s.num) _ fin (Nat.zero_le _) hl
    have hfit : s.num * (s.num - 1) ≤ INT_MAX :=
      fits_of_length_le s.num (by simpa using hlen)
    have hP : ((s.num * (s.num - 1) / 2 : ℕ) : α) ≠ 0 := by
      have := npairs_pos s.num hN
      exact_mod_cast this.ne'
    rw [cast_npairs_of_fits s.num hfit] at h
    unfold checkedDiv at h
    rw [if_neg hP, bind_ok, if_neg (by norm_num), bind_ok] at h
    injection h with h
    refine ⟨?_, hN, hfit⟩
    rw [← h, hfin, ← Forward_loops_eq_foldl_pairs]
    rfl

omit [LinearOrderedField α] in
theorem Backward_axpby_checked_inv (num channels i j : Nat) (st res st' : BackwardLocals α)
    (h : Backward_axpby_checked num channels i j st res = Except.ok st') :
    st' = res ∧ st.c * channels + channels ≤ (npairs num).toNat * channels := by
  unfold Backward_axpby_checked at h
  split_ifs at h with h1 h2 h3
  · injection h with h
    exact ⟨h.symm, h2.1⟩

theorem slot_of_row (c T channels : Nat) (hC : 1 ≤ channels)
    (h : c * channels + channels ≤ T * channels) : c < T := by
  by_contra hlt
  have h1 : T * channels ≤ c * channels := Nat.mul_le_mul_right _ (by omega)
  omega

theorem Backward_body_checked_inv (sqrt : α → α) (margin : α) (copies : Nat) (legacy : Bool)
    (num channels : Nat) (alpha_p alpha_n : α) (diff_ dist_sq_ : Nat → α) (i j : Nat)
    (st st' : BackwardLocals α) (hC : 1 ≤ channels)
    (h : Backward_body_checked sqrt margin copies legacy num channels alpha_p alpha_n diff_
      dist_sq_ i st j = Except.ok st') :
    st' = Backward_body sqrt margin copies legacy channels alpha_p alpha_n diff_ dist_sq_ i st j
      ∧ st.c < (npairs num).toNat := by
  unfold Backward_body_checked at h
  simp only at h
  by_cases h1 : copies = 0
  · rw [if_pos h1] at h
    cases h
  rw [if_neg h1] at h
  by_cases h2 : i / copies = j / copies
  · rw [if_pos h2] at h
    obtain ⟨e, hr⟩ := Backward_axpby_checked_inv num channels i j st _ st' h
    exact ⟨e, slot_of_row _ _ channels hC hr⟩
  rw [if_neg h2] at h
  by_cases h3 : st.c < (Reshape num channels).2
  swap
  · rw [if_neg h3] at h
    cases h
  rw [if_pos h3] at h
  by_cases h4 : legacy = false ∧ sqrt (dist_sq_ st.c) + 1 / 10000 = 0
  · rw [if_pos h4] at h
    cases h
  rw [if_neg h4] at h
  by_cases h5 : (if legacy = true then margin - dist_sq_ st.c
      else margin - sqrt (dist_sq_ st.c)) > 0
  · rw [if_pos h5] at h
    obtain ⟨e, _⟩ := Backward_axpby_checked_inv num channels i j st _ st' h
    exact ⟨e, h3⟩
  rw [if_neg h5] at h
  by_cases h6 : INT_MAX < st.c + 1
  · rw [if_pos h6] at h
    cases h
  rw [if_neg h6] at h
  injection h with h
  exact ⟨h.symm, h3⟩

theorem foldlM_Backward_body_checked_inv (sqrt : α → α) (margin : α) (copies : Nat)
    (legacy : Bool) (num channels : Nat) (alpha_p alpha_n : α) (diff_ dist_sq_ : Nat → α)
    (hC : 1 ≤ channels) (l : List (Nat × Nat))
    (init fin : BackwardLocals α) (h0 : init.c ≤ (npairs num).toNat)
    (h : l.foldlM (fun st q => Backward_body_checked sqrt margin copies legacy num channels
        alpha_p alpha_n diff_ dist_sq_ q.1 st q.2) init = Except.ok fin) :
    fin = l.foldl (fun st q => Backward_body sqrt margin copies legacy channels
        alpha_p alpha_n diff_ dist_sq_ q.1 st q.2) init
      ∧ init.c + l.length ≤ (npairs num).toNat := by
  induction l generalizing init with
  | nil =>
    injection h with h
    exact ⟨h.symm, h0⟩
  | cons q l ih =>
    rw [List.foldlM_cons] at h
    cases hb : Backward_body_checked sqrt margin copies legacy num channels alpha_p alpha_n
        diff_ dist_sq_ q.1 init q.2 with
    | error e =>
      rw [hb] at h
      cases h
    | ok st' =>
      rw [hb] at h
      obtain ⟨hst, hc⟩ := Backward_body_checked_inv sqrt margin copies legacy num channels
        alpha_p alpha_n diff_ dist_sq_ q.1 q.2 init st' hC hb
      have hc' : st'.c = init.c + 1 := by
        rw [hst, Backward_body_c]
      obtain ⟨hfin, hlen⟩ := ih st' (by omega) h
      rw [List.foldl_cons, ← hst, List.length_cons]
      exact ⟨hfin, by omega⟩

/-- Every run of the 32-bit checked `Backward_cpu` (propagation enabled,
`C ≥ 1`) that returns, returns what `Backward_cpu` computes with exact `int`s;
and it returns only for batches of `N ≥ 2` vectors for which `N * (N - 1)`
fits in an `int`. -/
theorem Backward_cpu_checked_sound (sqrt : α → α) (p : ContrastiveLossParameter α)
    (s s' : LayerState α) (hC : 1 ≤ s.channels)
    (h : Backward_cpu_checked sqrt p true s = Except.ok s') :
    s' = Backward_cpu sqrt p true s ∧ 2 ≤ s.num ∧ s.num * (s.num - 1) ≤ INT_MAX := by
  have hN : 2 ≤ s.num := by
    by_contra hlt
    rw [Backward_cpu_checked_lt_two sqrt p s (by omega)] at h
    cases h
  unfold Backward_cpu_checked at h
  simp only [Bool.not_true, Bool.false_eq_true, if_false] at h
  unfold checkedDiv at h
  by_cases hz : ((npairs s.num : ℤ) : α) = 0
  · rw [if_pos hz] at h
    cases h
  rw [if_neg hz, bind_ok] at h
  by_cases hov : INT_MAX < s.channels * s.num
  · rw [if_pos hov] at h
    cases h
  rw [if_neg hov, Backward_loops_checked_eq_foldlM_pairs] at h
  cases hl : (pairs s.num).foldlM (fun st q => Backward_body_checked sqrt p.margin
      p.image_batch_copies p.legacy_version s.num s.channels
      (s.top_diff / ((npairs s.num : ℤ) : α)) (-(s.top_diff / ((npairs s.num : ℤ) : α)))
      s.diff_ s.dist_sq_ q.1 st q.2)
      { c := 0, bout := caffe_set (s.channels * s.num) 0 s.bottom_diff } with
  | error e =>
    rw [hl] at h
    cases h
  | ok fin =>
    rw [hl, bind_ok] at h
    obtain ⟨hfin, hlen⟩ := foldlM_Backward_body_checked_inv sqrt p.margin
      p.image_batch_copies p.legacy_version s.num s.channels _ _ s.diff_ s.dist_sq_ hC
      (pairs s.num) _ fin (Nat.zero_le _) hl
    have hfit : s.num * (s.num - 1) ≤ INT_MAX :=
      fits_of_length_le s.num (by simpa using hlen)
    injection h with h
    refine ⟨?_, hN, hfit⟩
    rw [← h, hfin, cast_npairs_of_fits s.num hfit, ← Backward_loops_eq_foldl_pairs]
    rfl

/-! ## The epsilon of the non-legacy division (C17) -/

theorem coef_nonlegacy_eq (sqrt : α → α) (margin : α) (cp : Nat) (alpha_p dsq : α) (i j : Nat) :
    coef sqrt margin cp false alpha_p dsq i j
      = if i / cp = j / cp then alpha_p
        else if margin - sqrt dsq > 0 then beta_nonlegacy sqrt margin alpha_p dsq else 0 := by
  unfold coef beta_nonlegacy
  simp only [Bool.false_eq_true, if_false]

theorem sqDist_identical (channels : Nat) (b : Nat → α) (i j : Nat)
    (hsame : ∀ k, k < channels → b (i * channels + k) = b (j * channels + k)) :
    sqDist channels b i j = 0 := by
  unfold sqDist
  refine Finset.sum_eq_zero (fun k hk => ?_)
  rw [hsame k (Finset.mem_range.mp hk), sub_self]
  ring

theorem pairDelta_zero_diff (channels : Nat) (K : α) (d : Nat → α) (i j idx : Nat)
    (hd : ∀ k, k < channels → d k = 0) :
    pairDelta channels K d i j idx = 0 := by
  unfold pairDelta
  have h1 : (if i * channels ≤ idx ∧ idx < i * channels + channels then
      K * d (idx - i * channels) else 0) = 0 := by
    split_ifs with h
    · rw [hd _ (by omega), mul_zero]
    · rfl
  have h2 : (if j * channels ≤ idx ∧ idx < j * channels + channels then
      -K * d (idx - j * channels) else 0) = 0 := by
    split_ifs with h
    · rw [hd _ (by omega), mul_zero]
    · rfl
  rw [h1, h2, add_zero]

/-- C17: for the cache produced by `Forward_cpu` on a batch of `N ≥ 2`
vectors, every margin and upstream coefficient `alpha_p`: every cached
`dist_sq_[c]`, `c < N * (N - 1) / 2`, is `≥ 0` and the denominator
`sqrt(dist_sq_[c]) + 1e-4` of the non-legacy `Backward_cpu` is `≥ 1e-4`, hence
not zero; and for a different-group pair `i < j` of identical vectors, at its
slot `c`, the distance is 0, the coefficient `beta_p` is
`-alpha_p * margin / 1e-4`, and the pair's iteration of `Backward_cpu` leaves
the gradient buffer as it was (what it adds to both rows is the zero
vector). -/
theorem epsilon_guards_division (p : ContrastiveLossParameter ℝ) (s : LayerState ℝ)
    (hN : 2 ≤ s.num) :
    (∀ c, c < s.num * (s.num - 1) / 2 →
      0 ≤ (Forward_cpu Real.sqrt p s).dist_sq_ c
      ∧ 1 / 10000 ≤ Real.sqrt ((Forward_cpu Real.sqrt p s).dist_sq_ c) + 1 / 10000
      ∧ Real.sqrt ((Forward_cpu Real.sqrt p s).dist_sq_ c) + 1 / 10000 ≠ 0)
    ∧ (∀ i j, i < j → j < s.num →
        i / p.image_batch_copies ≠ j / p.image_batch_copies →
        (∀ k, k < s.channels →
          s.bottom_data (i * s.channels + k) = s.bottom_data (j * s.channels + k)) →
        ∀ (alpha_p : ℝ) (st : BackwardLocals ℝ), st.c = pairIndex s.num i j →
          Real.sqrt ((Forward_cpu Real.sqrt p s).dist_sq_ st.c) = 0
          ∧ beta_nonlegacy Real.sqrt p.margin alpha_p ((Forward_cpu Real.sqrt p s).dist_sq_ st.c)
              = -alpha_p * p.margin / (1 / 10000)
          ∧ (Backward_body Real.sqrt p.margin p.image_batch_copies false s.channels alpha_p
                (-alpha_p) (Forward_cpu Real.sqrt p s).diff_ (Forward_cpu Real.sqrt p s).dist_sq_
                i st j).bout = st.bout) := by
  have h2 : 2 ≤ s.num := hN
  constructor
  · intro c hc
    rw [npairs_eq_length] at hc
    have h := (Forward_cpu_cache Real.sqrt p s c hc).2
    rw [zero_add] at h
    have hs := Real.sqrt_nonneg ((Forward_cpu Real.sqrt p s).dist_sq_ c)
    refine ⟨by rw [h]; exact sqDist_nonneg _ _ _ _, by linarith, by linarith⟩
  · intro i j hij hj hg hsame alpha_p st hst
    obtain ⟨hlt, hget⟩ := getElem_pairIndex s.num i j hij hj
    have hc := Forward_cpu_cache Real.sqrt p s (pairIndex s.num i j) hlt
    rw [hget, zero_add] at hc
    have hdsq : (Forward_cpu Real.sqrt p s).dist_sq_ st.c = 0 := by
      rw [hst, hc.2]
      exact sqDist_identical _ _ _ _ hsame
    have hdiff : ∀ k, k < s.channels →
        (Forward_cpu Real.sqrt p s).diff_ (st.c * s.channels + k) = 0 := by
      intro k hk
      rw [hst, hc.1 k hk, hsame k hk, sub_self]
    refine ⟨by rw [hdsq, Real.sqrt_zero], ?_, ?_⟩
    · unfold beta_nonlegacy
      rw [hdsq, Real.sqrt_zero, sub_zero, zero_add]
    · funext idx
      rw [Backward_body_bout, pairDelta_zero_diff _ _ _ _ _ _ hdiff, add_zero]

theorem batchTwin_identical :
    ∀ k, k < (stateOf 4 2 [(1 : ℝ), 2, 0, 0, 1, 2, 5, 5]).channels →
      (stateOf 4 2 [(1 : ℝ), 2, 0, 0, 1, 2, 5, 5]).bottom_data
          (0 * (stateOf 4 2 [(1 : ℝ), 2, 0, 0, 1, 2, 5, 5]).channels + k)
        = (stateOf 4 2 [(1 : ℝ), 2, 0, 0, 1, 2, 5, 5]).bottom_data
          (2 * (stateOf 4 2 [(1 : ℝ), 2, 0, 0, 1, 2, 5, 5]).channels + k) := by
  intro k hk
  have hk2 : k < 2 := hk
  interval_cases k <;> simp [stateOf]

theorem epsilon_guards_division_witness :
    (2 ≤ (stateOf 4 2 [(1 : ℝ), 2, 0, 0, 1, 2, 5, 5]).num)
    ∧ Real.sqrt ((Forward_cpu Real.sqrt (paramsOf 1 2 false)
        (stateOf 4 2 [(1 : ℝ), 2, 0, 0, 1, 2, 5, 5])).dist_sq_ 1) = 0
    ∧ beta_nonlegacy Real.sqrt (paramsOf (1 : ℝ) 2 false).margin 3
        ((Forward_cpu Real.sqrt (paramsOf 1 2 false)
          (stateOf 4 2 [(1 : ℝ), 2, 0, 0, 1, 2, 5, 5])).dist_sq_ 1)
        = -3 * (paramsOf (1 : ℝ) 2 false).margin / (1 / 10000) :=
  ⟨by decide,
    ((epsilon_guards_division (paramsOf 1 2 false) (stateOf 4 2 [(1 : ℝ), 2, 0, 0, 1, 2, 5, 5])
      (by decide)).2 0 2 (by decide) (by decide) (by decide) batchTwin_identical
      3 ⟨1, fun _ => 0⟩ rfl).1,
    ((epsilon_guards_division (paramsOf 1 2 false) (stateOf 4 2 [(1 : ℝ), 2, 0, 0, 1, 2, 5, 5])
      (by decide)).2 0 2 (by decide) (by decide) (by decide) batchTwin_identical
      3 ⟨1, fun _ => 0⟩ rfl).2.1⟩

/-! ## Batches that fit in an `int`: loss and gradient (C1, C2, C3, C5) -/

/-- C1, amended: in non-legacy mode, for a batch of `N ≥ 2` vectors whose
sizes fit in the 32-bit `int` of the layer (`N * (N - 1)`, the element count
`N * C` of the batch and the element count `(N * (N - 1) / 2) * C` of the
cache are at most `INT_MAX = 2^31 - 1`) and `copiesPerGroup ≥ 1`, the 32-bit
checked `Forward_cpu` raises no fault and the loss it writes is
`1 / (2 * P)` times the sum over the pairs `i < j` of the squared distance
(same group) or of `max(margin - sqrt(squared distance), 0)^2` (different
groups), with `P = N * (N - 1) / 2`; for `N = 4`, `C = 2`,
`copiesPerGroup = 2` it is the six-term sum of the test `TestForward`
divided by `6 * 2`. -/
theorem Forward_cpu_closed_form (sqrt : α → α) (p : ContrastiveLossParameter α)
    (s : LayerState α) (hN : 2 ≤ s.num) (hcopies : 1 ≤ p.image_batch_copies)
    (hmode : p.legacy_version = false)
    (hpairs : s.num * (s.num - 1) ≤ INT_MAX) (hbatch : s.num * s.channels ≤ INT_MAX)
    (hcache : s.num * (s.num - 1) / 2 * s.channels ≤ INT_MAX) :
    Forward_cpu_checked sqrt p s = Except.ok (Forward_cpu sqrt p s)
    ∧ (Forward_cpu sqrt p s).top_data
        = 1 / (2 * ((s.num : α) * ((s.num : α) - 1) / 2))
          * ∑ i in Finset.range s.num, ∑ j in Finset.Ico (i + 1) s.num,
              (if i / p.image_batch_copies = j / p.image_batch_copies then
                sqDist s.channels s.bottom_data i j
              else (max (p.margin - sqrt (sqDist s.channels s.bottom_data i j)) 0) ^ 2)
    ∧ (s.num = 4 → s.channels = 2 → p.image_batch_copies = 2 →
        (Forward_cpu sqrt p s).top_data
          = (loss_single sqrt true false p.margin (ptr_add s.bottom_data 0)
                (ptr_add s.bottom_data (1 * 2)) 2
              + loss_single sqrt true false p.margin (ptr_add s.bottom_data (2 * 2))
                (ptr_add s.bottom_data (3 * 2)) 2
              + loss_single sqrt false false p.margin (ptr_add s.bottom_data 0)
                (ptr_add s.bottom_data (2 * 2)) 2
              + loss_single sqrt false false p.margin (ptr_add s.bottom_data 0)
                (ptr_add s.bottom_data (3 * 2)) 2
              + loss_single sqrt false false p.margin (ptr_add s.bottom_data (1 * 2))
                (ptr_add s.bottom_data (2 * 2)) 2
              + loss_single sqrt false false p.margin (ptr_add s.bottom_data (1 * 2))
                (ptr_add s.bottom_data (3 * 2)) 2) / (6 * 2)) := by
  refine ⟨Forward_cpu_checked_ok sqrt p s hN hcopies hpairs hbatch hcache, ?_, ?_⟩
  · rw [Forward_cpu_top_data, cast_npairs s.num (by omega), loss_div_eq]
    congr 1
    refine Finset.sum_congr rfl (fun i _ => Finset.sum_congr rfl (fun j _ => ?_))
    simp [contrib, hmode]
  · intro h4 h2 hcp
    rw [Forward_cpu_top_data, h4, h2, hcp, hmode, sum_pairs_four]
    have e01 := loss_single_ptr_eq_contrib sqrt p.margin false s.bottom_data 0 1
    have e23 := loss_single_ptr_eq_contrib sqrt p.margin false s.bottom_data 2 3
    have e02 := loss_single_ptr_eq_contrib sqrt p.margin false s.bottom_data 0 2
    have e03 := loss_single_ptr_eq_contrib sqrt p.margin false s.bottom_data 0 3
    have e12 := loss_single_ptr_eq_contrib sqrt p.margin false s.bottom_data 1 2
    have e13 := loss_single_ptr_eq_contrib sqrt p.margin false s.bottom_data 1 3
    norm_num at e01 e23 e02 e03 e12 e13
    rw [e01, e23, e02, e03, e12, e13]
    norm_num
    ring

/-- C1, refuted as stated: the batch of `N = 65537` vectors with `C = 1`
channel, non-legacy mode, `copiesPerGroup = 2`, margin 1.  The product
`num*(num-1) = 4295032832` does not fit in the 32-bit `int` and wraps to
`65536`, so `npairs` is `32768` while the batch has `2147516416` pairs: the
cache has `32768` slots, the divisor of the loss sum is `32768`, and
`Forward_cpu` runs past the cache at the pair with counter `32768`. -/
theorem Forward_cpu_closed_form_counterexample :
    (2 ≤ (batchWide ℝ).num ∧ 1 ≤ (paramsOf (1 : ℝ) 2 false).image_batch_copies
      ∧ (paramsOf (1 : ℝ) 2 false).legacy_version = false)
    ∧ npairs (batchWide ℝ).num = 32768
    ∧ (batchWide ℝ).num * ((batchWide ℝ).num - 1) / 2 = 2147516416
    ∧ Forward_cpu_checked Real.sqrt (paramsOf 1 2 false) (batchWide ℝ)
        = Except.error Fault.outOfRange :=
  ⟨⟨by decide, by decide, rfl⟩, npairs_wide, by decide,
    Forward_cpu_checked_wide Real.sqrt (paramsOf 1 2 false) (batchWide ℝ) rfl rfl (by decide)⟩

theorem Forward_cpu_closed_form_witness :
    (2 ≤ (batchABCD ℝ).num ∧ 1 ≤ (paramsOf (1 : ℝ) 2 false).image_batch_copies
      ∧ (paramsOf (1 : ℝ) 2 false).legacy_version = false
      ∧ (batchABCD ℝ).num * ((batchABCD ℝ).num - 1) ≤ INT_MAX
      ∧ (batchABCD ℝ).num * (batchABCD ℝ).channels ≤ INT_MAX
      ∧ (batchABCD ℝ).num * ((batchABCD ℝ).num - 1) / 2 * (batchABCD ℝ).channels ≤ INT_MAX)
    ∧ Forward_cpu_checked Real.sqrt (paramsOf (1 : ℝ) 2 false) (batchABCD ℝ)
        = Except.ok (Forward_cpu Real.sqrt (paramsOf (1 : ℝ) 2 false) (batchABCD ℝ))
    ∧ (Forward_cpu Real.sqrt (paramsOf (1 : ℝ) 2 false) (batchABCD ℝ)).top_data
        = 1 / (2 * (((batchABCD ℝ).num : ℝ) * (((batchABCD ℝ).num : ℝ) - 1) / 2))
          * ∑ i in Finset.range (batchABCD ℝ).num, ∑ j in Finset.Ico (i + 1) (batchABCD ℝ).num,
              (if i / (paramsOf (1 : ℝ) 2 false).image_batch_copies
                  = j / (paramsOf (1 : ℝ) 2 false).image_batch_copies then
                sqDist (batchABCD ℝ).channels (batchABCD ℝ).bottom_data i j
              else (max ((paramsOf (1 : ℝ) 2 false).margin
                  - Real.sqrt (sqDist (batchABCD ℝ).channels (batchABCD ℝ).bottom_data i j)) 0) ^ 2) :=
  ⟨⟨by decide, by decide, rfl, by decide, by decide, by decide⟩,
    (Forward_cpu_closed_form Real.sqrt (paramsOf (1 : ℝ) 2 false) (batchABCD ℝ)
      (by decide) (by decide) rfl (by decide) (by decide) (by decide)).1,
    (Forward_cpu_closed_form Real.sqrt (paramsOf (1 : ℝ) 2 false) (batchABCD ℝ)
      (by decide) (by decide) rfl (by decide) (by decide) (by decide)).2.1⟩

/-- C2, amended: in legacy mode, for a batch of `N ≥ 2` vectors whose sizes
fit in the 32-bit `int` of the layer (`N * (N - 1)`, the element count `N * C`
of the batch and the element count `(N * (N - 1) / 2) * C` of the cache are at
most `INT_MAX = 2^31 - 1`) and `copiesPerGroup ≥ 1`, the 32-bit checked
`Forward_cpu` raises no fault and the loss it writes is `1 / (2 * P)`
times the sum over the pairs `i < j` of the squared distance (same group) or
of `max(margin - squared distance, 0)` (different groups; the hinge is on the
squared distance and is not squared), with `P = N * (N - 1) / 2`; for
`N = 4`, `C = 2`, `copiesPerGroup = 2` it is the six-term sum of the test
`TestLegacyForward` divided by `6 * 2`. -/
theorem Forward_cpu_legacy_closed_form (sqrt : α → α) (p : ContrastiveLossParameter α)
    (s : LayerState α) (hN : 2 ≤ s.num) (hcopies : 1 ≤ p.image_batch_copies)
    (hmode : p.legacy_version = true)
    (hpairs : s.num * (s.num - 1) ≤ INT_MAX) (hbatch : s.num * s.channels ≤ INT_MAX)
    (hcache : s.num * (s.num - 1) / 2 * s.channels ≤ INT_MAX) :
    Forward_cpu_checked sqrt p s = Except.ok (Forward_cpu sqrt p s)
    ∧ (Forward_cpu sqrt p s).top_data
        = 1 / (2 * ((s.num : α) * ((s.num : α) - 1) / 2))
          * ∑ i in Finset.range s.num, ∑ j in Finset.Ico (i + 1) s.num,
              (if i / p.image_batch_copies = j / p.image_batch_copies then
                sqDist s.channels s.bottom_data i j
              else max (p.margin - sqDist s.channels s.bottom_data i j) 0)
    ∧ (s.num = 4 → s.channels = 2 → p.image_batch_copies = 2 →
        (Forward_cpu sqrt p s).top_data
          = (loss_single sqrt true true p.margin (ptr_add s.bottom_data 0)
                (ptr_add s.bottom_data (1 * 2)) 2
              + loss_single sqrt true true p.margin (ptr_add s.bottom_data (2 * 2))
                (ptr_add s.bottom_data (3 * 2)) 2
              + loss_single sqrt false true p.margin (ptr_add s.bottom_data 0)
                (ptr_add s.bottom_data (2 * 2)) 2
              + loss_single sqrt false true p.margin (ptr_add s.bottom_data 0)
                (ptr_add s.bottom_data (3 * 2)) 2
              + loss_single sqrt false true p.margin (ptr_add s.bottom_data (1 * 2))
                (ptr_add s.bottom_data (2 * 2)) 2
              + loss_single sqrt false true p.margin (ptr_add s.bottom_data (1 * 2))
                (ptr_add s.bottom_data (3 * 2)) 2) / (6 * 2)) := by
  refine ⟨Forward_cpu_checked_ok sqrt p s hN hcopies hpairs hbatch hcache, ?_, ?_⟩
  · rw [Forward_cpu_top_data, cast_npairs s.num (by omega), loss_div_eq]
    congr 1
    refine Finset.sum_congr rfl (fun i _ => Finset.sum_congr rfl (fun j _ => ?_))
    simp [contrib, hmode]
  · intro h4 h2 hcp
    rw [Forward_cpu_top_data, h4, h2, hcp, hmode, sum_pairs_four]
    have e01 := loss_single_ptr_eq_contrib sqrt p.margin true s.bottom_data 0 1
    have e23 := loss_single_ptr_eq_contrib sqrt p.margin true s.bottom_data 2 3
    have e02 := loss_single_ptr_eq_contrib sqrt p.margin true s.bottom_data 0 2
    have e03 := loss_single_ptr_eq_contrib sqrt p.margin true s.bottom_data 0 3
    have e12 := loss_single_ptr_eq_contrib sqrt p.margin true s.bottom_data 1 2
    have e13 := loss_single_ptr_eq_contrib sqrt p.margin true s.bottom_data 1 3
    norm_num at e01 e23 e02 e03 e12 e13
    rw [e01, e23, e02, e03, e12, e13]
    norm_num
    ring

/-- C2, refuted as stated: the batch of `N = 65537` vectors with `C = 1`
channel, legacy mode, `copiesPerGroup = 1`, margin 1.  The 32-bit `npairs`
is `32768` (the product `num*(num-1) = 4295032832` wraps to `65536`), not the
number `P = 2147516416` of pairs: the loss sum would be divided by `32768`,
and `Forward_cpu` runs past the `32768` slots of `dist_sq_` before it gets
there. -/
theorem Forward_cpu_legacy_closed_form_counterexample :
    (2 ≤ (batchWide ℝ).num ∧ 1 ≤ (paramsOf (1 : ℝ) 1 true).image_batch_copies
      ∧ (paramsOf (1 : ℝ) 1 true).legacy_version = true)
    ∧ ((npairs (batchWide ℝ).num : ℤ) : ℝ) = 32768
    ∧ (((batchWide ℝ).num : ℝ) * (((batchWide ℝ).num : ℝ) - 1) / 2) = 2147516416
    ∧ (Reshape (batchWide ℝ).num (batchWide ℝ).channels).2 = 32768
    ∧ Forward_cpu_checked Real.sqrt (paramsOf 1 1 true) (batchWide ℝ)
        = Except.error Fault.outOfRange := by
  refine ⟨⟨by decide, by decide, rfl⟩, ?_, ?_, by decide,
    Forward_cpu_checked_wide Real.sqrt (paramsOf 1 1 true) (batchWide ℝ) rfl rfl (by decide)⟩
  · show ((npairs 65537 : ℤ) : ℝ) = 32768
    rw [npairs_wide]
    norm_num
  · show ((65537 : ℕ) : ℝ) * (((65537 : ℕ) : ℝ) - 1) / 2 = 2147516416
    norm_num

theorem Forward_cpu_legacy_closed_form_witness :
    (2 ≤ (batchABCD ℝ).num ∧ 1 ≤ (paramsOf (1 : ℝ) 2 true).image_batch_copies
      ∧ (paramsOf (1 : ℝ) 2 true).legacy_version = true
      ∧ (batchABCD ℝ).num * ((batchABCD ℝ).num - 1) ≤ INT_MAX
      ∧ (batchABCD ℝ).num * (batchABCD ℝ).channels ≤ INT_MAX
      ∧ (batchABCD ℝ).num * ((batchABCD ℝ).num - 1) / 2 * (batchABCD ℝ).channels ≤ INT_MAX)
    ∧ Forward_cpu_checked Real.sqrt (paramsOf (1 : ℝ) 2 true) (batchABCD ℝ)
        = Except.ok (Forward_cpu Real.sqrt (paramsOf (1 : ℝ) 2 true) (batchABCD ℝ))
    ∧ (Forward_cpu Real.sqrt (paramsOf (1 : ℝ) 2 true) (batchABCD ℝ)).top_data
        = 1 / (2 * (((batchABCD ℝ).num : ℝ) * (((batchABCD ℝ).num : ℝ) - 1) / 2))
          * ∑ i in Finset.range (batchABCD ℝ).num, ∑ j in Finset.Ico (i + 1) (batchABCD ℝ).num,
              (if i / (paramsOf (1 : ℝ) 2 true).image_batch_copies
                  = j / (paramsOf (1 : ℝ) 2 true).image_batch_copies then
                sqDist (batchABCD ℝ).channels (batchABCD ℝ).bottom_data i j
              else max ((paramsOf (1 : ℝ) 2 true).margin
                  - sqDist (batchABCD ℝ).channels (batchABCD ℝ).bottom_data i j) 0) :=
  ⟨⟨by decide, by decide, rfl, by decide, by decide, by decide⟩,
    (Forward_cpu_legacy_closed_form Real.sqrt (paramsOf (1 : ℝ) 2 true) (batchABCD ℝ)
      (by decide) (by decide) rfl (by decide) (by decide) (by decide)).1,
    (Forward_cpu_legacy_closed_form Real.sqrt (paramsOf (1 : ℝ) 2 true) (batchABCD ℝ)
      (by decide) (by decide) rfl (by decide) (by decide) (by decide)).2.1⟩

/-- C3, amended: for a batch of `N ≥ 2` vectors whose sizes fit in the
32-bit `int` of the layer (`N * (N - 1)`, the element count `N * C` of the
batch and the element count `(N * (N - 1) / 2) * C` of the cache are at most
`INT_MAX = 2^31 - 1`), `copiesPerGroup ≥ 1`, any margin and mode: the 32-bit
checked `Forward_cpu` raises no fault, and so does the 32-bit checked
`Backward_cpu` run after it with propagation enabled (for a `sqrt` without
negative values), whatever the gradient buffer `b0` held before and whatever
the upstream gradient `g`; row `r` of the gradient buffer they return is
`sum over j > r of coef(r,j) * (v_r - v_j)` minus
`sum over i < r of coef(i,r) * (v_i - v_r)`, where `coef` is `g / P` for a
same-group pair, `-g / P` (legacy, `margin - dist² > 0`),
`-(g / P) * (margin - d) / (d + 1e-4)` (non-legacy, `d = sqrt(dist²)`,
`margin - d > 0`) and `0` otherwise, with `P = N * (N - 1) / 2`. -/
theorem Backward_cpu_rows (sqrt : α → α) (p : ContrastiveLossParameter α)
    (s : LayerState α) (b0 : Nat → α) (g : α) (r k : Nat)
    (hN : 2 ≤ s.num) (hcopies : 1 ≤ p.image_batch_copies)
    (hr : r < s.num) (hk : k < s.channels)
    (hpairs : s.num * (s.num - 1) ≤ INT_MAX) (hbatch : s.num * s.channels ≤ INT_MAX)
    (hcache : s.num * (s.num - 1) / 2 * s.channels ≤ INT_MAX) :
    Forward_cpu_checked sqrt p s = Except.ok (Forward_cpu sqrt p s)
    ∧ ((∀ x, 0 ≤ sqrt x) →
        Backward_cpu_checked sqrt p true
            { Forward_cpu sqrt p s with bottom_diff := b0, top_diff := g }
          = Except.ok (Backward_cpu sqrt p true
            { Forward_cpu sqrt p s with bottom_diff := b0, top_diff := g }))
    ∧ (Backward_cpu sqrt p true
        { Forward_cpu sqrt p s with bottom_diff := b0, top_diff := g }).bottom_diff
        (r * s.channels + k)
      = (∑ j in Finset.Ico (r + 1) s.num,
            coef sqrt p.margin p.image_batch_copies p.legacy_version
                (g / ((s.num : α) * ((s.num : α) - 1) / 2))
                (sqDist s.channels s.bottom_data r j) r j
              * (s.bottom_data (r * s.channels + k) - s.bottom_data (j * s.channels + k)))
        - ∑ i in Finset.range r,
            coef sqrt p.margin p.image_batch_copies p.legacy_version
                (g / ((s.num : α) * ((s.num : α) - 1) / 2))
                (sqDist s.channels s.bottom_data i r) i r
              * (s.bottom_data (i * s.channels + k) - s.bottom_data (r * s.channels + k)) := by
  have hc : 1 ≤ p.image_batch_copies := hcopies
  refine ⟨Forward_cpu_checked_ok sqrt p s hN hcopies hpairs hbatch hcache,
    fun hsqrt => Backward_cpu_checked_ok sqrt hsqrt p true
      { Forward_cpu sqrt p s with bottom_diff := b0, top_diff := g } hN hcopies hpairs hbatch
      hcache, ?_⟩
  have h := Backward_cpu_row_of_cache sqrt p
    { Forward_cpu sqrt p s with bottom_diff := b0, top_diff := g } s.bottom_data
    (Forward_cpu_cache sqrt p s) r k hr hk
  rw [← cast_npairs s.num (by omega)]
  exact h

/-- C3, refuted as stated: the batch of `N = 65537` vectors with `C = 1`
channel, `copiesPerGroup = 2`, margin 1, non-legacy mode, upstream gradient
1.  `Backward_cpu` computes `alpha_p = top_diff / npairs` with the 32-bit
`npairs = 32768`, not with `P = N * (N - 1) / 2 = 2147516416`, and its loops
run past the `32768` slots of the cache at the pair with counter `32768`. -/
theorem Backward_cpu_rows_counterexample :
    (2 ≤ (batchWide ℝ).num ∧ 1 ≤ (paramsOf (1 : ℝ) 2 false).image_batch_copies)
    ∧ checkedDiv (batchWide ℝ).top_diff ((npairs (batchWide ℝ).num : ℤ) : ℝ)
        = Except.ok (1 / 32768)
    ∧ (batchWide ℝ).top_diff / (((batchWide ℝ).num : ℝ) * (((batchWide ℝ).num : ℝ) - 1) / 2)
        = 1 / 2147516416
    ∧ Backward_cpu_checked Real.sqrt (paramsOf 1 2 false) true (batchWide ℝ)
        = Except.error Fault.outOfRange := by
  refine ⟨⟨by decide, by decide⟩, ?_, ?_,
    Backward_cpu_checked_wide Real.sqrt Real.sqrt_nonneg (paramsOf 1 2 false) (batchWide ℝ)
      rfl rfl (by decide)⟩
  · show checkedDiv (1 : ℝ) ((npairs 65537 : ℤ) : ℝ) = Except.ok (1 / 32768)
    rw [npairs_wide]
    unfold checkedDiv
    rw [if_neg (by norm_num)]
    norm_num
  · show (1 : ℝ) / (((65537 : ℕ) : ℝ) * (((65537 : ℕ) : ℝ) - 1) / 2) = 1 / 2147516416
    norm_num

theorem Backward_cpu_rows_witness :
    (2 ≤ (batchABCD ℝ).num ∧ 1 ≤ (paramsOf (1 : ℝ) 2 false).image_batch_copies
      ∧ 1 < (batchABCD ℝ).num ∧ 0 < (batchABCD ℝ).channels
      ∧ (batchABCD ℝ).num * ((batchABCD ℝ).num - 1) ≤ INT_MAX
      ∧ (batchABCD ℝ).num * (batchABCD ℝ).channels ≤ INT_MAX
      ∧ (batchABCD ℝ).num * ((batchABCD ℝ).num - 1) / 2 * (batchABCD ℝ).channels ≤ INT_MAX)
    ∧ (Backward_cpu Real.sqrt (paramsOf (1 : ℝ) 2 false) true
        { Forward_cpu Real.sqrt (paramsOf (1 : ℝ) 2 false) (batchABCD ℝ) with
          bottom_diff := fun _ => 5, top_diff := 1 }).bottom_diff
        (1 * (batchABCD ℝ).channels + 0)
      = (∑ j in Finset.Ico (1 + 1) (batchABCD ℝ).num,
            coef Real.sqrt (paramsOf (1 : ℝ) 2 false).margin
                (paramsOf (1 : ℝ) 2 false).image_batch_copies
                (paramsOf (1 : ℝ) 2 false).legacy_version
                (1 / (((batchABCD ℝ).num : ℝ) * (((batchABCD ℝ).num : ℝ) - 1) / 2))
                (sqDist (batchABCD ℝ).channels (batchABCD ℝ).bottom_data 1 j) 1 j
              * ((batchABCD ℝ).bottom_data (1 * (batchABCD ℝ).channels + 0)
                  - (batchABCD ℝ).bottom_data (j * (batchABCD ℝ).channels + 0)))
        - ∑ i in Finset.range 1,
            coef Real.sqrt (paramsOf (1 : ℝ) 2 false).margin
                (paramsOf (1 : ℝ) 2 false).image_batch_copies
                (paramsOf (1 : ℝ) 2 false).legacy_version
                (1 / (((batchABCD ℝ).num : ℝ) * (((batchABCD ℝ).num : ℝ) - 1) / 2))
                (sqDist (batchABCD ℝ).channels (batchABCD ℝ).bottom_data i 1) i 1
              * ((batchABCD ℝ).bottom_data (i * (batchABCD ℝ).channels + 0)
                  - (batchABCD ℝ).bottom_data (1 * (batchABCD ℝ).channels + 0)) :=
  ⟨⟨by decide, by decide, by decide, by decide, by decide, by decide, by decide⟩,
    (Backward_cpu_rows Real.sqrt (paramsOf (1 : ℝ) 2 false) (batchABCD ℝ) (fun _ => 5) 1 1 0
      (by decide) (by decide) (by decide) (by decide) (by decide) (by decide)
      (by decide)).2.2⟩

/-- C5, amended: in non-legacy mode, for a batch of `N ≥ 2` vectors whose
sizes fit in the 32-bit `int` of the layer (`N * (N - 1)`, the element count
`N * C` of the batch and the element count `(N * (N - 1) / 2) * C` of the
cache are at most `INT_MAX = 2^31 - 1`), `copiesPerGroup ≥ 1` and a margin at
which the loss is differentiable (no different-group pair has Euclidean
distance 0 or equal to the margin), with upstream gradient 1: the 32-bit
checked `Forward_cpu` and `Backward_cpu` raise no fault, the loss of
`Forward_cpu` as a function of the input scalar `v_r[k0]` has derivative
`(sum over pairs of dContrib) / P / 2`, and entry `(r, k0)` of the gradient
buffer written by `Backward_cpu` is the same sum with the term of every
different-group pair with `margin - d > 0` multiplied by `d / (d + 1e-4)`. -/
theorem Backward_cpu_nonlegacy_scaled_gradient (p : ContrastiveLossParameter ℝ)
    (s : LayerState ℝ) (b0 : Nat → ℝ) (r k0 : Nat) (hN : 2 ≤ s.num)
    (hcopies : 1 ≤ p.image_batch_copies) (hmode : p.legacy_version = false)
    (hr : r < s.num) (hk0 : k0 < s.channels)
    (hkink : ∀ i j, i < j → j < s.num →
      i / p.image_batch_copies ≠ j / p.image_batch_copies →
      Real.sqrt (sqDist s.channels s.bottom_data i j) ≠ 0
        ∧ Real.sqrt (sqDist s.channels s.bottom_data i j) ≠ p.margin)
    (hpairs : s.num * (s.num - 1) ≤ INT_MAX) (hbatch : s.num * s.channels ≤ INT_MAX)
    (hcache : s.num * (s.num - 1) / 2 * s.channels ≤ INT_MAX) :
    Forward_cpu_checked Real.sqrt p s = Except.ok (Forward_cpu Real.sqrt p s)
    ∧ Backward_cpu_checked Real.sqrt p true
          { Forward_cpu Real.sqrt p s with bottom_diff := b0, top_diff := 1 }
        = Except.ok (Backward_cpu Real.sqrt p true
          { Forward_cpu Real.sqrt p s with bottom_diff := b0, top_diff := 1 })
    ∧ HasDerivAt
      (fun x => (Forward_cpu Real.sqrt p (perturb s (r * s.channels + k0) x)).top_data)
      (∑ i in Finset.range s.num, ∑ j in Finset.Ico (i + 1) s.num,
        dContrib Real.sqrt p.margin p.image_batch_copies false s.channels s.bottom_data r k0 i j
          / ((s.num : ℝ) * ((s.num : ℝ) - 1) / 2) / 2)
      (s.bottom_data (r * s.channels + k0))
    ∧ (Backward_cpu Real.sqrt p true
          { Forward_cpu Real.sqrt p s with bottom_diff := b0, top_diff := 1 }).bottom_diff
        (r * s.channels + k0)
      = ∑ i in Finset.range s.num, ∑ j in Finset.Ico (i + 1) s.num,
          epsScale Real.sqrt p.margin p.image_batch_copies s.channels s.bottom_data i j
            * (dContrib Real.sqrt p.margin p.image_batch_copies false s.channels
                s.bottom_data r k0 i j / ((s.num : ℝ) * ((s.num : ℝ) - 1) / 2) / 2) := by
  have hc : 1 ≤ p.image_batch_copies := hcopies
  refine ⟨Forward_cpu_checked_ok Real.sqrt p s hN hcopies hpairs hbatch hcache,
    Backward_cpu_checked_ok Real.sqrt Real.sqrt_nonneg p true
      { Forward_cpu Real.sqrt p s with bottom_diff := b0, top_diff := 1 } hN hcopies hpairs
      hbatch hcache, ?_⟩
  rw [← cast_npairs s.num (by omega)]
  exact ⟨hasDerivAt_Forward_cpu_nonlegacy p s r k0 hmode hk0 hkink,
    Backward_cpu_nonlegacy_entry p s b0 r k0 hmode hr hk0
      (fun i j hij hj hg => (hkink i j hij hj hg).1)⟩

/-- C5, refuted as stated: non-legacy mode, `N = 2`, `C = 1`,
`copiesPerGroup = 1`, margin 1, batch `v_0 = [0]`, `v_1 = [1/2]` (distance
`1/2`, neither 0 nor the margin), upstream gradient 1.  The derivative of the
loss of `Forward_cpu` with respect to `v_0[0]` is `1/2`, while `Backward_cpu`
writes `2500/5001` into entry `(0, 0)` of the gradient buffer.  And for the
batch of `N = 65537` vectors with `C = 1` channel the 32-bit `npairs` is
`32768` for `2147516416` pairs, and `Forward_cpu` runs past the cache. -/
theorem nonlegacy_gradient_counterexample :
    (Real.sqrt (sqDist 1 (stateOf 2 1 [(0 : ℝ), 1 / 2]).bottom_data 0 1) ≠ 0
      ∧ Real.sqrt (sqDist 1 (stateOf 2 1 [(0 : ℝ), 1 / 2]).bottom_data 0 1) ≠ 1)
    ∧ HasDerivAt
        (fun x => (Forward_cpu Real.sqrt (paramsOf 1 1 false)
          (perturb (stateOf 2 1 [(0 : ℝ), 1 / 2]) (0 * 1 + 0) x)).top_data)
        (1 / 2) ((stateOf 2 1 [(0 : ℝ), 1 / 2]).bottom_data (0 * 1 + 0))
    ∧ (Backward_cpu Real.sqrt (paramsOf 1 1 false) true
          { Forward_cpu Real.sqrt (paramsOf 1 1 false) (stateOf 2 1 [(0 : ℝ), 1 / 2]) with
            bottom_diff := fun _ => 0, top_diff := 1 }).bottom_diff (0 * 1 + 0)
        = 2500 / 5001
    ∧ ¬ HasDerivAt
        (fun x => (Forward_cpu Real.sqrt (paramsOf 1 1 false)
          (perturb (stateOf 2 1 [(0 : ℝ), 1 / 2]) (0 * 1 + 0) x)).top_data)
        ((Backward_cpu Real.sqrt (paramsOf 1 1 false) true
          { Forward_cpu Real.sqrt (paramsOf 1 1 false) (stateOf 2 1 [(0 : ℝ), 1 / 2]) with
            bottom_diff := fun _ => 0, top_diff := 1 }).bottom_diff (0 * 1 + 0))
        ((stateOf 2 1 [(0 : ℝ), 1 / 2]).bottom_data (0 * 1 + 0))
    ∧ npairs (batchWide ℝ).num = 32768
    ∧ (pairs (batchWide ℝ).num).length = 2147516416
    ∧ Forward_cpu_checked Real.sqrt (paramsOf 1 1 false) (batchWide ℝ)
        = Except.error Fault.outOfRange := by
  have hs : Real.sqrt (sqDist 1 (stateOf 2 1 [(0 : ℝ), 1 / 2]).bottom_data 0 1) = 1 / 2 := by
    rw [sqrt_sqDist_one_pair]
    norm_num [abs_of_neg]
  have hkink := example_pair_differentiable
  have hd := hasDerivAt_Forward_cpu_nonlegacy (paramsOf 1 1 false)
    (stateOf 2 1 [(0 : ℝ), 1 / 2]) 0 0 rfl (by decide) hkink
  have hg := Backward_cpu_nonlegacy_entry (paramsOf 1 1 false)
    (stateOf 2 1 [(0 : ℝ), 1 / 2]) (fun _ => 0) 0 0 rfl (by decide) (by decide)
    (fun i j hij hj hne => (hkink i j hij hj hne).1)
  have hsum : (∑ i in Finset.range (stateOf 2 1 [(0 : ℝ), 1 / 2]).num,
      ∑ j in Finset.Ico (i + 1) (stateOf 2 1 [(0 : ℝ), 1 / 2]).num,
        dContrib Real.sqrt (paramsOf (1 : ℝ) 1 false).margin
            (paramsOf (1 : ℝ) 1 false).image_batch_copies false
            (stateOf 2 1 [(0 : ℝ), 1 / 2]).channels (stateOf 2 1 [(0 : ℝ), 1 / 2]).bottom_data
            0 0 i j
          / (((stateOf 2 1 [(0 : ℝ), 1 / 2]).num
              * ((stateOf 2 1 [(0 : ℝ), 1 / 2]).num - 1) / 2 : ℕ) : ℝ) / 2) = 1 / 2 := by
    show (∑ i in Finset.range 2, ∑ j in Finset.Ico (i + 1) 2,
        dContrib Real.sqrt 1 1 false 1 (stateOf 2 1 [(0 : ℝ), 1 / 2]).bottom_data 0 0 i j
          / ((2 * (2 - 1) / 2 : ℕ) : ℝ) / 2) = 1 / 2
    simp only [Finset.sum_range_succ, Finset.sum_range_zero, zero_add, Finset.Ico_self,
      Finset.sum_empty, add_zero, Nat.reduceAdd]
    have e : Finset.Ico 1 2 = {1} := by decide
    rw [e, Finset.sum_singleton]
    unfold dContrib
    rw [hs]
    norm_num [dSqDist, stateOf]
  have hgv : (Backward_cpu Real.sqrt (paramsOf 1 1 false) true
          { Forward_cpu Real.sqrt (paramsOf 1 1 false) (stateOf 2 1 [(0 : ℝ), 1 / 2]) with
            bottom_diff := fun _ => 0, top_diff := 1 }).bottom_diff (0 * 1 + 0)
        = 2500 / 5001 := by
    refine hg.trans ?_
    show (∑ i in Finset.range 2, ∑ j in Finset.Ico (i + 1) 2,
        epsScale Real.sqrt 1 1 1 (stateOf 2 1 [(0 : ℝ), 1 / 2]).bottom_data i j
        * (dContrib Real.sqrt 1 1 false 1 (stateOf 2 1 [(0 : ℝ), 1 / 2]).bottom_data 0 0 i j
          / ((2 * (2 - 1) / 2 : ℕ) : ℝ) / 2)) = 2500 / 5001
    simp only [Finset.sum_range_succ, Finset.sum_range_zero, zero_add, Finset.Ico_self,
      Finset.sum_empty, add_zero, Nat.reduceAdd]
    have e : Finset.Ico 1 2 = {1} := by decide
    rw [e, Finset.sum_singleton]
    unfold dContrib epsScale
    rw [hs]
    norm_num [dSqDist, stateOf]
  rw [hsum] at hd
  refine ⟨by rw [hs]; norm_num, hd, hgv, ?_, npairs_wide, length_pairs_wide,
    Forward_cpu_checked_wide Real.sqrt (paramsOf 1 1 false) (batchWide ℝ) rfl rfl (by decide)⟩
  intro hcontra
  have := hd.unique hcontra
  rw [hgv] at this
  norm_num at this

theorem Backward_cpu_nonlegacy_scaled_gradient_witness :
    (2 ≤ (stateOf 2 1 [(0 : ℝ), 1 / 2]).num
      ∧ 1 ≤ (paramsOf (1 : ℝ) 1 false).image_batch_copies
      ∧ (paramsOf (1 : ℝ) 1 false).legacy_version = false
      ∧ 0 < (stateOf 2 1 [(0 : ℝ), 1 / 2]).num ∧ 0 < (stateOf 2 1 [(0 : ℝ), 1 / 2]).channels
      ∧ ∀ i j, i < j → j < (stateOf 2 1 [(0 : ℝ), 1 / 2]).num →
          i / (paramsOf (1 : ℝ) 1 false).image_batch_copies
            ≠ j / (paramsOf (1 : ℝ) 1 false).image_batch_copies →
          Real.sqrt (sqDist (stateOf 2 1 [(0 : ℝ), 1 / 2]).channels
              (stateOf 2 1 [(0 : ℝ), 1 / 2]).bottom_data i j) ≠ 0
            ∧ Real.sqrt (sqDist (stateOf 2 1 [(0 : ℝ), 1 / 2]).channels
              (stateOf 2 1 [(0 : ℝ), 1 / 2]).bottom_data i j)
                ≠ (paramsOf (1 : ℝ) 1 false).margin)
    ∧ ((stateOf 2 1 [(0 : ℝ), 1 / 2]).num * ((stateOf 2 1 [(0 : ℝ), 1 / 2]).num - 1) ≤ INT_MAX
      ∧ (stateOf 2 1 [(0 : ℝ), 1 / 2]).num * (stateOf 2 1 [(0 : ℝ), 1 / 2]).channels ≤ INT_MAX
      ∧ (stateOf 2 1 [(0 : ℝ), 1 / 2]).num * ((stateOf 2 1 [(0 : ℝ), 1 / 2]).num - 1) / 2
          * (stateOf 2 1 [(0 : ℝ), 1 / 2]).channels ≤ INT_MAX)
    ∧ (Backward_cpu Real.sqrt (paramsOf 1 1 false) true
          { Forward_cpu Real.sqrt (paramsOf 1 1 false) (stateOf 2 1 [(0 : ℝ), 1 / 2]) with
            bottom_diff := fun _ => 0, top_diff := 1 }).bottom_diff
        (0 * (stateOf 2 1 [(0 : ℝ), 1 / 2]).channels + 0)
      = ∑ i in Finset.range (stateOf 2 1 [(0 : ℝ), 1 / 2]).num,
          ∑ j in Finset.Ico (i + 1) (stateOf 2 1 [(0 : ℝ), 1 / 2]).num,
            epsScale Real.sqrt (paramsOf (1 : ℝ) 1 false).margin
                (paramsOf (1 : ℝ) 1 false).image_batch_copies
                (stateOf 2 1 [(0 : ℝ), 1 / 2]).channels
                (stateOf 2 1 [(0 : ℝ), 1 / 2]).bottom_data i j
              * (dContrib Real.sqrt (paramsOf (1 : ℝ) 1 false).margin
                  (paramsOf (1 : ℝ) 1 false).image_batch_copies false
                  (stateOf 2 1 [(0 : ℝ), 1 / 2]).channels
                  (stateOf 2 1 [(0 : ℝ), 1 / 2]).bottom_data 0 0 i j
                / ((((stateOf 2 1 [(0 : ℝ), 1 / 2]).num : ℕ) : ℝ)
                    * ((((stateOf 2 1 [(0 : ℝ), 1 / 2]).num : ℕ) : ℝ) - 1) / 2) / 2) :=
  ⟨⟨by decide, by decide, rfl, by decide, by decide, example_pair_differentiable⟩,
    ⟨by decide, by decide, by decide⟩,
    (Backward_cpu_nonlegacy_scaled_gradient (paramsOf 1 1 false)
      (stateOf 2 1 [(0 : ℝ), 1 / 2]) (fun _ => 0) 0 0 (by decide) (by decide) rfl (by decide)
      (by decide) example_pair_differentiable (by decide) (by decide) (by decide)).2.2.2⟩

/-! ## Batches that fit in an `int`: the cache and its indices (C14, C16) -/

/-- C14, amended: for a batch of `N ≥ 2` vectors whose sizes fit in the
32-bit `int` of the layer (`N * (N - 1)`, the element count `N * C` of the
batch and the element count `(N * (N - 1) / 2) * C` of the cache are at most
`INT_MAX = 2^31 - 1`): `Reshape` sizes the cache to `N * (N - 1) / 2` pairs,
the 32-bit checked `Forward_cpu` raises no fault (`copiesPerGroup ≥ 1`), and
after it, for every pair `i < j < N` and its linear index
`c = i * N - i * (i + 1) / 2 + (j - i - 1)`: `c < N * (N - 1) / 2` (a slot of
the cache), the cached difference `diff_[c]` is `v_i - v_j`
elementwise and the cached `dist_sq_[c]` is the sum over the channels of
`(v_i[k] - v_j[k])^2`; the pair visited by the loops with counter `t` has
linear index `t`; and `(i, j) ↦ c` is one-to-one on the pairs and onto
`[0, N * (N - 1) / 2)`, so that every cache slot is written by exactly one
pair. -/
theorem cache_fill_canonical (sqrt : α → α) (p : ContrastiveLossParameter α)
    (s : LayerState α) (hN : 2 ≤ s.num)
    (hpairs : s.num * (s.num - 1) ≤ INT_MAX) (hbatch : s.num * s.channels ≤ INT_MAX)
    (hcache : s.num * (s.num - 1) / 2 * s.channels ≤ INT_MAX) :
    Reshape s.num s.channels
        = (s.num * (s.num - 1) / 2 * s.channels, s.num * (s.num - 1) / 2)
    ∧ (1 ≤ p.image_batch_copies →
        Forward_cpu_checked sqrt p s = Except.ok (Forward_cpu sqrt p s))
    ∧ (∀ i j, i < j → j < s.num →
      pairIndex s.num i j < (Reshape s.num s.channels).2
      ∧ pairIndex s.num i j < s.num * (s.num - 1) / 2
      ∧ (∀ k, k < s.channels →
          (Forward_cpu sqrt p s).diff_ (pairIndex s.num i j * s.channels + k)
            = s.bottom_data (i * s.channels + k) - s.bottom_data (j * s.channels + k))
      ∧ (Forward_cpu sqrt p s).dist_sq_ (pairIndex s.num i j)
          = ∑ k in Finset.range s.channels,
              (s.bottom_data (i * s.channels + k) - s.bottom_data (j * s.channels + k)) ^ 2)
    ∧ (∀ t (h : t < (pairs s.num).length),
        pairIndex s.num (pairs s.num)[t].1 (pairs s.num)[t].2 = t)
    ∧ (∀ i j i1 j1, i < j → j < s.num → i1 < j1 → j1 < s.num →
        pairIndex s.num i j = pairIndex s.num i1 j1 → i = i1 ∧ j = j1)
    ∧ (∀ c, c < s.num * (s.num - 1) / 2 →
        ∃ i j, i < j ∧ j < s.num ∧ pairIndex s.num i j = c) := by
  have h1 : 1 ≤ s.num := by omega
  refine ⟨Reshape_of_fits s.num s.channels hpairs,
    fun hcopies => Forward_cpu_checked_ok sqrt p s hN hcopies hpairs hbatch hcache,
    ?_, fun t h => pairIndex_getElem s.num h1 t h, ?_, ?_⟩
  · intro i j hij hj
    obtain ⟨hlt, hget⟩ := getElem_pairIndex s.num i j hij hj
    have hc := Forward_cpu_cache sqrt p s (pairIndex s.num i j) hlt
    rw [hget, zero_add] at hc
    refine ⟨by rw [Reshape_of_fits s.num s.channels hpairs, npairs_eq_length]; exact hlt,
      by rw [npairs_eq_length]; exact hlt, hc.1, ?_⟩
    rw [hc.2]
    rfl
  · intro i j i1 j1 hij hj hij1 hj1 heq
    obtain ⟨hlt, hget⟩ := getElem_pairIndex s.num i j hij hj
    obtain ⟨hlt1, hget1⟩ := getElem_pairIndex s.num i1 j1 hij1 hj1
    have e : (pairs s.num)[pairIndex s.num i j] = (pairs s.num)[pairIndex s.num i1 j1] := by
      simp only [heq]
    rw [hget, hget1] at e
    exact ⟨congrArg Prod.fst e, congrArg Prod.snd e⟩
  · intro c hc
    rw [npairs_eq_length] at hc
    have hm := mem_pairs s.num _ (List.getElem_mem hc)
    exact ⟨(pairs s.num)[c].1, (pairs s.num)[c].2, hm.1, hm.2,
      pairIndex_getElem s.num h1 c hc⟩

/-- C14, refuted as stated: the batch of `N = 65537` vectors with `C = 1`
channel.  `Reshape` computes `npairs` in the 32-bit `int` and sizes `diff_`
and `dist_sq_` to `32768` slots; the pair `(0, 32769)` has linear index
`32768`, outside the cache, and `Forward_cpu` (non-legacy, `copiesPerGroup`
2, margin 1) runs past the cache when its counter reaches that index. -/
theorem cache_fill_canonical_counterexample :
    2 ≤ (batchWide ℝ).num
    ∧ Reshape (batchWide ℝ).num (batchWide ℝ).channels = (32768, 32768)
    ∧ ((0 : ℕ) < 32769 ∧ 32769 < (batchWide ℝ).num)
    ∧ pairIndex (batchWide ℝ).num 0 32769 = 32768
    ∧ ¬ pairIndex (batchWide ℝ).num 0 32769
        < (Reshape (batchWide ℝ).num (batchWide ℝ).channels).2
    ∧ Forward_cpu_checked Real.sqrt (paramsOf 1 2 false) (batchWide ℝ)
        = Except.error Fault.outOfRange :=
  ⟨by decide, Reshape_wide, by decide, by decide, by decide,
    Forward_cpu_checked_wide Real.sqrt (paramsOf 1 2 false) (batchWide ℝ) rfl rfl (by decide)⟩

theorem cache_fill_canonical_witness :
    (2 ≤ (batchABCD ℝ).num
      ∧ (batchABCD ℝ).num * ((batchABCD ℝ).num - 1) ≤ INT_MAX
      ∧ (batchABCD ℝ).num * (batchABCD ℝ).channels ≤ INT_MAX
      ∧ (batchABCD ℝ).num * ((batchABCD ℝ).num - 1) / 2 * (batchABCD ℝ).channels ≤ INT_MAX)
    ∧ Reshape (batchABCD ℝ).num (batchABCD ℝ).channels
        = ((batchABCD ℝ).num * ((batchABCD ℝ).num - 1) / 2 * (batchABCD ℝ).channels,
            (batchABCD ℝ).num * ((batchABCD ℝ).num - 1) / 2)
    ∧ (∀ c, c < (batchABCD ℝ).num * ((batchABCD ℝ).num - 1) / 2 →
        ∃ i j, i < j ∧ j < (batchABCD ℝ).num ∧ pairIndex (batchABCD ℝ).num i j = c) :=
  ⟨⟨by decide, by decide, by decide, by decide⟩,
    (cache_fill_canonical Real.sqrt (paramsOf 1 2 false) (batchABCD ℝ) (by decide) (by decide)
      (by decide) (by decide)).1,
    (cache_fill_canonical Real.sqrt (paramsOf 1 2 false) (batchABCD ℝ) (by decide) (by decide)
      (by decide) (by decide)).2.2.2.2.2⟩

/-- C16, amended: for `N ≥ 2`, `C ≥ 1` and `copiesPerGroup ≥ 1` with sizes
that fit in the 32-bit `int` of the layer (`N * (N - 1)`, the element count
`N * C` of the batch and the element count `(N * (N - 1) / 2) * C` of the
cache are at most `INT_MAX = 2^31 - 1`), `Reshape` sizes the cache to
`N * (N - 1) / 2` pairs, and the 32-bit checked runs of `Forward_cpu` and
`Backward_cpu` raise no fault (no access out of range, no division by zero,
no offset or counter beyond `INT_MAX`) and return what the unchecked
functions return; the loop counter `c` is `t` when the `t`-th pair
is visited, with `t < N * (N - 1) / 2` and rows `i < j < N`, and ends at
exactly `N * (N - 1) / 2` in both functions; `image_batch_copies` is not
zero. -/
theorem indexing_in_bounds (p : ContrastiveLossParameter ℝ) (s : LayerState ℝ)
    (propagate_down0 : Bool) (hN : 2 ≤ s.num) (hC : 1 ≤ s.channels)
    (hcopies : 1 ≤ p.image_batch_copies)
    (hpairs : s.num * (s.num - 1) ≤ INT_MAX) (hbatch : s.num * s.channels ≤ INT_MAX)
    (hcache : s.num * (s.num - 1) / 2 * s.channels ≤ INT_MAX) :
    Reshape s.num s.channels
        = (s.num * (s.num - 1) / 2 * s.channels, s.num * (s.num - 1) / 2)
    ∧ Forward_cpu_checked Real.sqrt p s = Except.ok (Forward_cpu Real.sqrt p s)
    ∧ Backward_cpu_checked Real.sqrt p propagate_down0 s
        = Except.ok (Backward_cpu Real.sqrt p propagate_down0 s)
    ∧ (∀ t (h : t < (pairs s.num).length),
        (((pairs s.num).take t).foldl
            (fun st q => Forward_body Real.sqrt p.margin p.image_batch_copies p.legacy_version
              s.channels s.bottom_data q.1 st q.2)
            { c := 0, loss := 0, diff_ := s.diff_, dist_sq_ := s.dist_sq_ }).c = t
        ∧ (((pairs s.num).take t).foldl
            (fun st q => Backward_body Real.sqrt p.margin p.image_batch_copies p.legacy_version
              s.channels (s.top_diff / ((s.num * (s.num - 1) / 2 : ℕ) : ℝ))
              (-(s.top_diff / ((s.num * (s.num - 1) / 2 : ℕ) : ℝ))) s.diff_ s.dist_sq_
              q.1 st q.2)
            { c := 0, bout := caffe_set (s.channels * s.num) 0 s.bottom_diff }).c = t
        ∧ t < s.num * (s.num - 1) / 2
        ∧ t < (Reshape s.num s.channels).2
        ∧ t * s.channels + s.channels ≤ (Reshape s.num s.channels).1
        ∧ (pairs s.num)[t].1 < (pairs s.num)[t].2 ∧ (pairs s.num)[t].2 < s.num)
    ∧ (Forward_loops Real.sqrt p.margin p.image_batch_copies p.legacy_version s.num s.channels
          s.bottom_data { c := 0, loss := 0, diff_ := s.diff_, dist_sq_ := s.dist_sq_ }).c
        = s.num * (s.num - 1) / 2
    ∧ (Backward_loops Real.sqrt p.margin p.image_batch_copies p.legacy_version s.num s.channels
          (s.top_diff / ((s.num * (s.num - 1) / 2 : ℕ) : ℝ))
          (-(s.top_diff / ((s.num * (s.num - 1) / 2 : ℕ) : ℝ))) s.diff_ s.dist_sq_
          { c := 0, bout := caffe_set (s.channels * s.num) 0 s.bottom_diff }).c
        = s.num * (s.num - 1) / 2
    ∧ p.image_batch_copies ≠ 0 := by
  have hC1 : 1 ≤ s.channels := hC
  refine ⟨Reshape_of_fits s.num s.channels hpairs,
    Forward_cpu_checked_ok Real.sqrt p s hN hcopies hpairs hbatch hcache,
    Backward_cpu_checked_ok Real.sqrt Real.sqrt_nonneg p propagate_down0 s hN hcopies hpairs
      hbatch hcache,
    ?_, Forward_loops_counter _ _ _ _ _ _ _ _ _, Backward_loops_counter _ _ _ _ _ _ _ _ _ _ _,
    by omega⟩
  intro t h
  have hm := mem_pairs s.num _ (List.getElem_mem h)
  have ht : t < s.num * (s.num - 1) / 2 := by
    rw [npairs_eq_length]
    exact h
  refine ⟨Forward_counter_at _ _ _ _ _ _ _ _ _ t h.le,
    Backward_counter_at _ _ _ _ _ _ _ _ _ _ _ t h.le, ht, ?_, ?_, hm.1, hm.2⟩
  · rw [Reshape_of_fits s.num s.channels hpairs]
    exact ht
  · rw [Reshape_of_fits s.num s.channels hpairs]
    exact row_in_range _ s.channels t ht

/-- C16, refuted as stated: `N = 65537`, `C = 1`, `copiesPerGroup = 2`
(non-legacy, margin 1).  The product `num*(num-1) = 4295032832` wraps to
`65536` in the 32-bit `int`, `Reshape` sizes `diff_` and `dist_sq_` to
`32768` slots, and the loops of `Forward_cpu` and of `Backward_cpu` visit
`2147516416` pairs: both run out of range at the pair with counter `32768`. -/
theorem indexing_in_bounds_counterexample :
    (2 ≤ (batchWide ℝ).num ∧ 1 ≤ (batchWide ℝ).channels
      ∧ 1 ≤ (paramsOf (1 : ℝ) 2 false).image_batch_copies)
    ∧ int32 (((batchWide ℝ).num : ℤ) * (((batchWide ℝ).num : ℤ) - 1)) = 65536
    ∧ Reshape (batchWide ℝ).num (batchWide ℝ).channels = (32768, 32768)
    ∧ (pairs (batchWide ℝ).num).length = 2147516416
    ∧ Forward_cpu_checked Real.sqrt (paramsOf 1 2 false) (batchWide ℝ)
        = Except.error Fault.outOfRange
    ∧ Backward_cpu_checked Real.sqrt (paramsOf 1 2 false) true (batchWide ℝ)
        = Except.error Fault.outOfRange :=
  ⟨⟨by decide, by decide, by decide⟩, by decide, Reshape_wide, length_pairs_wide,
    Forward_cpu_checked_wide Real.sqrt (paramsOf 1 2 false) (batchWide ℝ) rfl rfl (by decide),
    Backward_cpu_checked_wide Real.sqrt Real.sqrt_nonneg (paramsOf 1 2 false) (batchWide ℝ)
      rfl rfl (by decide)⟩

theorem indexing_in_bounds_witness :
    (2 ≤ (batchABCD ℝ).num ∧ 1 ≤ (batchABCD ℝ).channels
      ∧ 1 ≤ (paramsOf (1 : ℝ) 2 false).image_batch_copies
      ∧ (batchABCD ℝ).num * ((batchABCD ℝ).num - 1) ≤ INT_MAX
      ∧ (batchABCD ℝ).num * (batchABCD ℝ).channels ≤ INT_MAX
      ∧ (batchABCD ℝ).num * ((batchABCD ℝ).num - 1) / 2 * (batchABCD ℝ).channels ≤ INT_MAX)
    ∧ Forward_cpu_checked Real.sqrt (paramsOf 1 2 false) (batchABCD ℝ)
        = Except.ok (Forward_cpu Real.sqrt (paramsOf 1 2 false) (batchABCD ℝ))
    ∧ Backward_cpu_checked Real.sqrt (paramsOf 1 2 false) true (batchABCD ℝ)
        = Except.ok (Backward_cpu Real.sqrt (paramsOf 1 2 false) true (batchABCD ℝ)) :=
  ⟨⟨by decide, by decide, by decide, by decide, by decide, by decide⟩,
    (indexing_in_bounds (paramsOf 1 2 false) (batchABCD ℝ) true (by decide) (by decide)
      (by decide) (by decide) (by decide) (by decide)).2.1,
    (indexing_in_bounds (paramsOf 1 2 false) (batchABCD ℝ) true (by decide) (by decide)
      (by decide) (by decide) (by decide) (by decide)).2.2.1⟩

end Lemmas

end Caffe
